import Mathlib

/-!
# lolboard2: the scraper's aggregation pipeline and the server's bucketing

A shallow embedding of `backend/opgg-scraper.js` and `backend/server.js`.

Conventions of the embedding

* JavaScript strings are Lean strings, and text is scanned as a list of characters.
  The two patterns of the source only mention ASCII characters, so scanning code
  points instead of UTF-16 code units finds the same matches.
* JavaScript numbers are binary64 values: a finite value is the rational it stands
  for, and every operation rounds its exact result to the nearest binary64 value, a
  tie going to the even significand; `Infinity`, `-Infinity` and `NaN` are values
  of their own.  The two zeros are one value: the program has no negative number,
  so `-0` never arises.
* A plain object used as a dictionary is an association list in insertion order.
* What the program reads from outside (the page, the clock) is a parameter.
-/

namespace Lolboard

/-! ## JavaScript values -/

/-- Truthiness of a string: every string but the empty one is truthy. -/
def truthy (s : String) : Bool := s != ""

/-- Truthiness of a property that may be missing: `undefined` is falsy. -/
def truthyOpt : Option String → Bool
  | none => false
  | some s => truthy s

/-- The operator `a || b` on strings. -/
def orElse (a b : String) : String := if truthy a then a else b

/-! ## JavaScript numbers -/

/-- A JavaScript number: a finite value, one of the two infinities, or `NaN`. -/
inductive JSNumber where
  | finite (q : ℚ) : JSNumber
  | posInf : JSNumber
  | negInf : JSNumber
  | nan : JSNumber
  deriving DecidableEq

/-- Round to the nearest integer, a tie going to the even one. -/
def roundHalfEven (x : ℚ) : ℤ :=
  if x - ⌊x⌋ < 1 / 2 then ⌊x⌋
  else if 1 / 2 < x - ⌊x⌋ then ⌊x⌋ + 1
  else if ⌊x⌋ % 2 = 0 then ⌊x⌋ else ⌊x⌋ + 1

/-- The spacing of the binary64 values around a rational: `2^(e - 52)` for a rational
between `2^e` and `2^(e + 1)`, and `2^(-1074)` below `2^(-1022)`. -/
def quantumOf (q : ℚ) : ℚ := (2 : ℚ) ^ (max (Int.log 2 |q|) (-1022) - 52)

/-- The binary64 value nearest to a rational, a tie going to the even significand; a
result of `2^1024` or more in size is an infinity. -/
def toDouble (q : ℚ) : JSNumber :=
  let r : ℚ := (roundHalfEven (q / quantumOf q) : ℚ) * quantumOf q
  if (2 : ℚ) ^ 1024 ≤ r then JSNumber.posInf
  else if r ≤ -(2 : ℚ) ^ 1024 then JSNumber.negInf
  else JSNumber.finite r

namespace JSNumber

/-- The operator `x + y`. -/
def add : JSNumber → JSNumber → JSNumber
  | finite a, finite b => toDouble (a + b)
  | nan, _ => nan
  | _, nan => nan
  | posInf, negInf => nan
  | negInf, posInf => nan
  | posInf, _ => posInf
  | _, posInf => posInf
  | negInf, _ => negInf
  | _, negInf => negInf

/-- The operator `x * y`. -/
def mul : JSNumber → JSNumber → JSNumber
  | finite a, finite b => toDouble (a * b)
  | nan, _ => nan
  | _, nan => nan
  | posInf, finite b => if b = 0 then nan else if 0 < b then posInf else negInf
  | negInf, finite b => if b = 0 then nan else if 0 < b then negInf else posInf
  | finite a, posInf => if a = 0 then nan else if 0 < a then posInf else negInf
  | finite a, negInf => if a = 0 then nan else if 0 < a then negInf else posInf
  | posInf, posInf => posInf
  | negInf, negInf => posInf
  | posInf, negInf => negInf
  | negInf, posInf => negInf

/-- The operator `x / y`.  The zero of the embedding is `+0`. -/
def div : JSNumber → JSNumber → JSNumber
  | finite a, finite b =>
    if b = 0 then (if a = 0 then nan else if 0 < a then posInf else negInf)
    else toDouble (a / b)
  | nan, _ => nan
  | _, nan => nan
  | finite _, posInf => finite 0
  | finite _, negInf => finite 0
  | posInf, finite b => if 0 ≤ b then posInf else negInf
  | negInf, finite b => if 0 ≤ b then negInf else posInf
  | posInf, posInf => nan
  | posInf, negInf => nan
  | negInf, posInf => nan
  | negInf, negInf => nan

/-- The comparison `x > y`, which is false when an operand is `NaN`. -/
def gt : JSNumber → JSNumber → Bool
  | finite a, finite b => decide (b < a)
  | posInf, finite _ => true
  | posInf, negInf => true
  | finite _, negInf => true
  | _, _ => false

/-- The number of elements of an array, which is below `2^32` and so a binary64
value. -/
def ofLength (n : ℕ) : JSNumber := finite (n : ℚ)

end JSNumber

/-- The function `Math.max` on two numbers. -/
def Math.max : JSNumber → JSNumber → JSNumber
  | JSNumber.nan, _ => JSNumber.nan
  | _, JSNumber.nan => JSNumber.nan
  | JSNumber.posInf, _ => JSNumber.posInf
  | _, JSNumber.posInf => JSNumber.posInf
  | JSNumber.negInf, y => y
  | x, JSNumber.negInf => x
  | JSNumber.finite a, JSNumber.finite b => JSNumber.finite (if a < b then b else a)

/-- The function `Math.round`: the nearest integer, a tie going up. -/
def Math.round : JSNumber → JSNumber
  | JSNumber.finite q => JSNumber.finite (⌊q + 1 / 2⌋ : ℤ)
  | x => x

/-- The operator `x || 0` on numbers: `0` and `NaN` are the falsy numbers. -/
def orZero : JSNumber → JSNumber
  | JSNumber.finite q => if q = 0 then JSNumber.finite 0 else JSNumber.finite q
  | JSNumber.nan => JSNumber.finite 0
  | x => x

/-! ## Strings -/

/-- The method `String.prototype.includes` on character lists: the needle is looked for at
position 0, then 1, and so on. -/
def includes : List Char → List Char → Bool
  | [], needle => needle.isEmpty
  | c :: cs, needle => needle.isPrefixOf (c :: cs) || includes cs needle

/-! ## Plain objects used as dictionaries -/

/-- A plain object whose property names are strings, in insertion order. -/
abbrev JSObject (α : Type) := List (String × α)

namespace JSObject

variable {α : Type}

/-- The keys `Object.keys(o)`, in insertion order (JavaScript lists the names that
are array indices first; only membership matters below). -/
def keys (o : JSObject α) : List String := o.map Prod.fst

/-- The value `o[k]` of an own property. -/
def get (o : JSObject α) (k : String) : Option α := List.lookup k o

/-- Overwrite the value of an own property, or add the property at the end. -/
def put : JSObject α → String → α → JSObject α
  | [], k, v => [(k, v)]
  | (k0, v0) :: rest, k, v => if k0 = k then (k, v) :: rest else (k0, v0) :: put rest k v

/-- The assignment `o[k] = v` on an object created by `{}`.  The name `__proto__` is
an accessor inherited from `Object.prototype`: assigning to it creates no own
property. -/
def set (o : JSObject α) (k : String) (v : α) : JSObject α :=
  if k = "__proto__" then o else put o k v

end JSObject

/-! ## The two regular expressions

Both patterns are sequences of capturing groups `(\d+)` and literal characters.
The matcher below is the backtracking matcher of the language for that fragment. -/

/-- One item of a pattern. -/
inductive Atom where
  /-- The capturing group `(\d+)`. -/
  | digits : Atom
  /-- A literal character, such as `\/` or `%`. -/
  | lit (c : Char) : Atom
  deriving DecidableEq, Repr

/-- A successful match: `whole` is `match[0]`, `groups` are `match[1]`, `match[2]`,
and so on, `rest` is the text after the match. -/
structure MatchResult where
  whole : List Char
  groups : List (List Char)
  rest : List Char
  deriving DecidableEq, Repr

/-- The class `\d`: the ten ASCII digits. -/
def isDigit (c : Char) : Bool := decide (48 ≤ c.toNat) && decide (c.toNat ≤ 57)

/-- The longest run of digits at the head of the text. -/
def digitRun (s : List Char) : List Char := s.takeWhile isDigit

/-- Greedy choice: try `f k`, then `f (k - 1)`, down to `f 1`. -/
def firstFrom (f : Nat → Option MatchResult) : Nat → Option MatchResult
  | 0 => none
  | k + 1 =>
    match f (k + 1) with
    | some m => some m
    | none => firstFrom f k

/-- Match the pattern at the head of the text.  `\d+` takes as many digits as it
can and gives them back one at a time while the rest of the pattern fails. -/
def matchHere : List Atom → List Char → Option MatchResult
  | [], s => some ⟨[], [], s⟩
  | Atom.lit c :: r, s =>
    match s with
    | [] => none
    | x :: t =>
      if x = c then
        (matchHere r t).map fun m => ⟨x :: m.whole, m.groups, m.rest⟩
      else none
  | Atom.digits :: r, s =>
    firstFrom
      (fun k => (matchHere r (s.drop k)).map fun m =>
        ⟨s.take k ++ m.whole, s.take k :: m.groups, m.rest⟩)
      (digitRun s).length

/-- Find the leftmost match: the pattern is tried at the head of the text, then one
character further, and so on (`RegExp.prototype.exec` from the current position). -/
def exec (r : List Atom) : List Char → Option MatchResult
  | [] => matchHere r []
  | c :: cs =>
    match matchHere r (c :: cs) with
    | some m => some m
    | none => exec r cs

/-- The element `match[i]` of a match array, for `i ≥ 1`. -/
def MatchResult.group (m : MatchResult) (i : Nat) : List Char := m.groups.getD (i - 1) []

/-- The integer that a run of digits writes in decimal. -/
def mathInt (ds : List Char) : Nat := ds.foldl (fun n c => 10 * n + (c.toNat - 48)) 0

/-- The function `parseInt` on a run of digits: the binary64 value nearest to the
integer that the digits write. -/
def parseInt (ds : List Char) : JSNumber := toDouble (mathInt ds : ℚ)

/-- The pattern `/(\d+)\/(\d+)\/(\d+)/`. -/
def kdaRegex : List Atom :=
  [Atom.digits, Atom.lit '/', Atom.digits, Atom.lit '/', Atom.digits]

/-- The pattern `/(\d+)%/`. -/
def winrateRegex : List Atom := [Atom.digits, Atom.lit '%']

/-! ## Records -/

/-- One match of a player, as the scraper stores it. -/
structure MatchRecord where
  champion : String
  kda : String
  result : String
  timestamp : Int
  deriving DecidableEq, Repr

/-- The object returned by `scrapePlayerStats`.  The property `error` is present on
the object built by the `catch` branch only, `scrapedFrom` on the other one only. -/
structure PlayerRecord where
  summonerName : String
  level : String
  rank : String
  winrate : String
  recentMatches : List MatchRecord
  lastUpdate : String
  scrapedFrom : Option String
  error : Option String
  deriving DecidableEq, Repr

/-- A value of `stats.players`. -/
structure PlayerInfo where
  display_name : String
  summoner_name : String
  rank : String
  level : String
  winrate : JSNumber
  deriving DecidableEq

/-- A value of `stats.memeStats`. -/
structure MemeStats where
  average_deaths : JSNumber
  average_kills : JSNumber
  average_assists : JSNumber
  kda_ratio : JSNumber
  winrate : JSNumber
  total_games : ℕ
  champion_variety : ℕ
  recent_matches : ℕ
  deriving DecidableEq

/-- The object returned by `calculateMemeStats`. -/
structure Stats where
  players : JSObject PlayerInfo
  memeStats : JSObject MemeStats

/-- The three numbers parsed from a KDA string. -/
structure Kda where
  kills : JSNumber
  deaths : JSNumber
  assists : JSNumber
  deriving DecidableEq

/-! ## `calculateMemeStats` -/

/-- The test `if (player.error)`. -/
def hasError (player : PlayerRecord) : Bool := truthyOpt player.error

/-- The number `parseInt(winrateMatch[1])` when `player.winrate.match(/(\d+)%/)`
matches, else `0`. -/
def winrateNum (winrate : String) : JSNumber :=
  match exec winrateRegex winrate.toList with
  | some m => parseInt (m.group 1)
  | none => JSNumber.finite 0

/-- The callback of `matches.map`: the parsed KDA, or `null` (here `none`, which
`reduceOption` filters out as `filter(kda => kda !== null)` does). -/
def parseKda (m : MatchRecord) : Option Kda :=
  match exec kdaRegex m.kda.toList with
  | some r => some ⟨parseInt (r.group 1), parseInt (r.group 2), parseInt (r.group 3)⟩
  | none => none

/-- The method `String.prototype.toLowerCase`, on the letters `A` to `Z`.  The other
characters that JavaScript changes cannot complete an occurrence of `victory` or
`win`. -/
def toLowerCase (s : String) : List Char := s.toList.map Char.toLower

/-- The callback of `matches.filter` that counts wins. -/
def isWin (m : MatchRecord) : Bool :=
  includes (toLowerCase m.result) "victory".toList ||
    includes (toLowerCase m.result) "win".toList

/-- The number `new Set(xs).size`: the values are added one by one, a value already
present is not added again. -/
def setSize (xs : List String) : ℕ :=
  (xs.foldl (fun seen x => if x ∈ seen then seen else seen ++ [x]) []).length

/-- The object stored in `stats.memeStats[playerId]`. -/
def memeStatsOf (winrateNum : JSNumber) (recentMatches : List MatchRecord) : MemeStats :=
  if recentMatches.length > 0 then
    let kdas := (recentMatches.map parseKda).reduceOption
    if kdas.length > 0 then
      let avgKills :=
        (kdas.foldl (fun sum kda => sum.add kda.kills) (JSNumber.finite 0)).div
          (JSNumber.ofLength kdas.length)
      let avgDeaths :=
        (kdas.foldl (fun sum kda => sum.add kda.deaths) (JSNumber.finite 0)).div
          (JSNumber.ofLength kdas.length)
      let avgAssists :=
        (kdas.foldl (fun sum kda => sum.add kda.assists) (JSNumber.finite 0)).div
          (JSNumber.ofLength kdas.length)
      let wins := (recentMatches.filter isWin).length
      let matchWinrate :=
        if recentMatches.length > 0 then
          ((JSNumber.ofLength wins).div (JSNumber.ofLength recentMatches.length)).mul
            (JSNumber.finite 100)
        else winrateNum
      { average_deaths := (Math.round (avgDeaths.mul (JSNumber.finite 100))).div (JSNumber.finite 100)
        average_kills := (Math.round (avgKills.mul (JSNumber.finite 100))).div (JSNumber.finite 100)
        average_assists :=
          (Math.round (avgAssists.mul (JSNumber.finite 100))).div (JSNumber.finite 100)
        kda_ratio :=
          (Math.round
            (((avgKills.add avgAssists).div (Math.max avgDeaths (toDouble (1 / 10)))).mul
              (JSNumber.finite 100))).div (JSNumber.finite 100)
        winrate := (Math.round (matchWinrate.mul (JSNumber.finite 100))).div (JSNumber.finite 100)
        total_games := recentMatches.length
        champion_variety := setSize ((recentMatches.map (·.champion)).filter (· ≠ "Unknown"))
        recent_matches := recentMatches.length }
    else
      { average_deaths := JSNumber.finite 0, average_kills := JSNumber.finite 0
        average_assists := JSNumber.finite 0, kda_ratio := JSNumber.finite 0
        winrate := winrateNum, total_games := 0, champion_variety := 0
        recent_matches := recentMatches.length }
  else
    { average_deaths := JSNumber.finite 0, average_kills := JSNumber.finite 0
      average_assists := JSNumber.finite 0, kda_ratio := JSNumber.finite 0
      winrate := winrateNum, total_games := 0, champion_variety := 0, recent_matches := 0 }

/-- The object that the callback assigns to `stats.memeStats[playerId]` for a player
without error.  An array is truthy, so `player.recentMatches || []` is the array. -/
def derivedStats (player : PlayerRecord) : MemeStats :=
  memeStatsOf (winrateNum player.winrate) player.recentMatches

/-- The callback of `playersData.forEach`. -/
def processPlayer (stats : Stats) (player : PlayerRecord) : Stats :=
  if hasError player then stats
  else
    let playerId := player.summonerName
    let players := stats.players.set playerId
      { display_name := playerId, summoner_name := playerId, rank := player.rank
        level := player.level, winrate := winrateNum player.winrate }
    { players := players
      memeStats := stats.memeStats.set playerId (derivedStats player) }

/-- The method `calculateMemeStats`. -/
def calculateMemeStats (playersData : List PlayerRecord) : Stats :=
  playersData.foldl processPlayer { players := [], memeStats := [] }

/-! ## `calculateEnhancedMemeStats` (server.js) -/

/-- The array `statTypes`. -/
def statTypes : List String :=
  ["average_deaths", "average_kills", "average_assists", "kda_ratio", "winrate",
   "champion_variety", "total_games"]

/-- The property access `playerStats[statType]`. -/
def MemeStats.prop (s : MemeStats) (statType : String) : Option JSNumber :=
  if statType = "average_deaths" then some s.average_deaths
  else if statType = "average_kills" then some s.average_kills
  else if statType = "average_assists" then some s.average_assists
  else if statType = "kda_ratio" then some s.kda_ratio
  else if statType = "winrate" then some s.winrate
  else if statType = "total_games" then some (JSNumber.ofLength s.total_games)
  else if statType = "champion_variety" then some (JSNumber.ofLength s.champion_variety)
  else if statType = "recent_matches" then some (JSNumber.ofLength s.recent_matches)
  else none

/-- The object returned by `calculateEnhancedMemeStats`: `core` holds the seven
properties named by `statTypes`. -/
structure EnhancedStats where
  core : JSObject (JSObject JSNumber)
  player_categories : JSObject String
  death_rate_category : JSObject String
  kda_category : JSObject String

/-- The value `processedStats.memeStats[player]?.[statType] || 0`. -/
def statValue (memeStats : JSObject MemeStats) (player statType : String) : JSNumber :=
  match memeStats.get player with
  | some playerStats =>
    match playerStats.prop statType with
    | some x => orZero x
    | none => JSNumber.finite 0
  | none => JSNumber.finite 0

/-- The death-rate label chosen by the first `if` cascade. -/
def deathRateCategory (avgDeaths : JSNumber) : String :=
  if avgDeaths.gt (JSNumber.finite 8) then "Professional Feeder 💀"
  else if avgDeaths.gt (JSNumber.finite 6) then "Casual Inter 😵"
  else if avgDeaths.gt (JSNumber.finite 4) then "Risky Player ⚡"
  else if avgDeaths.gt (JSNumber.finite 2) then "Decent Human 😐"
  else "KDA Player 😎"

/-- The KDA label chosen by the second `if` cascade. -/
def kdaCategory (kda : JSNumber) : String :=
  if kda.gt (JSNumber.finite 3) then "Smurf Alert 🚨"
  else if kda.gt (JSNumber.finite 2) then "Actually Good 👍"
  else if kda.gt (JSNumber.finite (3 / 2)) then "Decent Player 👌"
  else if kda.gt (JSNumber.finite 1) then "Needs Improvement 📈"
  else "Questionable Choices 🤔"

/-- The callback of the second `players.forEach`. -/
def categorize (memeStats : JSObject MemeStats) (stats : EnhancedStats) (player : String) :
    EnhancedStats :=
  match memeStats.get player with
  | some playerStats =>
    let avgDeaths := orZero playerStats.average_deaths
    let kda := orZero playerStats.kda_ratio
    { stats with
      death_rate_category := stats.death_rate_category.set player (deathRateCategory avgDeaths)
      kda_category := stats.kda_category.set player (kdaCategory kda) }
  | none => stats

/-- The function `calculateEnhancedMemeStats`. -/
def calculateEnhancedMemeStats (processedStats : Stats) : EnhancedStats :=
  let players := processedStats.memeStats.keys
  let core : JSObject (JSObject JSNumber) :=
    statTypes.foldl
      (fun stats statType =>
        stats.set statType
          (players.foldl
            (fun o player => o.set player (statValue processedStats.memeStats player statType))
            []))
      []
  players.foldl (categorize processedStats.memeStats)
    { core := core, player_categories := [], death_rate_category := [], kda_category := [] }

/-! ## `scrapePlayerStats` and `scrapeMultiplePlayers`

The page is what `cheerio` finds in it: for each locator of the source, the trimmed
text it yields. -/

/-- One element matched by a match-item selector: what each of the locators applied
to it yields. -/
structure MatchElement where
  /-- Text of `$match.find('.champion-name').text().trim()` -/
  championName : String
  /-- Text of `$match.find('[data-testid="champion-name"]').text().trim()` -/
  championTestid : String
  /-- Value of `$match.find('img').attr('alt')`, which may be `undefined` -/
  imgAlt : Option String
  /-- Text of `$match.find('.kda').text().trim()` -/
  kda : String
  /-- Text of `$match.find('[data-testid="kda"]').text().trim()` -/
  kdaTestid : String
  /-- Text of `$match.find('div:contains("/")').text().trim()` -/
  slashDiv : String
  /-- Text of `$match.find('.result').text().trim()` -/
  result : String
  /-- Text of `$match.find('[data-testid="result"]').text().trim()` -/
  resultTestid : String
  /-- Value of `$match.hasClass('win')` -/
  hasWin : Bool
  /-- Value of `$match.hasClass('lose')` -/
  hasLose : Bool
  deriving DecidableEq, Repr

/-- The loaded page `$`. -/
structure Document where
  /-- Text of `$('[data-testid="summoner-level"]').text().trim()` -/
  levelTestid : String
  /-- Text of `$('.summoner-level').text().trim()` -/
  levelClass : String
  /-- Text of `$('div:contains("Level")').next().text().trim()` -/
  levelNext : String
  /-- Text of `$('[data-testid="tier"]').text().trim()` -/
  tierTestid : String
  /-- Text of `$('.tier').text().trim()` -/
  tierClass : String
  /-- Text of `$('div:contains("Rank")').parent().find('div').last().text().trim()` -/
  rankLast : String
  /-- Text of `$('[data-testid="winrate"]').text().trim()` -/
  winrateTestid : String
  /-- Text of `$('.winrate').text().trim()` -/
  winrateClass : String
  /-- Text of `$('div:contains("%")').text().trim()` -/
  percentDiv : String
  /-- The elements of `$(selector)` for the four `matchSelectors`, in their order. -/
  gameItem : List MatchElement
  gameItemTestid : List MatchElement
  gameItemWrap : List MatchElement
  matchItem : List MatchElement
  /-- Text of the page, `$.text()` -/
  text : String
  deriving DecidableEq, Repr

/-- How the `try` block of `scrapePlayerStats` goes: `axios.get` or `cheerio.load`
throws an error with a message, or the page is loaded. -/
inductive Outcome where
  | failed (message : String) : Outcome
  | loaded (doc : Document) : Outcome
  deriving DecidableEq, Repr

/-- What one call of `scrapePlayerStats` meets outside the program. -/
structure Call where
  outcome : Outcome
  /-- The reading of `Date.now()` when the record number `k` of the call is pushed. -/
  now : Nat → Int
  /-- Value of `new Date().toISOString()` when the result object is built. -/
  isoTime : String
  /-- The library function `encodeURIComponent`. -/
  encodeURIComponent : String → String

/-- The method `getProfileURL`, with `baseURL` and `region` of the constructor. -/
def getProfileURL (encodeURIComponent : String → String) (summonerName : String) : String :=
  "https://www.op.gg/lol/summoners" ++ "/" ++ "na" ++ "/" ++ encodeURIComponent summonerName

/-- The champion of a match element: the first non-empty of three locators, else `''`. -/
def MatchElement.champion (e : MatchElement) : String :=
  orElse e.championName (orElse e.championTestid (orElse (e.imgAlt.getD "") ""))

/-- The KDA text of a match element. -/
def MatchElement.kdaElement (e : MatchElement) : String :=
  orElse e.kda (orElse e.kdaTestid e.slashDiv)

/-- The result text of a match element. -/
def MatchElement.resultText (e : MatchElement) : String :=
  orElse e.result (orElse e.resultTestid
    (if e.hasWin then "Victory" else (if e.hasLose then "Defeat" else "")))

/-- The state of the match extraction: the array `recentMatches` and the flag
`matchesFound`. -/
structure Extraction where
  recentMatches : List MatchRecord
  matchesFound : Bool

/-- The loop `$(selector).each((i, element) => ...)` from index `i` on: it stops at
`i >= 20`, and pushes a record when champion and KDA are both non-empty. -/
def eachElement (now : Nat → Int) : List MatchElement → Nat → Extraction → Extraction
  | [], _, st => st
  | e :: es, i, st =>
    if i ≥ 20 then st
    else if truthy e.champion && truthy e.kdaElement then
      eachElement now es (i + 1)
        { recentMatches := st.recentMatches ++
            [{ champion := e.champion, kda := e.kdaElement
               result := orElse e.resultText "Unknown"
               timestamp := now st.recentMatches.length - (i : Int) * 1800000 }]
          matchesFound := true }
    else eachElement now es (i + 1) st

/-- The loop `for (const selector of matchSelectors)`, with its `break`. -/
def trySelectors (now : Nat → Int) : List (List MatchElement) → Extraction → Extraction
  | [], st => st
  | elements :: others, st =>
    let st1 := eachElement now elements 0 st
    if st1.matchesFound then st1 else trySelectors now others st1

/-- The fallback loop `while ((match = kdaRegex.exec(bodyText)) !== null && kdaCount < 10)`.
The regular expression is global: each search starts where the previous match
ended, so the state is the text not yet searched.  The first argument bounds the
number of iterations. -/
def fallbackLoop (now : Nat → Int) :
    Nat → List Char → Nat → List MatchRecord → List MatchRecord
  | 0, _, _, recentMatches => recentMatches
  | fuel + 1, unsearched, kdaCount, recentMatches =>
    match exec kdaRegex unsearched with
    | none => recentMatches
    | some m =>
      if kdaCount < 10 then
        fallbackLoop now fuel m.rest (kdaCount + 1)
          (recentMatches ++
            [{ champion := "Unknown", kda := String.mk m.whole, result := "Unknown"
               timestamp := now recentMatches.length - (kdaCount : Int) * 1800000 }])
      else recentMatches

/-- The match extraction of `scrapePlayerStats`: the selectors, then the fallback
scan when they found nothing.  Every match of the scan takes at least one
character, so the loop runs at most `length + 1` times. -/
def extractMatches (now : Nat → Int) (doc : Document) : List MatchRecord :=
  let st := trySelectors now [doc.gameItem, doc.gameItemTestid, doc.gameItemWrap, doc.matchItem]
    { recentMatches := [], matchesFound := false }
  if st.recentMatches.length = 0 then
    fallbackLoop now (doc.text.toList.length + 1) doc.text.toList 0 st.recentMatches
  else st.recentMatches

/-- The method `scrapePlayerStats`: the `try` block on a loaded page, the `catch`
block on a failure. -/
def scrapePlayerStats (call : Call) (summonerName : String) : PlayerRecord :=
  match call.outcome with
  | Outcome.loaded doc =>
    let url := getProfileURL call.encodeURIComponent summonerName
    let level := orElse doc.levelTestid (orElse doc.levelClass doc.levelNext)
    let rank := orElse doc.tierTestid (orElse doc.tierClass doc.rankLast)
    let winrateText := orElse doc.winrateTestid (orElse doc.winrateClass doc.percentDiv)
    { summonerName := summonerName
      level := orElse level "Unknown"
      rank := orElse rank "Unranked"
      winrate := orElse winrateText "0%"
      recentMatches := extractMatches call.now doc
      lastUpdate := call.isoTime
      scrapedFrom := some url
      error := none }
  | Outcome.failed message =>
    { summonerName := summonerName
      level := "Error"
      rank := "Error"
      winrate := "0%"
      recentMatches := []
      lastUpdate := call.isoTime
      scrapedFrom := none
      error := some message }

/-- The loop of `scrapeMultiplePlayers` from index `i` on.  `world i` is what the
call for `summonerNames[i]` meets.  `scrapePlayerStats` handles every failure
itself, so the `catch` of this loop has nothing to catch; the delay between two
calls only lets time pass. -/
def scrapeFrom (world : Nat → Call) : List String → Nat → List PlayerRecord → List PlayerRecord
  | [], _, results => results
  | name :: rest, i, results =>
    scrapeFrom world rest (i + 1) (results ++ [scrapePlayerStats (world i) name])

/-- The method `scrapeMultiplePlayers`. -/
def scrapeMultiplePlayers (world : Nat → Call) (summonerNames : List String) :
    List PlayerRecord :=
  scrapeFrom world summonerNames 0 []

/-! ## The rate limiter (server.js) -/

/-- The map `rateLimitMap`: for each caller that has an entry, its timestamps. -/
abbrev RateLimitMap := String → Option (List Int)

/-- The map `new Map()`. -/
def emptyRateLimitMap : RateLimitMap := fun _ => none

/-- The constant `RATE_LIMIT_WINDOW`, in milliseconds. -/
def RATE_LIMIT_WINDOW : Int := 60 * 1000

/-- The constant `RATE_LIMIT_MAX_REQUESTS`. -/
def RATE_LIMIT_MAX_REQUESTS : Nat := 10

/-- The timestamps `rateLimitMap.get(ip)`, the empty array for a caller without
entry (the function creates that entry before it reads it). -/
def storedTimes (rateLimitMap : RateLimitMap) (ip : String) : List Int :=
  (rateLimitMap ip).getD []

/-- The function `checkRateLimit`, `now` being the reading of `Date.now()`: its result
and the map after the call. -/
def checkRateLimit (rateLimitMap : RateLimitMap) (now : Int) (ip : String) :
    Bool × RateLimitMap :=
  let windowStart := now - RATE_LIMIT_WINDOW
  let withEntry : RateLimitMap :=
    if (rateLimitMap ip).isSome then rateLimitMap
    else Function.update rateLimitMap ip (some [])
  let requests := (storedTimes withEntry ip).filter fun time => time > windowStart
  if requests.length ≥ RATE_LIMIT_MAX_REQUESTS then (false, withEntry)
  else (true, Function.update withEntry ip (some (requests ++ [now])))

/-- One call of `checkRateLimit`: the caller and the clock reading. -/
structure Request where
  ip : String
  now : Int
  deriving DecidableEq, Repr

/-- A call that was made, with its result. -/
structure Served where
  ip : String
  now : Int
  allowed : Bool
  deriving DecidableEq, Repr

/-- The map and the log of the calls made so far. -/
structure Limiter where
  rateLimitMap : RateLimitMap
  log : List Served

/-- Make one call and log its result. -/
def serve (state : Limiter) (request : Request) : Limiter :=
  let result := checkRateLimit state.rateLimitMap request.now request.ip
  { rateLimitMap := result.2
    log := state.log ++ [{ ip := request.ip, now := request.now, allowed := result.1 }] }

/-- Make the calls of a sequence in order, starting from the empty map. -/
def runRequests (requests : List Request) : Limiter :=
  requests.foldl serve { rateLimitMap := emptyRateLimitMap, log := [] }

/-! ## Notions used to state the properties -/

/-- The number `y` is `x` rounded to two decimals, as a binary64 value: the value
nearest to a multiple `N / 100` of `1/100` at distance at most `1/200` from `x`, the
upper multiple when there are two. -/
def RoundsTo2 (x : ℚ) (y : JSNumber) : Prop :=
  ∃ N : ℤ, y = toDouble ((N : ℚ) / 100) ∧ x - 1 / 200 < (N : ℚ) / 100 ∧ (N : ℚ) / 100 ≤ x + 1 / 200

/-- The number `y` is `x` rounded to two decimals up to an error `err` made before the
rounding: the binary64 value nearest to `N / 100` for an integer `N` that rounds a
number at distance at most `err` from `100 * x`. -/
def RoundsTo2UpTo (err x : ℚ) (y : JSNumber) : Prop :=
  ∃ N : ℤ, y = toDouble ((N : ℚ) / 100) ∧
    100 * x - 1 / 2 - err < (N : ℚ) ∧ (N : ℚ) ≤ 100 * x + 1 / 2 + err

/-- The KDA triples of the matches whose KDA string parses, in match order. -/
def parsedKdas (recentMatches : List MatchRecord) : List Kda :=
  recentMatches.filterMap parseKda

/-- The integer written by a run of decimal digits, its last digit being the units. -/
def decimalValue (ds : List Char) : ℕ :=
  Nat.ofDigits 10 (ds.reverse.map fun c => c.toNat - 48)

/-- The three integers that a KDA string writes. -/
structure ExactKda where
  kills : ℕ
  deaths : ℕ
  assists : ℕ
  deriving DecidableEq, Repr

/-- The integers of the first digits `/` digits `/` digits of the KDA string of a
match, if there is one. -/
def exactKda (m : MatchRecord) : Option ExactKda :=
  match exec kdaRegex m.kda.toList with
  | some r =>
    some ⟨decimalValue (r.group 1), decimalValue (r.group 2), decimalValue (r.group 3)⟩
  | none => none

/-- The integer triples of the matches whose KDA string parses, in match order. -/
def exactKdas (recentMatches : List MatchRecord) : List ExactKda :=
  recentMatches.filterMap exactKda

/-- The sum of a component over a list of integer triples. -/
def total (component : ExactKda → ℕ) (kdas : List ExactKda) : ℕ :=
  (kdas.map component).sum

/-- The mean of a component over a list of integer triples. -/
def mean (component : ExactKda → ℕ) (kdas : List ExactKda) : ℚ :=
  (total component kdas : ℚ) / (kdas.length : ℚ)

/-- The triple of binary64 values nearest to three integers, which is what `parseInt`
makes of their digits. -/
def ExactKda.toKda (k : ExactKda) : Kda :=
  ⟨toDouble (k.kills : ℚ), toDouble (k.deaths : ℚ), toDouble (k.assists : ℚ)⟩

/-- The expression `kdas.reduce((sum, kda) => sum + kda.c, 0) / kdas.length` of the
source, for a component `c`. -/
def avgOf (component : Kda → JSNumber) (kdas : List Kda) : JSNumber :=
  (kdas.foldl (fun sum kda => sum.add (component kda)) (JSNumber.finite 0)).div
    (JSNumber.ofLength kdas.length)

/-- The expression `Math.round(x * 100) / 100` of the source. -/
def round2 (x : JSNumber) : JSNumber :=
  (Math.round (x.mul (JSNumber.finite 100))).div (JSNumber.finite 100)

/-- The KDA ratio of the specification: `(K + A) / max(D, 0.1)` for the mean kills,
deaths and assists `K`, `D`, `A` of the integer triples. -/
def exactRatio (kdas : List ExactKda) : ℚ :=
  (mean ExactKda.kills kdas + mean ExactKda.assists kdas) /
    max (mean ExactKda.deaths kdas) (1 / 10)

/-- The unit roundoff of binary64: half the spacing of the values between `1` and `2`. -/
def unitRoundoff : ℚ := 1 / 2 ^ 53

/-- The number `r` is the non-negative number `x` up to `k` roundings: the quotient of
the two lies between `(1 - 2^-53)^k` and its inverse. -/
def Near (k : ℕ) (x r : ℚ) : Prop :=
  0 ≤ x ∧ x * (1 - unitRoundoff) ^ k ≤ r ∧ r * (1 - unitRoundoff) ^ k ≤ x

/-- The number `100 * x` is at a distance of more than `err` from every half-integer, the
numbers at which rounding to two decimals jumps. -/
def AwayFromTies (err x : ℚ) : Prop :=
  ∀ N : ℤ, err < |100 * x - ((N : ℚ) + 1 / 2)|

/-- The number of distinct champion names of the matches, `Unknown` left out. -/
def distinctChampions (recentMatches : List MatchRecord) : ℕ :=
  ((recentMatches.map fun m => m.champion).toFinset.erase "Unknown").card

/-- The number of win-indicating matches. -/
def winCount (recentMatches : List MatchRecord) : ℕ :=
  (recentMatches.filter fun m => isWin m).length

/-- A non-empty run of digits. -/
def IsDigits (a : List Char) : Prop := a ≠ [] ∧ ∀ x ∈ a, isDigit x = true

/-- A text of the form digits `/` digits `/` digits. -/
def IsKdaText (w : List Char) : Prop :=
  ∃ a b c, IsDigits a ∧ IsDigits b ∧ IsDigits c ∧ w = a ++ '/' :: (b ++ '/' :: c)

/-- The relation `Occurrences t ws`: the list `ws` holds the leftmost non-overlapping occurrences
of digits `/` digits `/` digits in the text `t`, in text order.  The first one
starts where the earliest occurrence of `t` starts and is the longest one starting
there; the next ones are those of the text after it. -/
inductive Occurrences : List Char → List (List Char) → Prop where
  | done (t : List Char) :
      (∀ pre w post, t = pre ++ w ++ post → ¬ IsKdaText w) → Occurrences t []
  | next (t pre w post : List Char) (ws : List (List Char)) :
      t = pre ++ w ++ post → IsKdaText w →
      (∀ pre1 w1 post1, t = pre1 ++ w1 ++ post1 → IsKdaText w1 → pre.length ≤ pre1.length) →
      (∀ w1 post1, w ++ post = w1 ++ post1 → IsKdaText w1 → w1.length ≤ w.length) →
      Occurrences post ws → Occurrences t (w :: ws)

/-- The record that the fallback scan builds for the occurrence number `k`. -/
def fallbackRecord (now : Nat → Int) (k : Nat) (w : List Char) : MatchRecord :=
  { champion := "Unknown", kda := String.mk w, result := "Unknown"
    timestamp := now k - (k : Int) * 1800000 }

/-- The records that the fallback scan builds for the occurrences `ws`, the first one
being the occurrence number `k`. -/
def fallbackRecordsFrom (now : Nat → Int) : Nat → List (List Char) → List MatchRecord
  | _, [] => []
  | k, w :: ws => fallbackRecord now k w :: fallbackRecordsFrom now (k + 1) ws

/-- No element among the first 20 of a selector has both a champion and a KDA text. -/
def NoAcceptedMatch (elements : List MatchElement) : Prop :=
  ∀ e ∈ elements.take 20, ¬ (truthy e.champion = true ∧ truthy e.kdaElement = true)

/-- A candidate is accepted when its champion and its KDA text are both non-empty. -/
def IsAccepted (e : MatchElement) : Bool := e.champion != "" && e.kdaElement != ""

/-- The champion, KDA text and result that an accepted candidate contributes, an
empty result being replaced by `Unknown`. -/
def candidateTriple (e : MatchElement) : String × String × String :=
  (e.champion, e.kdaElement, if e.resultText = "" then "Unknown" else e.resultText)

/-- The champion, KDA text and result of a match record. -/
def MatchRecord.triple (r : MatchRecord) : String × String × String :=
  (r.champion, r.kda, r.result)

/-- The text holds a digit immediately followed by `%`. -/
def HasDigitBeforePercent (t : List Char) : Prop :=
  ∃ u d v, t = u ++ d :: '%' :: v ∧ isDigit d = true

/-- The five death-rate labels, from the highest tier down. -/
def deathRateLabels : List String :=
  ["Professional Feeder 💀", "Casual Inter 😵", "Risky Player ⚡", "Decent Human 😐",
   "KDA Player 😎"]

/-- The five KDA labels, from the highest tier down. -/
def kdaLabels : List String :=
  ["Smurf Alert 🚨", "Actually Good 👍", "Decent Player 👌", "Needs Improvement 📈",
   "Questionable Choices 🤔"]

/-- The clock readings of the allowed calls of a caller, in call order. -/
def allowedTimes (log : List Served) (ip : String) : List Int :=
  (log.filter fun e => decide (e.ip = ip) && e.allowed).map fun e => e.now

/-- The results of the calls of a caller, in call order. -/
def resultsOf (log : List Served) (ip : String) : List Bool :=
  (log.filter fun e => decide (e.ip = ip)).map fun e => e.allowed

/-! ## Sample records -/

/-- A record as the `catch` branch of `scrapePlayerStats` builds it. -/
def sampleFailed (name msg : String) : PlayerRecord :=
  { summonerName := name, level := "Error", rank := "Error", winrate := "0%"
    recentMatches := [], lastUpdate := "2024-01-01T00:00:00.000Z", scrapedFrom := none
    error := some msg }

/-- A record as the `try` branch of `scrapePlayerStats` builds it. -/
def sampleLoaded (name winrate : String) (recentMatches : List MatchRecord) : PlayerRecord :=
  { summonerName := name, level := "30", rank := "Gold", winrate := winrate
    recentMatches := recentMatches, lastUpdate := "2024-01-01T00:00:00.000Z"
    scrapedFrom := some "https://www.op.gg/lol/summoners/na/x", error := none }

/-- A match record with the given champion, KDA text and result. -/
def sampleMatch (champion kda result : String) : MatchRecord :=
  { champion := champion, kda := kda, result := result, timestamp := 0 }

/-- A player with one win whose second match has no parseable KDA text. -/
def sampleMixed : PlayerRecord :=
  sampleLoaded "A" "50%"
    [sampleMatch "Ahri" "1/2/3" "Victory", sampleMatch "Zed" "n/a" "Defeat"]

/-- A player whose only match parses and is lost, with a textual winrate of 55%. -/
def sampleDefeat : PlayerRecord :=
  sampleLoaded "A" "55%" [sampleMatch "Ahri" "1/2/3" "Defeat"]

/-- A player with the results Victory, Defeat, Victory, all KDA texts parseable. -/
def sampleTwoOfThree : PlayerRecord :=
  sampleLoaded "A" "12%"
    [sampleMatch "Ahri" "1/2/3" "Victory", sampleMatch "Unknown" "0/5/1" "Defeat",
     sampleMatch "Ahri" "4/0/6" "Victory"]

/-- A player with the champions Ahri, Unknown, Ahri and no parseable KDA text. -/
def sampleNoKda : PlayerRecord :=
  sampleLoaded "A" "50%"
    [sampleMatch "Ahri" "3.5 KDA" "Victory", sampleMatch "Unknown" "3.5 KDA" "Defeat",
     sampleMatch "Ahri" "3.5 KDA" "Victory"]

/-- Derived statistics with the given average deaths and KDA ratio. -/
def sampleStats (averageDeaths kdaRatio : ℚ) : MemeStats :=
  { average_deaths := JSNumber.finite averageDeaths, average_kills := JSNumber.finite 5
    average_assists := JSNumber.finite 5, kda_ratio := JSNumber.finite kdaRatio
    winrate := JSNumber.finite 50, total_games := 10, champion_variety := 3
    recent_matches := 10 }

/-- The entry of `players` for a name. -/
def sampleInfo (name : String) : PlayerInfo :=
  { display_name := name, summoner_name := name, rank := "Gold", level := "30"
    winrate := JSNumber.finite 50 }

/-- Three players: `A` at the thresholds (8 deaths, KDA 3), `B` above them, `C` below. -/
def sampleProcessed : Stats :=
  { players := [("A", sampleInfo "A"), ("B", sampleInfo "B"), ("C", sampleInfo "C")]
    memeStats :=
      [("A", sampleStats 8 3), ("B", sampleStats 9 4), ("C", sampleStats 7 (5 / 2))] }

/-- A page with no match item, whose text holds `7/2/5` three times. -/
def samplePage : Document :=
  { levelTestid := "30", levelClass := "", levelNext := ""
    tierTestid := "", tierClass := "Gold 2", rankLast := ""
    winrateTestid := "", winrateClass := "", percentDiv := "Win Rate 55%"
    gameItem := [], gameItemTestid := [], gameItemWrap := [], matchItem := []
    text := "Ranked 7/2/5 Normal 7/2/5 ARAM 7/2/5 end" }

/-- A world in which the second call (index 1) fails and the others load `samplePage`. -/
def sampleWorld (i : Nat) : Call :=
  { outcome := if i = 1 then Outcome.failed "Request failed with status code 404"
      else Outcome.loaded samplePage
    now := fun _ => 1700000000000
    isoTime := "2024-01-01T00:00:00.000Z"
    encodeURIComponent := fun s => s }

/-- A match element of which only the class-based locators find something. -/
def sampleElement (champion kda result : String) : MatchElement :=
  { championName := champion, championTestid := "", imgAlt := none
    kda := kda, kdaTestid := "", slashDiv := ""
    result := result, resultTestid := "", hasWin := false, hasLose := false }

/-- A page whose first selector finds only an element without champion, whose second
selector finds two accepted elements around one without KDA text, and whose fourth
selector finds an accepted element too. -/
def sampleItemsPage : Document :=
  { samplePage with
    gameItem := [sampleElement "" "1/1/1" "Victory"]
    gameItemTestid :=
      [sampleElement "Ahri" "1/2/3" "Victory", sampleElement "Zed" "" "Defeat",
       sampleElement "Lux" "4/0/6" ""]
    matchItem := [sampleElement "Jinx" "9/9/9" "Defeat"] }

/-- A call that loads `sampleItemsPage`. -/
def sampleItemsCall : Call :=
  { sampleWorld 0 with outcome := Outcome.loaded sampleItemsPage }

/-- A call whose fetch fails with an error that has the empty message. -/
def sampleSilentFailure : Call :=
  { sampleWorld 0 with outcome := Outcome.failed "" }

/-- A player with a textual winrate of 55% and no parseable KDA text. -/
def sampleTextual : PlayerRecord :=
  sampleLoaded "A" "Win Rate 55%" [sampleMatch "Ahri" "3.5 KDA" "Victory"]

/-- Statistics in which `A` stands alone, with the values it has in `sampleProcessed`. -/
def sampleAlone : Stats :=
  { players := [("A", sampleInfo "A")], memeStats := [("A", sampleStats 8 3)] }

/-- Eleven calls of one caller, one millisecond apart. -/
def sampleBurst : List Request :=
  (List.range 11).map fun i => { ip := "10.0.0.1", now := 1000 + (i : Int) }

/-- Two callers in turn: twelve calls of `10.0.0.1` and twelve of `10.0.0.2`, the
calls number `2 * i` and `2 * i + 1` being made at the time `1000 + i`. -/
def sampleTwoCallers : List Request :=
  (List.range 24).map fun i =>
    { ip := if i % 2 = 0 then "10.0.0.1" else "10.0.0.2", now := 1000 + ((i / 2 : Nat) : Int) }

/-- The matches of the five games `5/8/0`, `4/8/1`, `3/8/2`, `2/8/2`, `2/8/2`. -/
def sampleFiveGames : PlayerRecord :=
  sampleLoaded "A" "50%"
    [sampleMatch "Ahri" "5/8/0" "Victory", sampleMatch "Ahri" "4/8/1" "Defeat",
     sampleMatch "Zed" "3/8/2" "Defeat", sampleMatch "Zed" "2/8/2" "Defeat",
     sampleMatch "Lux" "2/8/2" "Defeat"]

/-- A player with forty parsed matches and twenty-three kills in all. -/
def sampleFortyGames : PlayerRecord :=
  sampleLoaded "A" "50%"
    (List.replicate 23 (sampleMatch "Ahri" "1/1/1" "Defeat") ++
      List.replicate 17 (sampleMatch "Ahri" "0/1/1" "Defeat"))

/-- A player with 160 parsed matches of which 23 are won. -/
def sampleManyGames : PlayerRecord :=
  sampleLoaded "A" "50%"
    (List.replicate 23 (sampleMatch "Ahri" "1/1/1" "Victory") ++
      List.replicate 137 (sampleMatch "Ahri" "1/1/1" "Defeat"))

/-- A player without matches whose textual winrate has twenty digits. -/
def sampleLongWinrate : PlayerRecord :=
  sampleLoaded "A" "99999999999999999999%" []


/-! # Theorems -/

/-! ## Dictionaries: keys and lookups -/

theorem JSObject.mem_keys_put {α : Type} (o : JSObject α) (k : String) (v : α) (x : String) :
    x ∈ (JSObject.put o k v).keys ↔ x ∈ JSObject.keys o ∨ x = k := by
  induction o with
  | nil => simp [JSObject.put, JSObject.keys]
  | cons hd tl ih =>
    obtain ⟨k0, v0⟩ := hd
    unfold JSObject.put
    by_cases h : k0 = k
    · subst h
      simp only [JSObject.keys, if_true, List.map_cons, List.mem_cons]
      tauto
    · have ih2 : x ∈ List.map Prod.fst (JSObject.put tl k v) ↔ x ∈ List.map Prod.fst tl ∨ x = k := ih
      simp [JSObject.keys, h, ih2, or_assoc]

theorem JSObject.mem_keys_set {α : Type} (o : JSObject α) (k : String) (v : α) (x : String) :
    x ∈ (JSObject.set o k v).keys ↔ x ∈ JSObject.keys o ∨ (x = k ∧ k ≠ "__proto__") := by
  unfold JSObject.set
  by_cases h : k = "__proto__"
  · simp [h]
  · simp [h, JSObject.mem_keys_put]

/-! ## `calculateMemeStats`: which names become keys -/

theorem mem_keys_processPlayer (stats : Stats) (player : PlayerRecord) (x : String) :
    (x ∈ (processPlayer stats player).players.keys ↔
      x ∈ stats.players.keys ∨
        (hasError player = false ∧ x = player.summonerName ∧ x ≠ "__proto__")) ∧
    (x ∈ (processPlayer stats player).memeStats.keys ↔
      x ∈ stats.memeStats.keys ∨
        (hasError player = false ∧ x = player.summonerName ∧ x ≠ "__proto__")) := by
  by_cases h : hasError player = true
  · simp [processPlayer, h]
  · have h2 : hasError player = false := by simpa using h
    simp only [processPlayer, h2, Bool.false_eq_true, if_false, JSObject.mem_keys_set, true_and]
    constructor <;>
    · constructor
      · rintro (h1 | ⟨h1, h3⟩)
        · exact Or.inl h1
        · exact Or.inr ⟨h1, by rw [h1]; exact h3⟩
      · rintro (h1 | ⟨h1, h3⟩)
        · exact Or.inl h1
        · exact Or.inr ⟨h1, by rw [← h1]; exact h3⟩

theorem mem_keys_foldl_processPlayer (playersData : List PlayerRecord) (stats : Stats)
    (x : String) :
    (x ∈ (playersData.foldl processPlayer stats).players.keys ↔
      x ∈ stats.players.keys ∨
        (x ≠ "__proto__" ∧ ∃ p ∈ playersData, hasError p = false ∧ p.summonerName = x)) ∧
    (x ∈ (playersData.foldl processPlayer stats).memeStats.keys ↔
      x ∈ stats.memeStats.keys ∨
        (x ≠ "__proto__" ∧ ∃ p ∈ playersData, hasError p = false ∧ p.summonerName = x)) := by
  induction playersData generalizing stats with
  | nil => simp
  | cons p ps ih =>
    simp only [List.foldl_cons]
    have hp := mem_keys_processPlayer stats p x
    have hi := ih (processPlayer stats p)
    constructor
    · rw [hi.1, hp.1]
      constructor
      · rintro ((h | ⟨h1, h2, h3⟩) | ⟨h1, q, hq, h2, h3⟩)
        · exact Or.inl h
        · exact Or.inr ⟨h3, p, List.mem_cons_self _ _, h1, h2.symm⟩
        · exact Or.inr ⟨h1, q, List.mem_cons_of_mem _ hq, h2, h3⟩
      · rintro (h | ⟨h1, q, hq, h2, h3⟩)
        · exact Or.inl (Or.inl h)
        · rcases List.mem_cons.1 hq with rfl | hq
          · exact Or.inl (Or.inr ⟨h2, h3.symm, h1⟩)
          · exact Or.inr ⟨h1, q, hq, h2, h3⟩
    · rw [hi.2, hp.2]
      constructor
      · rintro ((h | ⟨h1, h2, h3⟩) | ⟨h1, q, hq, h2, h3⟩)
        · exact Or.inl h
        · exact Or.inr ⟨h3, p, List.mem_cons_self _ _, h1, h2.symm⟩
        · exact Or.inr ⟨h1, q, List.mem_cons_of_mem _ hq, h2, h3⟩
      · rintro (h | ⟨h1, q, hq, h2, h3⟩)
        · exact Or.inl (Or.inl h)
        · rcases List.mem_cons.1 hq with rfl | hq
          · exact Or.inl (Or.inr ⟨h2, h3.symm, h1⟩)
          · exact Or.inr ⟨h1, q, hq, h2, h3⟩

theorem hasError_of_message (p : PlayerRecord) (msg : String) (h1 : p.error = some msg)
    (h2 : msg ≠ "") : hasError p = true := by
  simp [hasError, h1, truthyOpt, truthy, h2]

/-! ## C1: records with an error are skipped -/

/-- C1: for every list of player records, if a record carries an error indicator (its
`error` property holds a non-empty message, which is what `if (player.error)` tests)
and every other record of the same `summonerName` carries one too, then that name is
a key of neither `players` nor `memeStats` in the result of `calculateMemeStats`. -/
theorem C1_error_record_is_no_key (playersData : List PlayerRecord) (p : PlayerRecord)
    (msg : String) (_hp : p ∈ playersData) (herr : p.error = some msg) (hmsg : msg ≠ "")
    (hothers : ∀ q ∈ playersData, q ≠ p → q.summonerName = p.summonerName →
      ∃ m, q.error = some m ∧ m ≠ "") :
    p.summonerName ∉ (calculateMemeStats playersData).players.keys ∧
      p.summonerName ∉ (calculateMemeStats playersData).memeStats.keys := by
  have hall : ∀ q ∈ playersData, q.summonerName = p.summonerName → hasError q = true := by
    intro q hq hname
    by_cases hqp : q = p
    · rw [hqp]
      exact hasError_of_message p msg herr hmsg
    · obtain ⟨m, hm1, hm2⟩ := hothers q hq hqp hname
      exact hasError_of_message q m hm1 hm2
  have hkeys := mem_keys_foldl_processPlayer playersData
    { players := [], memeStats := [] } p.summonerName
  constructor
  · intro hmem
    rcases (hkeys.1).1 hmem with h | ⟨_, q, hq, hq1, hq2⟩
    · simp [JSObject.keys] at h
    · rw [hall q hq hq2] at hq1
      exact Bool.noConfusion hq1
  · intro hmem
    rcases (hkeys.2).1 hmem with h | ⟨_, q, hq, hq1, hq2⟩
    · simp [JSObject.keys] at h
    · rw [hall q hq hq2] at hq1
      exact Bool.noConfusion hq1

/-- C1 at a list of three records: the failed record of `B` between two loaded ones. -/
theorem C1_error_record_is_no_key_witness :
    "B" ∉ (calculateMemeStats
        [sampleLoaded "A" "50%" [], sampleFailed "B" "timeout of 15000ms exceeded",
         sampleLoaded "C" "40%" []]).players.keys ∧
      "B" ∉ (calculateMemeStats
        [sampleLoaded "A" "50%" [], sampleFailed "B" "timeout of 15000ms exceeded",
         sampleLoaded "C" "40%" []]).memeStats.keys :=
  C1_error_record_is_no_key
    [sampleLoaded "A" "50%" [], sampleFailed "B" "timeout of 15000ms exceeded",
     sampleLoaded "C" "40%" []]
    (sampleFailed "B" "timeout of 15000ms exceeded") "timeout of 15000ms exceeded"
    (by simp) rfl (by decide)
    (by
      intro q hq hne hname
      simp only [List.mem_cons, List.mem_singleton, List.not_mem_nil, or_false] at hq
      rcases hq with rfl | rfl | rfl
      · exact absurd hname (by decide)
      · exact absurd rfl hne
      · exact absurd hname (by decide))

/-! ## Rounding to the nearest integer -/

theorem roundHalfEven_sub_le (x : ℚ) : |(roundHalfEven x : ℚ) - x| ≤ 1 / 2 := by
  have h1 := Int.floor_le x
  have h2 := Int.lt_floor_add_one x
  unfold roundHalfEven
  split_ifs with ha hb hc
  · rw [abs_le]
    constructor <;> linarith
  · rw [abs_le]
    push_cast
    constructor <;> linarith
  · rw [abs_le]
    constructor <;> linarith
  · rw [abs_le]
    push_cast
    constructor <;> linarith

theorem roundHalfEven_eq_of_abs_lt (x : ℚ) (n : ℤ) (h : |x - n| < 1 / 2) :
    roundHalfEven x = n := by
  have h1 := roundHalfEven_sub_le x
  rw [abs_lt] at h
  rw [abs_le] at h1
  have h2 : ((roundHalfEven x : ℤ) : ℚ) < n + 1 := by linarith
  have h3 : (n : ℚ) < roundHalfEven x + 1 := by linarith
  have h4 : roundHalfEven x < n + 1 := by exact_mod_cast h2
  have h5 : n < roundHalfEven x + 1 := by exact_mod_cast h3
  omega

theorem roundHalfEven_intCast (n : ℤ) : roundHalfEven (n : ℚ) = n :=
  roundHalfEven_eq_of_abs_lt _ n (by simp)

theorem roundHalfEven_tie (n : ℤ) (x : ℚ) (h : x = n + 1 / 2) :
    roundHalfEven x = if n % 2 = 0 then n else n + 1 := by
  have hf : ⌊x⌋ = n := by
    rw [Int.floor_eq_iff, h]
    constructor <;> linarith
  unfold roundHalfEven
  rw [hf, h]
  have h1 : ¬ ((n : ℚ) + 1 / 2 - n < 1 / 2) := by
    intro hh
    linarith
  have h2 : ¬ ((1 : ℚ) / 2 < (n : ℚ) + 1 / 2 - n) := by
    intro hh
    linarith
  rw [if_neg h1, if_neg h2]

/-! ## The binary64 value nearest to a rational -/

theorem log_bounds (q : ℚ) (hq : q ≠ 0) :
    (2 : ℚ) ^ Int.log 2 |q| ≤ |q| ∧ |q| < (2 : ℚ) ^ (Int.log 2 |q| + 1) := by
  have hpos : 0 < |q| := abs_pos.2 hq
  have h1 := Int.zpow_log_le_self (b := 2) (r := |q|) (by norm_num) hpos
  have h2 := Int.lt_zpow_succ_log_self (b := 2) (by norm_num) |q|
  exact ⟨by exact_mod_cast h1, by exact_mod_cast h2⟩

theorem log_eq_of_bounds (q : ℚ) (e : ℤ) (hlo : (2 : ℚ) ^ e ≤ |q|) (hhi : |q| < (2 : ℚ) ^ (e + 1)) :
    Int.log 2 |q| = e := by
  have hpos : 0 < |q| := lt_of_lt_of_le (by positivity) hlo
  have h1 : e ≤ Int.log 2 |q| := by
    rw [← Int.zpow_le_iff_le_log (by norm_num) hpos]
    exact_mod_cast hlo
  have h2 : Int.log 2 |q| < e + 1 := by
    rw [← Int.lt_zpow_iff_log_lt (by norm_num) hpos]
    exact_mod_cast hhi
  omega

theorem quantumOf_pos (q : ℚ) : 0 < quantumOf q := by
  unfold quantumOf
  positivity

theorem quantumOf_eq (q : ℚ) (e : ℤ) (hlo : (2 : ℚ) ^ e ≤ |q|) (hhi : |q| < (2 : ℚ) ^ (e + 1))
    (he : -1022 ≤ e) : quantumOf q = (2 : ℚ) ^ (e - 52) := by
  unfold quantumOf
  rw [log_eq_of_bounds q e hlo hhi, max_eq_left he]

/-- Evaluation of `toDouble` at a rational whose binary exponent is known. -/
theorem toDouble_eq (q : ℚ) (e n : ℤ) (hlo : (2 : ℚ) ^ e ≤ |q|) (hhi : |q| < (2 : ℚ) ^ (e + 1))
    (he : -1022 ≤ e) (hn : roundHalfEven (q / (2 : ℚ) ^ (e - 52)) = n) :
    toDouble q =
      if (2 : ℚ) ^ 1024 ≤ (n : ℚ) * (2 : ℚ) ^ (e - 52) then JSNumber.posInf
      else if (n : ℚ) * (2 : ℚ) ^ (e - 52) ≤ -(2 : ℚ) ^ 1024 then JSNumber.negInf
      else JSNumber.finite ((n : ℚ) * (2 : ℚ) ^ (e - 52)) := by
  unfold toDouble
  simp only [quantumOf_eq q e hlo hhi he, hn]

theorem toDouble_zero : toDouble 0 = JSNumber.finite 0 := by
  have h1 : ¬ ((2 : ℚ) ^ 1024 ≤ 0) := not_le.2 (by positivity)
  unfold toDouble
  simp [roundHalfEven, h1]

/-- A rational of moderate size is rounded with a relative error of at most `2^-53`. -/
theorem toDouble_rel (q : ℚ) (hlo : (2 : ℚ) ^ (-1022 : ℤ) ≤ q) (hhi : q < (2 : ℚ) ^ (1023 : ℤ)) :
    ∃ r : ℚ, toDouble q = JSNumber.finite r ∧ |r - q| ≤ q / 2 ^ 53 := by
  have hpos : 0 < q := lt_of_lt_of_le (by positivity) hlo
  have habs : |q| = q := abs_of_pos hpos
  obtain ⟨h1a, h2a⟩ := log_bounds q (ne_of_gt hpos)
  have h1 : (2 : ℚ) ^ Int.log 2 |q| ≤ q := h1a.trans_eq habs
  have h2 : q < (2 : ℚ) ^ (Int.log 2 |q| + 1) := lt_of_eq_of_lt habs.symm h2a
  have he : -1022 ≤ Int.log 2 |q| := by
    rw [← Int.zpow_le_iff_le_log (by norm_num) (by rw [habs]; exact hpos), habs]
    exact_mod_cast hlo
  have he2 : Int.log 2 |q| < 1023 := by
    rw [← Int.lt_zpow_iff_log_lt (by norm_num) (by rw [habs]; exact hpos), habs]
    exact_mod_cast hhi
  have hquantum : quantumOf q = (2 : ℚ) ^ (Int.log 2 |q| - 52) := by
    unfold quantumOf
    rw [max_eq_left he]
  have hqpos := quantumOf_pos q
  have hround := roundHalfEven_sub_le (q / quantumOf q)
  have herr : |(roundHalfEven (q / quantumOf q) : ℚ) * quantumOf q - q| ≤ quantumOf q / 2 := by
    have h3 : (roundHalfEven (q / quantumOf q) : ℚ) * quantumOf q - q =
        ((roundHalfEven (q / quantumOf q) : ℚ) - q / quantumOf q) * quantumOf q := by
      field_simp
    rw [h3, abs_mul, abs_of_pos hqpos]
    calc |(roundHalfEven (q / quantumOf q) : ℚ) - q / quantumOf q| * quantumOf q
        ≤ 1 / 2 * quantumOf q := mul_le_mul_of_nonneg_right hround (le_of_lt hqpos)
      _ = quantumOf q / 2 := by ring
  have hq2 : quantumOf q / 2 ≤ q / 2 ^ 53 := by
    rw [hquantum]
    have h4 : (2 : ℚ) ^ (Int.log 2 |q| - 52) = (2 : ℚ) ^ Int.log 2 |q| / 2 ^ 52 := by
      rw [zpow_sub₀ (by norm_num)]
      norm_num
    rw [h4]
    have h5 : (2 : ℚ) ^ Int.log 2 |q| / 2 ^ 52 / 2 = (2 : ℚ) ^ Int.log 2 |q| / 2 ^ 53 := by
      ring
    rw [h5]
    exact div_le_div_of_nonneg_right h1 (by positivity)
  have herr2 := le_trans herr hq2
  refine ⟨(roundHalfEven (q / quantumOf q) : ℚ) * quantumOf q, ?_, herr2⟩
  have hsmall : q / 2 ^ 53 ≤ q := div_le_self (le_of_lt hpos) (by norm_num)
  rw [abs_le] at herr2
  have hupper : (roundHalfEven (q / quantumOf q) : ℚ) * quantumOf q < (2 : ℚ) ^ 1024 := by
    have h6 : (2 : ℚ) ^ (1023 : ℤ) * 2 = (2 : ℚ) ^ 1024 := by norm_num
    linarith
  have hlower : ¬ ((roundHalfEven (q / quantumOf q) : ℚ) * quantumOf q ≤ -(2 : ℚ) ^ 1024) := by
    intro h7
    have h8 : (0 : ℚ) < (2 : ℚ) ^ 1024 := by positivity
    linarith
  unfold toDouble
  simp only [not_le.2 hupper, if_false, hlower]

/-- A rational that is a multiple of the spacing at its exponent is its own binary64
value. -/
theorem toDouble_exact (q : ℚ) (e n : ℤ) (hlo : (2 : ℚ) ^ e ≤ |q|)
    (hhi : |q| < (2 : ℚ) ^ (e + 1)) (he : -1022 ≤ e) (he2 : e ≤ 1023)
    (hn : q = (n : ℚ) * (2 : ℚ) ^ (e - 52)) : toDouble q = JSNumber.finite q := by
  have hpow : (0 : ℚ) < (2 : ℚ) ^ (e - 52) := by positivity
  have hround : roundHalfEven (q / (2 : ℚ) ^ (e - 52)) = n := by
    have h1 : q / (2 : ℚ) ^ (e - 52) = (n : ℚ) := by
      rw [hn]
      field_simp
    rw [h1]
    exact roundHalfEven_intCast n
  rw [toDouble_eq q e n hlo hhi he hround, ← hn]
  have hbound : |q| < (2 : ℚ) ^ 1024 := by
    have h2 : (2 : ℚ) ^ (e + 1) ≤ (2 : ℚ) ^ (1024 : ℤ) :=
      zpow_le_zpow_right₀ (by norm_num) (by omega)
    have h3 : (2 : ℚ) ^ (1024 : ℤ) = (2 : ℚ) ^ 1024 := by norm_num
    linarith
  rw [abs_lt] at hbound
  rw [if_neg (not_le.2 hbound.2), if_neg (not_le.2 hbound.1)]

theorem toDouble_natCast (n : ℕ) (h : n ≤ 2 ^ 53) : toDouble (n : ℚ) = JSNumber.finite n := by
  rcases Nat.eq_zero_or_pos n with h0 | hpos
  · rw [h0]
    simpa using toDouble_zero
  have hq : (0 : ℚ) < n := by exact_mod_cast hpos
  have habs : |(n : ℚ)| = n := abs_of_pos hq
  obtain ⟨h1, h2⟩ := log_bounds (n : ℚ) (ne_of_gt hq)
  have hlog : Int.log 2 |(n : ℚ)| = (Nat.log 2 n : ℤ) := by
    rw [habs]
    exact Int.log_natCast 2 n
  have hle : Nat.log 2 n ≤ 53 := by
    have h3 : Nat.log 2 n ≤ Nat.log 2 (2 ^ 53) := Nat.log_mono_right h
    rwa [Nat.log_pow (by norm_num)] at h3
  rcases Nat.lt_or_ge (Nat.log 2 n) 53 with hlt | hge
  · -- the exponent is at most 52: every integer is a multiple of the spacing
    apply toDouble_exact (n : ℚ) (Nat.log 2 n : ℤ) ((n : ℤ) * 2 ^ (52 - Nat.log 2 n))
    · rw [← hlog]
      exact h1
    · rw [← hlog]
      exact h2
    · omega
    · omega
    · push_cast
      have h4 : ((Nat.log 2 n : ℤ) - 52) = -((52 - Nat.log 2 n : ℕ) : ℤ) := by omega
      rw [h4, zpow_neg, zpow_natCast]
      field_simp
  · -- the exponent is 53: the number is `2^53`
    have h53 : Nat.log 2 n = 53 := le_antisymm hle hge
    have hn : n = 2 ^ 53 := by
      apply le_antisymm h
      have := Nat.pow_log_le_self 2 (ne_of_gt hpos)
      rwa [h53] at this
    apply toDouble_exact (n : ℚ) 53 (2 ^ 52)
    · rw [habs, hn]
      norm_num
    · rw [habs, hn]
      norm_num
    · norm_num
    · norm_num
    · rw [hn]
      norm_num

/-! ## Accumulated rounding errors -/

theorem unitRoundoff_bounds : 0 < 1 - unitRoundoff ∧ 1 - unitRoundoff ≤ 1 := by
  unfold unitRoundoff
  constructor <;> norm_num

theorem pow_unitRoundoff_pos (k : ℕ) : 0 < (1 - unitRoundoff) ^ k :=
  pow_pos unitRoundoff_bounds.1 k

theorem pow_unitRoundoff_le_one (k : ℕ) : (1 - unitRoundoff) ^ k ≤ 1 :=
  pow_le_one₀ (le_of_lt unitRoundoff_bounds.1) unitRoundoff_bounds.2

theorem pow_unitRoundoff_anti {j k : ℕ} (h : j ≤ k) :
    (1 - unitRoundoff) ^ k ≤ (1 - unitRoundoff) ^ j :=
  pow_le_pow_of_le_one (le_of_lt unitRoundoff_bounds.1) unitRoundoff_bounds.2 h

theorem Near.nonneg {k : ℕ} {x r : ℚ} (h : Near k x r) : 0 ≤ r :=
  le_trans (mul_nonneg h.1 (le_of_lt (pow_unitRoundoff_pos k))) h.2.1

theorem Near.refl (x : ℚ) (h : 0 ≤ x) : Near 0 x x := by
  refine ⟨h, ?_, ?_⟩ <;> simp

theorem Near.mono {j k : ℕ} {x r : ℚ} (h : Near j x r) (hjk : j ≤ k) : Near k x r := by
  have hr := h.nonneg
  obtain ⟨h0, h1, h2⟩ := h
  have hp := pow_unitRoundoff_anti hjk
  refine ⟨h0, ?_, ?_⟩
  · exact le_trans (mul_le_mul_of_nonneg_left hp h0) h1
  · exact le_trans (mul_le_mul_of_nonneg_left hp hr) h2

theorem Near.eq_zero {k : ℕ} {r : ℚ} (h : Near k 0 r) : r = 0 := by
  have hr := h.nonneg
  obtain ⟨_, _, h2⟩ := h
  have hp := pow_unitRoundoff_pos k
  by_contra hne
  have hpos : 0 < r := lt_of_le_of_ne hr (Ne.symm hne)
  have := mul_pos hpos hp
  linarith

theorem Near.mul {j k : ℕ} {x y r s : ℚ} (h1 : Near j x r) (h2 : Near k y s) :
    Near (j + k) (x * y) (r * s) := by
  have hr := h1.nonneg
  have hs := h2.nonneg
  obtain ⟨hx, a1, a2⟩ := h1
  obtain ⟨hy, b1, b2⟩ := h2
  have hpj := pow_unitRoundoff_pos j
  have hpk := pow_unitRoundoff_pos k
  refine ⟨mul_nonneg hx hy, ?_, ?_⟩
  · rw [pow_add]
    calc x * y * ((1 - unitRoundoff) ^ j * (1 - unitRoundoff) ^ k)
        = (x * (1 - unitRoundoff) ^ j) * (y * (1 - unitRoundoff) ^ k) := by ring
      _ ≤ r * s := mul_le_mul a1 b1 (mul_nonneg hy (le_of_lt hpk)) hr
  · rw [pow_add]
    calc r * s * ((1 - unitRoundoff) ^ j * (1 - unitRoundoff) ^ k)
        = (r * (1 - unitRoundoff) ^ j) * (s * (1 - unitRoundoff) ^ k) := by ring
      _ ≤ x * y := mul_le_mul a2 b2 (mul_nonneg hs (le_of_lt hpk)) hx

theorem Near.div {j k : ℕ} {x y r s : ℚ} (h1 : Near j x r) (h2 : Near k y s) (hy : 0 < y) :
    Near (j + k) (x / y) (r / s) := by
  have hr := h1.nonneg
  obtain ⟨hx, a1, a2⟩ := h1
  obtain ⟨_, b1, b2⟩ := h2
  have hpj := pow_unitRoundoff_pos j
  have hpk := pow_unitRoundoff_pos k
  have hs : 0 < s := lt_of_lt_of_le (mul_pos hy hpk) b1
  refine ⟨div_nonneg hx (le_of_lt hy), ?_, ?_⟩
  · rw [pow_add, le_div_iff₀ hs]
    calc x / y * ((1 - unitRoundoff) ^ j * (1 - unitRoundoff) ^ k) * s
        = (x * (1 - unitRoundoff) ^ j) * ((s * (1 - unitRoundoff) ^ k) / y) := by
          field_simp
          ring
      _ ≤ r * 1 := by
          apply mul_le_mul a1 _ (div_nonneg (mul_nonneg (le_of_lt hs) (le_of_lt hpk))
            (le_of_lt hy)) hr
          rw [div_le_one hy]
          exact b2
      _ = r := mul_one r
  · rw [pow_add, le_div_iff₀ hy]
    calc r / s * ((1 - unitRoundoff) ^ j * (1 - unitRoundoff) ^ k) * y
        = (r * (1 - unitRoundoff) ^ j) * ((y * (1 - unitRoundoff) ^ k) / s) := by
          field_simp
          ring
      _ ≤ x * 1 := by
          apply mul_le_mul a2 _ (div_nonneg (mul_nonneg (le_of_lt hy) (le_of_lt hpk))
            (le_of_lt hs)) hx
          rw [div_le_one hs]
          exact b1
      _ = x := mul_one x

theorem Near.add {k : ℕ} {x y r s : ℚ} (h1 : Near k x r) (h2 : Near k y s) :
    Near k (x + y) (r + s) := by
  obtain ⟨hx, a1, a2⟩ := h1
  obtain ⟨hy, b1, b2⟩ := h2
  refine ⟨add_nonneg hx hy, ?_, ?_⟩
  · rw [add_mul]
    exact add_le_add a1 b1
  · rw [add_mul]
    exact add_le_add a2 b2

theorem Near.max {k : ℕ} {x y r s : ℚ} (h1 : Near k x r) (h2 : Near k y s) :
    Near k (max x y) (max r s) := by
  obtain ⟨hx, a1, a2⟩ := h1
  obtain ⟨hy, b1, b2⟩ := h2
  have hp := le_of_lt (pow_unitRoundoff_pos k)
  refine ⟨le_max_of_le_left hx, ?_, ?_⟩
  · rw [max_mul_of_nonneg _ _ hp]
    exact max_le_max a1 b1
  · rw [max_mul_of_nonneg _ _ hp]
    exact max_le_max a2 b2

theorem pow_unitRoundoff_half {k : ℕ} (hk : k ≤ 16) : 1 / 2 ≤ (1 - unitRoundoff) ^ k := by
  refine le_trans ?_ (pow_unitRoundoff_anti hk)
  unfold unitRoundoff
  norm_num

/-- One rounding more: a number of moderate size that is `x` up to `k` roundings has a
finite binary64 value, which is `x` up to `k + 1` roundings. -/
theorem Near.round {k : ℕ} {x r : ℚ} (h : Near k x r) (hk : k ≤ 16)
    (hlo : x = 0 ∨ (2 : ℚ) ^ (-1000 : ℤ) ≤ x) (hhi : x ≤ (2 : ℚ) ^ (1000 : ℤ)) :
    ∃ r2 : ℚ, toDouble r = JSNumber.finite r2 ∧ Near (k + 1) x r2 := by
  rcases hlo with h0 | hlo
  · subst h0
    have hr : r = 0 := h.eq_zero
    subst hr
    exact ⟨0, toDouble_zero, le_refl 0, by simp, by simp⟩
  have hr := h.nonneg
  obtain ⟨hx, a1, a2⟩ := h
  have hhalf := pow_unitRoundoff_half hk
  have hp := pow_unitRoundoff_pos k
  have hxpos : 0 < x := lt_of_lt_of_le (by positivity) hlo
  have hrlo : (2 : ℚ) ^ (-1022 : ℤ) ≤ r := by
    have h1 : (2 : ℚ) ^ (-1022 : ℤ) ≤ (2 : ℚ) ^ (-1000 : ℤ) * (1 / 2) := by
      have h2 : (2 : ℚ) ^ (-1000 : ℤ) * (1 / 2) = (2 : ℚ) ^ (-1001 : ℤ) := by
        rw [show (-1001 : ℤ) = -1000 + -1 by norm_num, zpow_add₀ (by norm_num)]
        norm_num
      rw [h2]
      exact zpow_le_zpow_right₀ (by norm_num) (by norm_num)
    calc (2 : ℚ) ^ (-1022 : ℤ) ≤ (2 : ℚ) ^ (-1000 : ℤ) * (1 / 2) := h1
      _ ≤ x * (1 - unitRoundoff) ^ k := mul_le_mul hlo hhalf (by norm_num) hx
      _ ≤ r := a1
  have hrhi : r < (2 : ℚ) ^ (1023 : ℤ) := by
    have h1 : r * (1 / 2) ≤ x := le_trans (mul_le_mul_of_nonneg_left hhalf hr) a2
    have h2 : (2 : ℚ) ^ (1000 : ℤ) * 2 = (2 : ℚ) ^ (1001 : ℤ) := by
      rw [show (1001 : ℤ) = 1000 + 1 by norm_num, zpow_add₀ (by norm_num)]
      norm_num
    have h3 : (2 : ℚ) ^ (1001 : ℤ) < (2 : ℚ) ^ (1023 : ℤ) :=
      zpow_lt_zpow_right₀ (by norm_num) (by norm_num)
    linarith
  obtain ⟨r2, hr2, herr⟩ := toDouble_rel r hrlo hrhi
  refine ⟨r2, hr2, hx, ?_, ?_⟩
  · rw [abs_le] at herr
    have h1 : r * (1 - unitRoundoff) ≤ r2 := by
      unfold unitRoundoff
      linarith
    calc x * (1 - unitRoundoff) ^ (k + 1)
        = x * (1 - unitRoundoff) ^ k * (1 - unitRoundoff) := by ring
      _ ≤ r * (1 - unitRoundoff) :=
          mul_le_mul_of_nonneg_right a1 (le_of_lt unitRoundoff_bounds.1)
      _ ≤ r2 := h1
  · rw [abs_le] at herr
    have h1 : r2 * (1 - unitRoundoff) ≤ r := by
      have h2 : r2 ≤ r * (1 + unitRoundoff) := by
        unfold unitRoundoff
        linarith
      calc r2 * (1 - unitRoundoff) ≤ r * (1 + unitRoundoff) * (1 - unitRoundoff) :=
            mul_le_mul_of_nonneg_right h2 (le_of_lt unitRoundoff_bounds.1)
        _ = r * (1 - unitRoundoff ^ 2) := by ring
        _ ≤ r * 1 := by
            apply mul_le_mul_of_nonneg_left _ hr
            have := sq_nonneg unitRoundoff
            linarith
        _ = r := mul_one r
    calc r2 * (1 - unitRoundoff) ^ (k + 1)
        = r2 * (1 - unitRoundoff) * (1 - unitRoundoff) ^ k := by ring
      _ ≤ r * (1 - unitRoundoff) ^ k := mul_le_mul_of_nonneg_right h1 (le_of_lt hp)
      _ ≤ x := a2

/-- The distance left by at most three roundings. -/
theorem Near.dist_le_three {k : ℕ} {x r : ℚ} (h : Near k x r) (hk : k ≤ 3) :
    |r - x| ≤ x / 2 ^ 51 := by
  have hr := (h.mono hk).nonneg
  obtain ⟨hx, a1, a2⟩ := h.mono hk
  have h1 : (1 : ℚ) - 1 / 2 ^ 51 ≤ (1 - unitRoundoff) ^ 3 := by
    unfold unitRoundoff
    norm_num
  have h2 : (1 : ℚ) ≤ (1 - unitRoundoff) ^ 3 * (1 + 1 / 2 ^ 51) := by
    unfold unitRoundoff
    norm_num
  rw [abs_le]
  constructor
  · have := mul_le_mul_of_nonneg_left h1 hx
    linarith
  · have h3 : r * 1 ≤ r * ((1 - unitRoundoff) ^ 3 * (1 + 1 / 2 ^ 51)) :=
      mul_le_mul_of_nonneg_left h2 hr
    have h4 : r * ((1 - unitRoundoff) ^ 3 * (1 + 1 / 2 ^ 51)) ≤ x * (1 + 1 / 2 ^ 51) := by
      rw [← mul_assoc]
      exact mul_le_mul_of_nonneg_right a2 (by norm_num)
    linarith

/-- The distance left by at most seven roundings. -/
theorem Near.dist_le_seven {k : ℕ} {x r : ℚ} (h : Near k x r) (hk : k ≤ 7) :
    |r - x| ≤ x / 2 ^ 50 := by
  have hr := (h.mono hk).nonneg
  obtain ⟨hx, a1, a2⟩ := h.mono hk
  have h1 : (1 : ℚ) - 1 / 2 ^ 50 ≤ (1 - unitRoundoff) ^ 7 := by
    unfold unitRoundoff
    norm_num
  have h2 : (1 : ℚ) ≤ (1 - unitRoundoff) ^ 7 * (1 + 1 / 2 ^ 50) := by
    unfold unitRoundoff
    norm_num
  rw [abs_le]
  constructor
  · have := mul_le_mul_of_nonneg_left h1 hx
    linarith
  · have h3 : r * 1 ≤ r * ((1 - unitRoundoff) ^ 7 * (1 + 1 / 2 ^ 50)) :=
      mul_le_mul_of_nonneg_left h2 hr
    have h4 : r * ((1 - unitRoundoff) ^ 7 * (1 + 1 / 2 ^ 50)) ≤ x * (1 + 1 / 2 ^ 50) := by
      rw [← mul_assoc]
      exact mul_le_mul_of_nonneg_right a2 (by norm_num)
    linarith

/-! ## Rounding to two decimals -/

/-- The last two steps of every derived statistic: `Math.round(t) / 100`. -/
theorem roundsTo2UpTo_of_dist (err x t : ℚ) (h : |t - 100 * x| ≤ err) :
    RoundsTo2UpTo err x ((Math.round (JSNumber.finite t)).div (JSNumber.finite 100)) := by
  refine ⟨⌊t + 1 / 2⌋, ?_, ?_, ?_⟩
  · simp only [Math.round, JSNumber.div]
    rw [if_neg (by norm_num)]
  · have h1 := Int.lt_floor_add_one (t + 1 / 2)
    rw [abs_le] at h
    linarith
  · have h1 := Int.floor_le (t + 1 / 2)
    rw [abs_le] at h
    linarith

theorem RoundsTo2UpTo.exact {err x : ℚ} {y : JSNumber} (h : RoundsTo2UpTo err x y)
    (haway : AwayFromTies err x) : RoundsTo2 x y := by
  obtain ⟨N, hy, h1, h2⟩ := h
  refine ⟨N, hy, ?_, ?_⟩
  · by_contra hcon
    have h3 := haway N
    have h4 : |100 * x - ((N : ℚ) + 1 / 2)| ≤ err := by
      rw [abs_le]
      constructor <;> linarith
    linarith
  · by_contra hcon
    have h3 := haway (N - 1)
    have h4 : |100 * x - (((N - 1 : ℤ) : ℚ) + 1 / 2)| ≤ err := by
      push_cast
      rw [abs_le]
      constructor <;> linarith
    linarith

theorem RoundsTo2UpTo.eq_of_close {err x : ℚ} {y : JSNumber} (h : RoundsTo2UpTo err x y)
    (M : ℤ) (hlo : (M : ℚ) - 1 / 2 + err < 100 * x) (hhi : 100 * x + err < (M : ℚ) + 1 / 2) :
    y = toDouble ((M : ℚ) / 100) := by
  obtain ⟨N, hy, h1, h2⟩ := h
  have h5 : (M : ℚ) < N + 1 := by linarith
  have h6 : (N : ℚ) < M + 1 := by linarith
  have h7 : M < N + 1 := by exact_mod_cast h5
  have h8 : N < M + 1 := by exact_mod_cast h6
  have h9 : N = M := by omega
  rw [hy, h9]

theorem RoundsTo2.eq_of_eq {x : ℚ} {y : JSNumber} (h : RoundsTo2 x y) (M : ℤ)
    (hM : 100 * x = M) : y = toDouble ((M : ℚ) / 100) := by
  obtain ⟨N, hy, h1, h2⟩ := h
  have h3 : (M : ℚ) - 1 / 2 < N := by linarith
  have h4 : (N : ℚ) ≤ M + 1 / 2 := by linarith
  have h5 : (M : ℚ) < N + 1 := by linarith
  have h6 : (N : ℚ) < M + 1 := by linarith
  have h7 : M < N + 1 := by exact_mod_cast h5
  have h8 : N < M + 1 := by exact_mod_cast h6
  have h9 : N = M := by omega
  rw [hy, h9]

/-! ## Arithmetic of the derived statistics -/

theorem mathInt_append (ds : List Char) (c : Char) :
    mathInt (ds ++ [c]) = 10 * mathInt ds + (c.toNat - 48) := by
  unfold mathInt
  rw [List.foldl_append]
  rfl

theorem mathInt_eq_decimalValue (ds : List Char) : mathInt ds = decimalValue ds := by
  induction ds using List.reverseRecOn with
  | nil => rfl
  | append_singleton ds c ih =>
    rw [mathInt_append, ih]
    unfold decimalValue
    simp [Nat.ofDigits_cons]
    ring

theorem parseInt_eq_toDouble (ds : List Char) :
    parseInt ds = toDouble ((decimalValue ds : ℕ) : ℚ) := by
  unfold parseInt
  rw [mathInt_eq_decimalValue]

theorem reduceOption_map_parseKda (recentMatches : List MatchRecord) :
    (recentMatches.map parseKda).reduceOption = parsedKdas recentMatches := by
  unfold parsedKdas List.reduceOption
  rw [List.filterMap_map]
  rfl

theorem parsedKdas_ne_nil (recentMatches : List MatchRecord) (m : MatchRecord)
    (hm : m ∈ recentMatches) (hparse : (parseKda m).isSome = true) :
    parsedKdas recentMatches ≠ [] := by
  obtain ⟨k, hk⟩ := Option.isSome_iff_exists.1 hparse
  intro h
  have : k ∈ parsedKdas recentMatches := List.mem_filterMap.2 ⟨m, hm, hk⟩
  rw [h] at this
  exact List.not_mem_nil _ this

theorem parseKda_eq_map (m : MatchRecord) : parseKda m = (exactKda m).map ExactKda.toKda := by
  unfold parseKda exactKda
  cases exec kdaRegex m.kda.toList with
  | none => rfl
  | some r => simp [ExactKda.toKda, parseInt_eq_toDouble]

theorem parsedKdas_eq_map (recentMatches : List MatchRecord) :
    parsedKdas recentMatches = (exactKdas recentMatches).map ExactKda.toKda := by
  unfold parsedKdas exactKdas
  induction recentMatches with
  | nil => rfl
  | cons m ms ih =>
    rw [List.filterMap_cons, List.filterMap_cons, parseKda_eq_map]
    cases exactKda m with
    | none => exact ih
    | some k =>
      simp only [Option.map_some', List.map_cons]
      rw [ih]

theorem parsedKdas_length (recentMatches : List MatchRecord) :
    (parsedKdas recentMatches).length = (exactKdas recentMatches).length := by
  rw [parsedKdas_eq_map, List.length_map]

/-- The derived statistics when at least one KDA string parses. -/
theorem memeStatsOf_parsed (num : JSNumber) (recentMatches : List MatchRecord)
    (h : parsedKdas recentMatches ≠ []) :
    memeStatsOf num recentMatches =
      { average_deaths := round2 (avgOf Kda.deaths (parsedKdas recentMatches))
        average_kills := round2 (avgOf Kda.kills (parsedKdas recentMatches))
        average_assists := round2 (avgOf Kda.assists (parsedKdas recentMatches))
        kda_ratio := round2
          (((avgOf Kda.kills (parsedKdas recentMatches)).add
              (avgOf Kda.assists (parsedKdas recentMatches))).div
            (Math.max (avgOf Kda.deaths (parsedKdas recentMatches)) (toDouble (1 / 10))))
        winrate := round2
          (((JSNumber.ofLength (winCount recentMatches)).div
            (JSNumber.ofLength recentMatches.length)).mul (JSNumber.finite 100))
        total_games := recentMatches.length
        champion_variety := setSize ((recentMatches.map (·.champion)).filter (· ≠ "Unknown"))
        recent_matches := recentMatches.length } := by
  have hlen : (parsedKdas recentMatches).length > 0 := List.length_pos.2 h
  have hne : recentMatches ≠ [] := by
    intro h0
    rw [h0] at h
    exact h rfl
  have hlen2 : recentMatches.length > 0 := List.length_pos.2 hne
  unfold memeStatsOf
  simp only [reduceOption_map_parseKda, hlen, hlen2, if_true, winCount, round2, avgOf]

/-- The derived statistics when no KDA string parses. -/
theorem memeStatsOf_unparsed (num : JSNumber) (recentMatches : List MatchRecord)
    (h : parsedKdas recentMatches = []) :
    memeStatsOf num recentMatches =
      { average_deaths := JSNumber.finite 0, average_kills := JSNumber.finite 0
        average_assists := JSNumber.finite 0, kda_ratio := JSNumber.finite 0
        winrate := num, total_games := 0, champion_variety := 0
        recent_matches := recentMatches.length } := by
  unfold memeStatsOf
  by_cases hlen : recentMatches.length > 0
  · simp [hlen, reduceOption_map_parseKda, h]
  · have h0 : recentMatches = [] := by
      cases recentMatches with
      | nil => rfl
      | cons a b => simp at hlen
    simp [h0]

theorem processPlayer_memeStats (stats : Stats) (player : PlayerRecord)
    (herr : hasError player = false) :
    (processPlayer stats player).memeStats =
      stats.memeStats.set player.summonerName (derivedStats player) := by
  simp [processPlayer, herr]

theorem parsedKdas_insert_unparsed (pre post : List MatchRecord) (m : MatchRecord)
    (hm : parseKda m = none) : parsedKdas (pre ++ m :: post) = parsedKdas (pre ++ post) := by
  simp [parsedKdas, List.filterMap_append, List.filterMap_cons, hm]

/-! ## Exact sums and rounded quotients -/

theorem foldl_add_exact (comp : ExactKda → ℕ) (fcomp : Kda → JSNumber)
    (hc : ∀ k : ExactKda, fcomp k.toKda = toDouble ((comp k : ℕ) : ℚ)) (l : List ExactKda)
    (init : ℕ) (h : init + total comp l ≤ 2 ^ 53) :
    (l.map ExactKda.toKda).foldl (fun sum kda => sum.add (fcomp kda))
        (JSNumber.finite (init : ℚ)) =
      JSNumber.finite ((init + total comp l : ℕ) : ℚ) := by
  induction l generalizing init with
  | nil => simp [total]
  | cons k ks ih =>
    have htot : total comp (k :: ks) = comp k + total comp ks := by
      simp [total]
    rw [htot] at h ⊢
    simp only [List.map_cons, List.foldl_cons]
    have h1 : comp k ≤ 2 ^ 53 := by omega
    have h2 : init + comp k ≤ 2 ^ 53 := by omega
    have hstep : (JSNumber.finite (init : ℚ)).add (fcomp k.toKda) =
        JSNumber.finite ((init + comp k : ℕ) : ℚ) := by
      rw [hc, toDouble_natCast _ h1]
      show toDouble ((init : ℚ) + (comp k : ℚ)) = _
      rw [← Nat.cast_add]
      exact toDouble_natCast _ h2
    rw [hstep, ih (init + comp k) (by omega)]
    congr 2
    omega

theorem avgOf_exact (comp : ExactKda → ℕ) (fcomp : Kda → JSNumber)
    (hc : ∀ k : ExactKda, fcomp k.toKda = toDouble ((comp k : ℕ) : ℚ)) (l : List ExactKda)
    (hl : l ≠ []) (h : total comp l ≤ 2 ^ 53) :
    avgOf fcomp (l.map ExactKda.toKda) = toDouble (mean comp l) := by
  have hfold := foldl_add_exact comp fcomp hc l 0 (by omega)
  have hlen : ((l.length : ℕ) : ℚ) ≠ 0 := by
    have := List.length_pos.2 hl
    exact_mod_cast (ne_of_gt this)
  unfold avgOf
  simp only [Nat.cast_zero] at hfold
  rw [hfold, List.length_map]
  simp only [JSNumber.ofLength, JSNumber.div, zero_add]
  rw [if_neg hlen]
  rfl

theorem ratio_range (a b : ℕ) (hb : 0 < b) (hb2 : b < 2 ^ 32) (ha : a ≤ 2 ^ 53) :
    ((a : ℚ) / b = 0 ∨ (1 : ℚ) / 2 ^ 32 ≤ (a : ℚ) / b) ∧ (a : ℚ) / b ≤ 2 ^ 53 ∧
      0 ≤ (a : ℚ) / b := by
  have hbq : (0 : ℚ) < b := by exact_mod_cast hb
  have hb1 : (1 : ℚ) ≤ b := by exact_mod_cast hb
  have hb3 : (b : ℚ) ≤ 2 ^ 32 := by exact_mod_cast (le_of_lt hb2)
  have haq : (a : ℚ) ≤ 2 ^ 53 := by exact_mod_cast ha
  have ha0 : (0 : ℚ) ≤ a := by exact_mod_cast (Nat.zero_le a)
  refine ⟨?_, ?_, div_nonneg ha0 (le_of_lt hbq)⟩
  · rcases Nat.eq_zero_or_pos a with h0 | hpos
    · left
      rw [h0]
      simp
    · right
      have ha1 : (1 : ℚ) ≤ a := by exact_mod_cast hpos
      rw [div_le_div_iff₀ (by positivity) hbq]
      calc (1 : ℚ) * b ≤ 1 * 2 ^ 32 := by linarith
        _ ≤ a * 2 ^ 32 := by
            apply mul_le_mul_of_nonneg_right ha1
            positivity
  · rw [div_le_iff₀ hbq]
    calc (a : ℚ) ≤ 2 ^ 53 := haq
      _ = 2 ^ 53 * 1 := by ring
      _ ≤ 2 ^ 53 * b := by
          apply mul_le_mul_of_nonneg_left hb1
          positivity

/-- One rounding more, for the sizes that occur in the derived statistics. -/
theorem Near.round100 {k : ℕ} {x r : ℚ} (h : Near k x r) (hk : k ≤ 16)
    (hlo : x = 0 ∨ (1 : ℚ) / 2 ^ 100 ≤ x) (hhi : x ≤ 2 ^ 100) :
    ∃ r2 : ℚ, toDouble r = JSNumber.finite r2 ∧ Near (k + 1) x r2 := by
  apply h.round hk
  · rcases hlo with h0 | h1
    · exact Or.inl h0
    · right
      refine le_trans ?_ h1
      rw [show (-1000 : ℤ) = -((1000 : ℕ) : ℤ) by norm_num, zpow_neg, zpow_natCast]
      norm_num
  · refine le_trans hhi ?_
    rw [show (1000 : ℤ) = ((1000 : ℕ) : ℤ) by norm_num, zpow_natCast]
    norm_num

/-- The value of `Math.round(r * 100) / 100` for a number `r` that is `x` up to `k`
roundings: it rounds a number at distance at most `err` from `100 * x`, and it is
finite and not negative. -/
theorem round2_of_near {k : ℕ} {x r err : ℚ} (h : Near k x r) (hk : k ≤ 15)
    (hlo : x = 0 ∨ (1 : ℚ) / 2 ^ 90 ≤ x) (hhi : x ≤ 2 ^ 90)
    (herr : ∀ t : ℚ, Near (k + 1) (100 * x) t → |t - 100 * x| ≤ err) :
    RoundsTo2UpTo err x (round2 (JSNumber.finite r)) ∧
      ∃ q : ℚ, 0 ≤ q ∧ round2 (JSNumber.finite r) = JSNumber.finite q := by
  have hx := h.1
  have hmul : Near (k + 0) (x * 100) (r * 100) := h.mul (Near.refl 100 (by norm_num))
  have hlo2 : x * 100 = 0 ∨ (1 : ℚ) / 2 ^ 100 ≤ x * 100 := by
    rcases hlo with h0 | h1
    · left
      rw [h0]
      norm_num
    · right
      have h2 : (1 : ℚ) / 2 ^ 100 ≤ 1 / 2 ^ 90 := by norm_num
      linarith
  have hhi2 : x * 100 ≤ 2 ^ 100 := by
    have h2 : (2 : ℚ) ^ 90 * 100 ≤ 2 ^ 100 := by norm_num
    linarith
  obtain ⟨t, ht, hnear⟩ := Near.round100 hmul (by omega) hlo2 hhi2
  have hnear2 : Near (k + 1) (100 * x) t := by
    rw [mul_comm 100 x]
    exact hnear
  have hprod : (JSNumber.finite r).mul (JSNumber.finite 100) = JSNumber.finite t := ht
  have hval : round2 (JSNumber.finite r) =
      (Math.round (JSNumber.finite t)).div (JSNumber.finite 100) := by
    unfold round2
    rw [hprod]
  rw [hval]
  refine ⟨roundsTo2UpTo_of_dist err x t (herr t hnear2), ?_⟩
  have ht0 : 0 ≤ t := hnear2.nonneg
  have hthalf := pow_unitRoundoff_half (show k + 1 ≤ 16 by omega)
  have htle : t ≤ 2 ^ 102 := by
    have h1 : t * (1 / 2) ≤ 100 * x :=
      le_trans (mul_le_mul_of_nonneg_left hthalf ht0) hnear2.2.2
    have h2 : (2 : ℚ) ^ 90 * 100 * 2 ≤ 2 ^ 102 := by norm_num
    linarith
  have hN0 : 0 ≤ ⌊t + 1 / 2⌋ := Int.floor_nonneg.2 (by linarith)
  have hNle : ((⌊t + 1 / 2⌋ : ℤ) : ℚ) ≤ 2 ^ 103 := by
    have h1 := Int.floor_le (t + 1 / 2)
    have h2 : (2 : ℚ) ^ 102 + 1 / 2 ≤ 2 ^ 103 := by norm_num
    linarith
  have hdiv : (Math.round (JSNumber.finite t)).div (JSNumber.finite 100) =
      toDouble (((⌊t + 1 / 2⌋ : ℤ) : ℚ) / 100) := by
    simp only [Math.round, JSNumber.div]
    rw [if_neg (by norm_num)]
  rw [hdiv]
  rcases eq_or_lt_of_le hN0 with h0 | hpos
  · rw [← h0]
    exact ⟨0, le_refl 0, by simpa using toDouble_zero⟩
  · have hN1 : (1 : ℚ) ≤ ((⌊t + 1 / 2⌋ : ℤ) : ℚ) := by exact_mod_cast hpos
    have hlo3 : (2 : ℚ) ^ (-1022 : ℤ) ≤ ((⌊t + 1 / 2⌋ : ℤ) : ℚ) / 100 := by
      rw [show (-1022 : ℤ) = -((1022 : ℕ) : ℤ) by norm_num, zpow_neg, zpow_natCast]
      have h3 : ((2 : ℚ) ^ 1022)⁻¹ ≤ 1 / 100 := by norm_num
      linarith
    have hhi3 : ((⌊t + 1 / 2⌋ : ℤ) : ℚ) / 100 < (2 : ℚ) ^ (1023 : ℤ) := by
      rw [show (1023 : ℤ) = ((1023 : ℕ) : ℤ) by norm_num, zpow_natCast]
      have h3 : (2 : ℚ) ^ 103 / 100 < 2 ^ 1023 := by norm_num
      linarith
    obtain ⟨q, hq, hqerr⟩ := toDouble_rel _ hlo3 hhi3
    refine ⟨q, ?_, hq⟩
    rw [abs_le] at hqerr
    have h4 : ((⌊t + 1 / 2⌋ : ℤ) : ℚ) / 100 / 2 ^ 53 ≤ ((⌊t + 1 / 2⌋ : ℤ) : ℚ) / 100 :=
      div_le_self (by linarith) (by norm_num)
    linarith

/-! ## Evaluation at concrete numbers -/

/-- Evaluation of `toDouble` at a positive rational, from its exponent `e`, the
spacing `p = 2^(e - 52)` and the rounded significand `n`. -/
theorem toDouble_at (q p : ℚ) (e n : ℤ) (hp : p = (2 : ℚ) ^ (e - 52)) (hlo : 2 ^ 52 * p ≤ q)
    (hhi : q < 2 ^ 53 * p) (he : -1022 ≤ e) (he2 : e ≤ 1022)
    (hn : roundHalfEven (q / p) = n) (hn0 : 0 ≤ n) (hn2 : n ≤ 2 ^ 53) :
    toDouble q = JSNumber.finite ((n : ℚ) * p) := by
  have hppos : 0 < p := by
    rw [hp]
    positivity
  have hqpos : 0 < q := lt_of_lt_of_le (by positivity) hlo
  have habs : |q| = q := abs_of_pos hqpos
  have h52 : (2 : ℚ) ^ e = 2 ^ 52 * p := by
    rw [hp, zpow_sub₀ (by norm_num)]
    have : (2 : ℚ) ^ (52 : ℤ) = 2 ^ 52 := by norm_num
    rw [this]
    field_simp
  have h53 : (2 : ℚ) ^ (e + 1) = 2 ^ 53 * p := by
    rw [zpow_add₀ (by norm_num), h52]
    norm_num
    ring
  have hlo2 : (2 : ℚ) ^ e ≤ |q| := by rw [habs, h52]; exact hlo
  have hhi2 : |q| < (2 : ℚ) ^ (e + 1) := by rw [habs, h53]; exact hhi
  rw [toDouble_eq q e n hlo2 hhi2 he (by rw [← hp]; exact hn), ← hp]
  have hnq : (n : ℚ) ≤ 2 ^ 53 := by exact_mod_cast hn2
  have hn0q : (0 : ℚ) ≤ n := by exact_mod_cast hn0
  have hle : (n : ℚ) * p ≤ (2 : ℚ) ^ (e + 1) := by
    rw [h53]
    exact mul_le_mul_of_nonneg_right hnq (le_of_lt hppos)
  have hlt : (2 : ℚ) ^ (e + 1) < (2 : ℚ) ^ 1024 := by
    have h1 : (2 : ℚ) ^ (e + 1) ≤ (2 : ℚ) ^ (1023 : ℤ) :=
      zpow_le_zpow_right₀ (by norm_num) (by omega)
    have h2 : (2 : ℚ) ^ (1023 : ℤ) < (2 : ℚ) ^ 1024 := by norm_num
    linarith
  have h3 : ¬ ((2 : ℚ) ^ 1024 ≤ (n : ℚ) * p) := by
    intro h
    linarith
  have h4 : ¬ ((n : ℚ) * p ≤ -(2 : ℚ) ^ 1024) := by
    intro h
    have := mul_nonneg hn0q (le_of_lt hppos)
    have : (0 : ℚ) < (2 : ℚ) ^ 1024 := by positivity
    linarith
  rw [if_neg h3, if_neg h4]

theorem toDouble_57 : toDouble (57 / 100) = JSNumber.finite (5134103575202365 / 2 ^ 53) := by
  rw [toDouble_at (57 / 100) (1 / 2 ^ 53) (-1) 5134103575202365 (by norm_num) (by norm_num)
    (by norm_num) (by norm_num) (by norm_num)
    (roundHalfEven_eq_of_abs_lt _ _ (by norm_num [abs_lt])) (by norm_num) (by norm_num)]
  norm_num

theorem toDouble_58 : toDouble (58 / 100) = JSNumber.finite (5224175567749775 / 2 ^ 53) := by
  rw [toDouble_at (58 / 100) (1 / 2 ^ 53) (-1) 5224175567749775 (by norm_num) (by norm_num)
    (by norm_num) (by norm_num) (by norm_num)
    (roundHalfEven_eq_of_abs_lt _ _ (by norm_num [abs_lt])) (by norm_num) (by norm_num)]
  norm_num

theorem toDouble_1437 :
    toDouble (1437 / 100) = JSNumber.finite (8089590830664253 / 2 ^ 49) := by
  rw [toDouble_at (1437 / 100) (1 / 2 ^ 49) 3 8089590830664253 (by norm_num) (by norm_num)
    (by norm_num) (by norm_num) (by norm_num)
    (roundHalfEven_eq_of_abs_lt _ _ (by norm_num [abs_lt])) (by norm_num) (by norm_num)]
  norm_num

theorem toDouble_1438 :
    toDouble (1438 / 100) = JSNumber.finite (8095220330198467 / 2 ^ 49) := by
  rw [toDouble_at (1438 / 100) (1 / 2 ^ 49) 3 8095220330198467 (by norm_num) (by norm_num)
    (by norm_num) (by norm_num) (by norm_num)
    (roundHalfEven_eq_of_abs_lt _ _ (by norm_num [abs_lt])) (by norm_num) (by norm_num)]
  norm_num

/-- The binary64 value nearest to `23/40`. -/
theorem toDouble_23_40 :
    toDouble (23 / 40) = JSNumber.finite (5179139571476070 / 2 ^ 53) := by
  rw [toDouble_at (23 / 40) (1 / 2 ^ 53) (-1) 5179139571476070 (by norm_num) (by norm_num)
    (by norm_num) (by norm_num) (by norm_num)
    (roundHalfEven_eq_of_abs_lt _ _ (by norm_num [abs_lt])) (by norm_num) (by norm_num)]
  norm_num

/-- The value of `Math.round(x * 100) / 100` at the binary64 value nearest to `0.575`:
the product is below `57.5`. -/
theorem round2_23_40 :
    round2 (JSNumber.finite (5179139571476070 / 2 ^ 53)) = toDouble (57 / 100) := by
  have hmul : (JSNumber.finite (5179139571476070 / 2 ^ 53)).mul (JSNumber.finite 100) =
      JSNumber.finite (8092405580431359 / 2 ^ 47) := by
    show toDouble (5179139571476070 / 2 ^ 53 * 100) = _
    rw [toDouble_at (5179139571476070 / 2 ^ 53 * 100) (1 / 2 ^ 47) 5 8092405580431359
      (by norm_num) (by norm_num) (by norm_num) (by norm_num) (by norm_num)
      (roundHalfEven_eq_of_abs_lt _ _ (by norm_num [abs_lt])) (by norm_num) (by norm_num)]
    norm_num
  unfold round2
  rw [hmul]
  have hfloor : ⌊(8092405580431359 / 2 ^ 47 : ℚ) + 1 / 2⌋ = 57 := by
    rw [Int.floor_eq_iff]
    norm_num
  simp only [Math.round, JSNumber.div, hfloor]
  rw [if_neg (by norm_num)]
  norm_num

theorem RoundsTo2.eq_of_half {x : ℚ} {y : JSNumber} (h : RoundsTo2 x y) (M : ℤ)
    (hM : 100 * x = M + 1 / 2) : y = toDouble (((M + 1 : ℤ) : ℚ) / 100) := by
  obtain ⟨N, hy, h1, h2⟩ := h
  have h5 : (M : ℚ) < N := by linarith
  have h6 : (N : ℚ) ≤ M + 1 := by linarith
  have h7 : M < N := by exact_mod_cast h5
  have h8 : N ≤ M + 1 := by exact_mod_cast h6
  have h9 : N = M + 1 := by omega
  rw [hy, h9]

/-! ## The derived statistics up to rounding -/

theorem exactKdas_length_le (recentMatches : List MatchRecord) :
    (exactKdas recentMatches).length ≤ recentMatches.length :=
  List.length_filterMap_le _ _

theorem exactKdas_ne_nil (recentMatches : List MatchRecord)
    (h : parsedKdas recentMatches ≠ []) : exactKdas recentMatches ≠ [] := by
  intro h0
  apply h
  rw [parsedKdas_eq_map, h0]
  rfl

/-- An average of the source is the exact mean up to one rounding. -/
theorem avgOf_near (comp : ExactKda → ℕ) (fcomp : Kda → JSNumber)
    (hc : ∀ k : ExactKda, fcomp k.toKda = toDouble ((comp k : ℕ) : ℚ))
    (recentMatches : List MatchRecord) (hne : parsedKdas recentMatches ≠ [])
    (hlen : recentMatches.length < 2 ^ 32)
    (ht : total comp (exactKdas recentMatches) ≤ 2 ^ 53) :
    ∃ r : ℚ, avgOf fcomp (parsedKdas recentMatches) = JSNumber.finite r ∧
      Near 1 (mean comp (exactKdas recentMatches)) r ∧
      (mean comp (exactKdas recentMatches) = 0 ∨
        (1 : ℚ) / 2 ^ 32 ≤ mean comp (exactKdas recentMatches)) ∧
      mean comp (exactKdas recentMatches) ≤ 2 ^ 53 := by
  have hne2 := exactKdas_ne_nil recentMatches hne
  have hpos : 0 < (exactKdas recentMatches).length := List.length_pos.2 hne2
  have hlt : (exactKdas recentMatches).length < 2 ^ 32 :=
    lt_of_le_of_lt (exactKdas_length_le recentMatches) hlen
  obtain ⟨hlo, hhi, h0⟩ := ratio_range _ _ hpos hlt ht
  have hlo2 : mean comp (exactKdas recentMatches) = 0 ∨
      (1 : ℚ) / 2 ^ 100 ≤ mean comp (exactKdas recentMatches) := by
    rcases hlo with h | h
    · exact Or.inl h
    · right
      have h2 : (1 : ℚ) / 2 ^ 100 ≤ 1 / 2 ^ 32 := by norm_num
      exact le_trans h2 h
  have hhi2 : mean comp (exactKdas recentMatches) ≤ 2 ^ 100 := by
    have h2 : (2 : ℚ) ^ 53 ≤ 2 ^ 100 := by norm_num
    exact le_trans hhi h2
  obtain ⟨r, hr, hnear⟩ := Near.round100 (Near.refl _ h0) (by norm_num) hlo2 hhi2
  refine ⟨r, ?_, hnear, hlo, hhi⟩
  rw [parsedKdas_eq_map, avgOf_exact comp fcomp hc _ hne2 ht]
  exact hr

/-- An average of the derived statistics: the exact mean rounded to two decimals, up
to the error of two roundings. -/
theorem average_rounds (comp : ExactKda → ℕ) (fcomp : Kda → JSNumber)
    (hc : ∀ k : ExactKda, fcomp k.toKda = toDouble ((comp k : ℕ) : ℚ))
    (recentMatches : List MatchRecord) (hne : parsedKdas recentMatches ≠ [])
    (hlen : recentMatches.length < 2 ^ 32)
    (ht : total comp (exactKdas recentMatches) ≤ 2 ^ 53) :
    RoundsTo2UpTo (100 * mean comp (exactKdas recentMatches) / 2 ^ 51)
      (mean comp (exactKdas recentMatches))
      (round2 (avgOf fcomp (parsedKdas recentMatches))) := by
  obtain ⟨r, hr, hnear, hlo, hhi⟩ := avgOf_near comp fcomp hc recentMatches hne hlen ht
  rw [hr]
  refine (round2_of_near hnear (by norm_num) ?_ ?_ ?_).1
  · rcases hlo with h | h
    · exact Or.inl h
    · right
      have h2 : (1 : ℚ) / 2 ^ 90 ≤ 1 / 2 ^ 32 := by norm_num
      exact le_trans h2 h
  · have h2 : (2 : ℚ) ^ 53 ≤ 2 ^ 90 := by norm_num
    exact le_trans hhi h2
  · intro t ht2
    exact ht2.dist_le_three (by norm_num)

/-- The winrate of the derived statistics: `100 * w / n` rounded to two decimals, up
to the error of three roundings. -/
theorem winrate_rounds (w n : ℕ) (hn : 0 < n) (hwn : w ≤ n) (hn2 : n < 2 ^ 32) :
    RoundsTo2UpTo (100 * ((w : ℚ) / (n : ℚ) * 100) / 2 ^ 51) ((w : ℚ) / (n : ℚ) * 100)
      (round2 (((JSNumber.ofLength w).div (JSNumber.ofLength n)).mul (JSNumber.finite 100))) := by
  have hw : w ≤ 2 ^ 53 := by omega
  obtain ⟨hlo, hhi, h0⟩ := ratio_range w n hn hn2 hw
  have hnq : (n : ℚ) ≠ 0 := by exact_mod_cast (ne_of_gt hn)
  have hsmall : (1 : ℚ) / 2 ^ 100 ≤ 1 / 2 ^ 32 := by norm_num
  have hbig : (2 : ℚ) ^ 53 ≤ 2 ^ 100 := by norm_num
  have hlo1 : (w : ℚ) / n = 0 ∨ (1 : ℚ) / 2 ^ 100 ≤ (w : ℚ) / n := by
    rcases hlo with h | h
    · exact Or.inl h
    · exact Or.inr (le_trans hsmall h)
  obtain ⟨c, hc, hnear1⟩ := Near.round100 (Near.refl _ h0) (by norm_num) hlo1 (le_trans hhi hbig)
  have hdiv : (JSNumber.ofLength w).div (JSNumber.ofLength n) = JSNumber.finite c := by
    simp only [JSNumber.ofLength, JSNumber.div]
    rw [if_neg hnq]
    exact hc
  have hmul : Near (0 + 1 + 0) ((w : ℚ) / n * 100) (c * 100) :=
    hnear1.mul (Near.refl 100 (by norm_num))
  have hlo2 : (w : ℚ) / n * 100 = 0 ∨ (1 : ℚ) / 2 ^ 90 ≤ (w : ℚ) / n * 100 := by
    rcases hlo with h | h
    · left
      rw [h]
      norm_num
    · right
      have h2 : (1 : ℚ) / 2 ^ 90 ≤ 1 / 2 ^ 32 := by norm_num
      linarith
  have hhi2 : (w : ℚ) / n * 100 ≤ 2 ^ 90 := by
    have h2 : (2 : ℚ) ^ 53 * 100 ≤ 2 ^ 90 := by norm_num
    linarith
  have hlo3 : (w : ℚ) / n * 100 = 0 ∨ (1 : ℚ) / 2 ^ 100 ≤ (w : ℚ) / n * 100 := by
    rcases hlo2 with h | h
    · exact Or.inl h
    · right
      have h2 : (1 : ℚ) / 2 ^ 100 ≤ 1 / 2 ^ 90 := by norm_num
      exact le_trans h2 h
  have hhi3 : (w : ℚ) / n * 100 ≤ 2 ^ 100 := by
    have h2 : (2 : ℚ) ^ 90 ≤ 2 ^ 100 := by norm_num
    exact le_trans hhi2 h2
  obtain ⟨d, hd, hnear2⟩ := Near.round100 hmul (by norm_num) hlo3 hhi3
  have hprod : (JSNumber.finite c).mul (JSNumber.finite 100) = JSNumber.finite d := hd
  rw [hdiv, hprod]
  refine (round2_of_near hnear2 (by norm_num) hlo2 hhi2 ?_).1
  intro t ht
  exact ht.dist_le_three (by norm_num)

theorem mathMax_finite (a b : ℚ) :
    Math.max (JSNumber.finite a) (JSNumber.finite b) = JSNumber.finite (max a b) := by
  show JSNumber.finite (if a < b then b else a) = _
  by_cases h : a < b
  · rw [if_pos h, max_eq_right (le_of_lt h)]
  · rw [if_neg h, max_eq_left (not_lt.1 h)]

/-- The KDA ratio of the derived statistics: the exact ratio rounded to two decimals,
up to the error of five roundings; it is a finite number. -/
theorem kdaRatio_rounds (recentMatches : List MatchRecord)
    (hne : parsedKdas recentMatches ≠ []) (hlen : recentMatches.length < 2 ^ 32)
    (hk : total ExactKda.kills (exactKdas recentMatches) ≤ 2 ^ 53)
    (hd : total ExactKda.deaths (exactKdas recentMatches) ≤ 2 ^ 53)
    (ha : total ExactKda.assists (exactKdas recentMatches) ≤ 2 ^ 53) :
    RoundsTo2UpTo (100 * exactRatio (exactKdas recentMatches) / 2 ^ 50)
        (exactRatio (exactKdas recentMatches))
        (round2
          (((avgOf Kda.kills (parsedKdas recentMatches)).add
              (avgOf Kda.assists (parsedKdas recentMatches))).div
            (Math.max (avgOf Kda.deaths (parsedKdas recentMatches)) (toDouble (1 / 10))))) ∧
      ∃ q : ℚ, 0 ≤ q ∧
        round2
          (((avgOf Kda.kills (parsedKdas recentMatches)).add
              (avgOf Kda.assists (parsedKdas recentMatches))).div
            (Math.max (avgOf Kda.deaths (parsedKdas recentMatches)) (toDouble (1 / 10)))) =
          JSNumber.finite q := by
  obtain ⟨rk, hrk, nk, lok, hik⟩ :=
    avgOf_near ExactKda.kills Kda.kills (fun _ => rfl) recentMatches hne hlen hk
  obtain ⟨rd, hrd, nd, _, hid⟩ :=
    avgOf_near ExactKda.deaths Kda.deaths (fun _ => rfl) recentMatches hne hlen hd
  obtain ⟨ra, hra, na, loa, hia⟩ :=
    avgOf_near ExactKda.assists Kda.assists (fun _ => rfl) recentMatches hne hlen ha
  have hK0 := nk.1
  have hA0 := na.1
  have hD0 := nd.1
  -- the literal `0.1`
  obtain ⟨c, hc, nc⟩ := Near.round100 (Near.refl (1 / 10 : ℚ) (by norm_num)) (by norm_num)
    (Or.inr (by norm_num)) (by norm_num)
  -- the sum
  have hsumlo : mean ExactKda.kills (exactKdas recentMatches) +
        mean ExactKda.assists (exactKdas recentMatches) = 0 ∨
      (1 : ℚ) / 2 ^ 32 ≤ mean ExactKda.kills (exactKdas recentMatches) +
        mean ExactKda.assists (exactKdas recentMatches) := by
    rcases lok with h1 | h1
    · rcases loa with h2 | h2
      · left
        rw [h1, h2]
        norm_num
      · right
        linarith
    · right
      linarith
  have hsumlo2 : mean ExactKda.kills (exactKdas recentMatches) +
        mean ExactKda.assists (exactKdas recentMatches) = 0 ∨
      (1 : ℚ) / 2 ^ 100 ≤ mean ExactKda.kills (exactKdas recentMatches) +
        mean ExactKda.assists (exactKdas recentMatches) := by
    rcases hsumlo with h | h
    · exact Or.inl h
    · right
      have h2 : (1 : ℚ) / 2 ^ 100 ≤ 1 / 2 ^ 32 := by norm_num
      exact le_trans h2 h
  have hsumhi : mean ExactKda.kills (exactKdas recentMatches) +
      mean ExactKda.assists (exactKdas recentMatches) ≤ 2 ^ 54 := by
    have h2 : (2 : ℚ) ^ 53 + 2 ^ 53 = 2 ^ 54 := by norm_num
    linarith
  obtain ⟨s, hs, ns⟩ := Near.round100 (nk.add na) (by norm_num) hsumlo2
    (le_trans hsumhi (by norm_num))
  have hadd : (JSNumber.finite rk).add (JSNumber.finite ra) = JSNumber.finite s := hs
  -- the divisor
  have nmax : Near 1 (max (mean ExactKda.deaths (exactKdas recentMatches)) (1 / 10))
      (max rd c) := nd.max nc
  have hmaxpos : 0 < max (mean ExactKda.deaths (exactKdas recentMatches)) (1 / 10) :=
    lt_max_of_lt_right (by norm_num)
  have hmaxlo : (1 : ℚ) / 10 ≤ max (mean ExactKda.deaths (exactKdas recentMatches)) (1 / 10) :=
    le_max_right _ _
  have hmaxhi : max (mean ExactKda.deaths (exactKdas recentMatches)) (1 / 10) ≤ 2 ^ 53 :=
    max_le hid (by norm_num)
  have hmpos : 0 < max rd c :=
    lt_of_lt_of_le (mul_pos hmaxpos (pow_unitRoundoff_pos 1)) nmax.2.1
  have hratio : Near (2 + 1) (exactRatio (exactKdas recentMatches)) (s / max rd c) :=
    ns.div nmax hmaxpos
  have hx0 : 0 ≤ exactRatio (exactKdas recentMatches) := hratio.1
  have hxlo : exactRatio (exactKdas recentMatches) = 0 ∨
      (1 : ℚ) / 2 ^ 90 ≤ exactRatio (exactKdas recentMatches) := by
    rcases hsumlo with h | h
    · left
      unfold exactRatio
      rw [h]
      simp
    · right
      unfold exactRatio
      rw [le_div_iff₀ hmaxpos]
      have h2 : (1 : ℚ) / 2 ^ 90 * 2 ^ 53 ≤ 1 / 2 ^ 32 := by norm_num
      have h3 : (1 : ℚ) / 2 ^ 90 *
          max (mean ExactKda.deaths (exactKdas recentMatches)) (1 / 10) ≤
          1 / 2 ^ 90 * 2 ^ 53 := mul_le_mul_of_nonneg_left hmaxhi (by norm_num)
      linarith
  have hxhi : exactRatio (exactKdas recentMatches) ≤ 2 ^ 58 := by
    unfold exactRatio
    rw [div_le_iff₀ hmaxpos]
    have h2 : (2 : ℚ) ^ 58 * (1 / 10) ≤
        2 ^ 58 * max (mean ExactKda.deaths (exactKdas recentMatches)) (1 / 10) :=
      mul_le_mul_of_nonneg_left hmaxlo (by norm_num)
    have h3 : (2 : ℚ) ^ 54 ≤ 2 ^ 58 * (1 / 10) := by norm_num
    linarith
  have hxlo2 : exactRatio (exactKdas recentMatches) = 0 ∨
      (1 : ℚ) / 2 ^ 100 ≤ exactRatio (exactKdas recentMatches) := by
    rcases hxlo with h | h
    · exact Or.inl h
    · right
      have h2 : (1 : ℚ) / 2 ^ 100 ≤ 1 / 2 ^ 90 := by norm_num
      exact le_trans h2 h
  obtain ⟨q, hq, nq⟩ := Near.round100 hratio (by norm_num) hxlo2
    (le_trans hxhi (by norm_num))
  have hdiv : (JSNumber.finite s).div (JSNumber.finite (max rd c)) = JSNumber.finite q := by
    simp only [JSNumber.div]
    rw [if_neg (ne_of_gt hmpos)]
    exact hq
  rw [hrk, hra, hrd, hc, hadd, mathMax_finite, hdiv]
  refine round2_of_near nq (by norm_num) hxlo (le_trans hxhi (by norm_num)) ?_
  intro t ht
  exact ht.dist_le_seven (by norm_num)

/-! ## Lists of equal matches -/

theorem exactKdas_append (a b : List MatchRecord) :
    exactKdas (a ++ b) = exactKdas a ++ exactKdas b :=
  List.filterMap_append _ _ _

theorem exactKdas_replicate (n : ℕ) (m : MatchRecord) (k : ExactKda)
    (h : exactKda m = some k) : exactKdas (List.replicate n m) = List.replicate n k := by
  induction n with
  | zero => rfl
  | succ n ih =>
    unfold exactKdas at ih ⊢
    rw [List.replicate_succ, List.filterMap_cons_some h, ih, List.replicate_succ]

theorem total_append (comp : ExactKda → ℕ) (a b : List ExactKda) :
    total comp (a ++ b) = total comp a + total comp b := by
  simp [total]

theorem total_replicate (comp : ExactKda → ℕ) (n : ℕ) (k : ExactKda) :
    total comp (List.replicate n k) = n * comp k := by
  simp [total]

theorem winCount_append (a b : List MatchRecord) :
    winCount (a ++ b) = winCount a + winCount b := by
  simp [winCount]

theorem winCount_replicate (n : ℕ) (m : MatchRecord) :
    winCount (List.replicate n m) = if isWin m = true then n else 0 := by
  induction n with
  | zero => simp [winCount]
  | succ n ih =>
    unfold winCount at ih ⊢
    rw [List.replicate_succ]
    by_cases h : isWin m = true
    · rw [if_pos h] at ih
      rw [List.filter_cons_of_pos (by simpa using h), List.length_cons, ih, if_pos h]
    · rw [if_neg h] at ih
      rw [List.filter_cons_of_neg (by simpa using h), ih, if_neg h]

theorem parseKda_isSome_iff (m : MatchRecord) :
    (parseKda m).isSome = (exactKda m).isSome := by
  rw [parseKda_eq_map]
  cases exactKda m <;> rfl

/-! ## C2: the KDA ratio -/

/-- C2, as binary64 arithmetic has it: for every player record without error that has
a match whose KDA string parses, fewer than `2^32` matches, and kills, deaths and
assists that each sum to at most `2^53`, the stored `kda_ratio` is a finite number,
not negative: the binary64 value nearest to `N / 100` for an integer `N` that rounds a
number within the relative error `2^-50` of `100 * (K + A) / max(D, 0.1)`, where
`K`, `D`, `A` are the exact means over the parsed matches.  It is the ratio rounded
to two decimals whenever `100 * ratio` is farther than that error from every
half-integer.  The divisor is positive, and with no death the ratio is the one of
`(K + A) / 0.1`. -/
theorem C2_kda_ratio_up_to_rounding (player : PlayerRecord) (herr : hasError player = false)
    (hparse : ∃ m ∈ player.recentMatches, (parseKda m).isSome = true)
    (hlen : player.recentMatches.length < 2 ^ 32)
    (hk : total ExactKda.kills (exactKdas player.recentMatches) ≤ 2 ^ 53)
    (hd : total ExactKda.deaths (exactKdas player.recentMatches) ≤ 2 ^ 53)
    (ha : total ExactKda.assists (exactKdas player.recentMatches) ≤ 2 ^ 53) :
    (∀ stats : Stats, (processPlayer stats player).memeStats =
        stats.memeStats.set player.summonerName (derivedStats player)) ∧
      0 < max (mean ExactKda.deaths (exactKdas player.recentMatches)) (1 / 10) ∧
      (∃ q : ℚ, 0 ≤ q ∧ (derivedStats player).kda_ratio = JSNumber.finite q) ∧
      RoundsTo2UpTo (100 * exactRatio (exactKdas player.recentMatches) / 2 ^ 50)
        (exactRatio (exactKdas player.recentMatches)) (derivedStats player).kda_ratio ∧
      (AwayFromTies (100 * exactRatio (exactKdas player.recentMatches) / 2 ^ 50)
          (exactRatio (exactKdas player.recentMatches)) →
        RoundsTo2 (exactRatio (exactKdas player.recentMatches))
          (derivedStats player).kda_ratio) ∧
      (mean ExactKda.deaths (exactKdas player.recentMatches) = 0 →
        RoundsTo2UpTo
          (100 * ((mean ExactKda.kills (exactKdas player.recentMatches) +
            mean ExactKda.assists (exactKdas player.recentMatches)) / (1 / 10)) / 2 ^ 50)
          ((mean ExactKda.kills (exactKdas player.recentMatches) +
            mean ExactKda.assists (exactKdas player.recentMatches)) / (1 / 10))
          (derivedStats player).kda_ratio) := by
  obtain ⟨m, hm, hsome⟩ := hparse
  have hne := parsedKdas_ne_nil player.recentMatches m hm hsome
  have hfield : (derivedStats player).kda_ratio =
      round2
        (((avgOf Kda.kills (parsedKdas player.recentMatches)).add
            (avgOf Kda.assists (parsedKdas player.recentMatches))).div
          (Math.max (avgOf Kda.deaths (parsedKdas player.recentMatches))
            (toDouble (1 / 10)))) := by
    unfold derivedStats
    rw [memeStatsOf_parsed _ _ hne]
  obtain ⟨hround, hfin⟩ := kdaRatio_rounds player.recentMatches hne hlen hk hd ha
  rw [← hfield] at hround hfin
  refine ⟨fun stats => processPlayer_memeStats stats player herr,
    lt_max_of_lt_right (by norm_num), hfin, hround, fun haway => hround.exact haway, ?_⟩
  intro hzero
  have hmax : max (mean ExactKda.deaths (exactKdas player.recentMatches)) (1 / 10) =
      1 / 10 := by
    rw [hzero]
    exact max_eq_right (by norm_num)
  have hx : exactRatio (exactKdas player.recentMatches) =
      (mean ExactKda.kills (exactKdas player.recentMatches) +
        mean ExactKda.assists (exactKdas player.recentMatches)) / (1 / 10) := by
    unfold exactRatio
    rw [hmax]
  rw [← hx]
  exact hround

/-- C2 at a record with the single match `3/0/7`: no death, and a ratio of `100`. -/
theorem C2_kda_ratio_up_to_rounding_witness :
    mean ExactKda.deaths (exactKdas [sampleMatch "Ahri" "3/0/7" "Victory"]) = 0 ∧
      (derivedStats (sampleLoaded "A" "50%" [sampleMatch "Ahri" "3/0/7" "Victory"])).kda_ratio
        = JSNumber.finite 100 := by
  have hk : exactKdas [sampleMatch "Ahri" "3/0/7" "Victory"] = [⟨3, 0, 7⟩] := by decide
  have hzero : mean ExactKda.deaths (exactKdas [sampleMatch "Ahri" "3/0/7" "Victory"]) = 0 := by
    rw [hk]
    norm_num [mean, total]
  have h := C2_kda_ratio_up_to_rounding
    (sampleLoaded "A" "50%" [sampleMatch "Ahri" "3/0/7" "Victory"]) rfl
    ⟨sampleMatch "Ahri" "3/0/7" "Victory", by simp [sampleLoaded], by decide⟩
    (by simp [sampleLoaded])
    (by show total ExactKda.kills (exactKdas [sampleMatch "Ahri" "3/0/7" "Victory"]) ≤ 2 ^ 53
        rw [hk]
        norm_num [total])
    (by show total ExactKda.deaths (exactKdas [sampleMatch "Ahri" "3/0/7" "Victory"]) ≤ 2 ^ 53
        rw [hk]
        norm_num [total])
    (by show total ExactKda.assists (exactKdas [sampleMatch "Ahri" "3/0/7" "Victory"]) ≤ 2 ^ 53
        rw [hk]
        norm_num [total])
  refine ⟨hzero, ?_⟩
  have hround := h.2.2.2.2.2 hzero
  have hval : (mean ExactKda.kills (exactKdas [sampleMatch "Ahri" "3/0/7" "Victory"]) +
      mean ExactKda.assists (exactKdas [sampleMatch "Ahri" "3/0/7" "Victory"])) / (1 / 10) =
      100 := by
    rw [hk]
    norm_num [mean, total]
  have hval2 : (mean ExactKda.kills
        (exactKdas (sampleLoaded "A" "50%" [sampleMatch "Ahri" "3/0/7" "Victory"]).recentMatches) +
      mean ExactKda.assists
        (exactKdas (sampleLoaded "A" "50%" [sampleMatch "Ahri" "3/0/7" "Victory"]).recentMatches)) /
      (1 / 10) = 100 := hval
  rw [hval2] at hround
  rw [hround.eq_of_close 10000 (by norm_num) (by norm_num)]
  have hcast : (((10000 : ℤ) : ℚ)) / 100 = ((100 : ℕ) : ℚ) := by norm_num
  rw [hcast, toDouble_natCast 100 (by norm_num)]
  norm_num

/-- C2 fails as stated: `sampleFiveGames` has no error and five matches, all parsed,
with 16 kills, 40 deaths and 7 assists in all; `(K + A) / max(D, 0.1)` is `0.575`,
which rounds to `0.58`, and its `kda_ratio` is `0.57`: the sum of the binary64
values of `3.2` and `1.4` is below `4.6`, so the product with `100` is below
`57.5`. -/
theorem C2_counterexample :
    hasError sampleFiveGames = false ∧
      (∃ m ∈ sampleFiveGames.recentMatches, (parseKda m).isSome = true) ∧
      exactRatio (exactKdas sampleFiveGames.recentMatches) = 23 / 40 ∧
      (derivedStats sampleFiveGames).kda_ratio = toDouble (57 / 100) ∧
      toDouble (57 / 100) ≠ toDouble (58 / 100) ∧
      ¬ RoundsTo2 (exactRatio (exactKdas sampleFiveGames.recentMatches))
        (derivedStats sampleFiveGames).kda_ratio := by
  have hk : exactKdas sampleFiveGames.recentMatches =
      [⟨5, 8, 0⟩, ⟨4, 8, 1⟩, ⟨3, 8, 2⟩, ⟨2, 8, 2⟩, ⟨2, 8, 2⟩] := by decide
  have hsome : ∃ m ∈ sampleFiveGames.recentMatches, (parseKda m).isSome = true :=
    ⟨sampleMatch "Ahri" "5/8/0" "Victory", by simp [sampleFiveGames, sampleLoaded], by decide⟩
  obtain ⟨m, hm, hm2⟩ := hsome
  have hne := parsedKdas_ne_nil sampleFiveGames.recentMatches m hm hm2
  have hratio : exactRatio (exactKdas sampleFiveGames.recentMatches) = 23 / 40 := by
    rw [hk]
    norm_num [exactRatio, mean, total]
  have hne2 : ([⟨5, 8, 0⟩, ⟨4, 8, 1⟩, ⟨3, 8, 2⟩, ⟨2, 8, 2⟩, ⟨2, 8, 2⟩] : List ExactKda) ≠ [] := by
    simp
  have hkills : avgOf Kda.kills (parsedKdas sampleFiveGames.recentMatches) =
      JSNumber.finite (7205759403792794 / 2 ^ 51) := by
    rw [parsedKdas_eq_map, hk, avgOf_exact ExactKda.kills Kda.kills (fun _ => rfl) _ hne2
      (by norm_num [total])]
    have hmean : mean ExactKda.kills
        [⟨5, 8, 0⟩, ⟨4, 8, 1⟩, ⟨3, 8, 2⟩, ⟨2, 8, 2⟩, ⟨2, 8, 2⟩] = 16 / 5 := by
      norm_num [mean, total]
    rw [hmean, toDouble_at (16 / 5) (1 / 2 ^ 51) 1 7205759403792794 (by norm_num) (by norm_num)
      (by norm_num) (by norm_num) (by norm_num)
      (roundHalfEven_eq_of_abs_lt _ _ (by norm_num [abs_lt])) (by norm_num) (by norm_num)]
    norm_num
  have hassists : avgOf Kda.assists (parsedKdas sampleFiveGames.recentMatches) =
      JSNumber.finite (6305039478318694 / 2 ^ 52) := by
    rw [parsedKdas_eq_map, hk, avgOf_exact ExactKda.assists Kda.assists (fun _ => rfl) _ hne2
      (by norm_num [total])]
    have hmean : mean ExactKda.assists
        [⟨5, 8, 0⟩, ⟨4, 8, 1⟩, ⟨3, 8, 2⟩, ⟨2, 8, 2⟩, ⟨2, 8, 2⟩] = 7 / 5 := by
      norm_num [mean, total]
    rw [hmean, toDouble_at (7 / 5) (1 / 2 ^ 52) 0 6305039478318694 (by norm_num) (by norm_num)
      (by norm_num) (by norm_num) (by norm_num)
      (roundHalfEven_eq_of_abs_lt _ _ (by norm_num [abs_lt])) (by norm_num) (by norm_num)]
    norm_num
  have hdeaths : avgOf Kda.deaths (parsedKdas sampleFiveGames.recentMatches) =
      JSNumber.finite 8 := by
    rw [parsedKdas_eq_map, hk, avgOf_exact ExactKda.deaths Kda.deaths (fun _ => rfl) _ hne2
      (by norm_num [total])]
    have hmean : mean ExactKda.deaths
        [⟨5, 8, 0⟩, ⟨4, 8, 1⟩, ⟨3, 8, 2⟩, ⟨2, 8, 2⟩, ⟨2, 8, 2⟩] = ((8 : ℕ) : ℚ) := by
      norm_num [mean, total]
    rw [hmean, toDouble_natCast 8 (by norm_num)]
    norm_num
  have htenth : toDouble (1 / 10) = JSNumber.finite (7205759403792794 / 2 ^ 56) := by
    rw [toDouble_at (1 / 10) (1 / 2 ^ 56) (-4) 7205759403792794 (by norm_num) (by norm_num)
      (by norm_num) (by norm_num) (by norm_num)
      (roundHalfEven_eq_of_abs_lt _ _ (by norm_num [abs_lt])) (by norm_num) (by norm_num)]
    norm_num
  have hsum : (JSNumber.finite (7205759403792794 / 2 ^ 51)).add
      (JSNumber.finite (6305039478318694 / 2 ^ 52)) =
      JSNumber.finite (5179139571476070 / 2 ^ 50) := by
    show toDouble (7205759403792794 / 2 ^ 51 + 6305039478318694 / 2 ^ 52) = _
    rw [toDouble_at (7205759403792794 / 2 ^ 51 + 6305039478318694 / 2 ^ 52) (1 / 2 ^ 50) 2
      5179139571476070 (by norm_num) (by norm_num) (by norm_num) (by norm_num) (by norm_num)
      (by
        rw [roundHalfEven_tie 5179139571476070 _ (by norm_num)]
        norm_num)
      (by norm_num) (by norm_num)]
    norm_num
  have hmax : Math.max (JSNumber.finite 8) (JSNumber.finite (7205759403792794 / 2 ^ 56)) =
      JSNumber.finite 8 := by
    rw [mathMax_finite]
    norm_num
  have hdiv : (JSNumber.finite (5179139571476070 / 2 ^ 50)).div (JSNumber.finite 8) =
      JSNumber.finite (5179139571476070 / 2 ^ 53) := by
    simp only [JSNumber.div]
    rw [if_neg (by norm_num)]
    rw [toDouble_at (5179139571476070 / 2 ^ 50 / 8) (1 / 2 ^ 53) (-1) 5179139571476070
      (by norm_num) (by norm_num) (by norm_num) (by norm_num) (by norm_num)
      (roundHalfEven_eq_of_abs_lt _ _ (by norm_num [abs_lt])) (by norm_num) (by norm_num)]
    norm_num
  have hrate : (derivedStats sampleFiveGames).kda_ratio = toDouble (57 / 100) := by
    unfold derivedStats
    rw [memeStatsOf_parsed _ _ hne]
    show round2 (((avgOf Kda.kills (parsedKdas sampleFiveGames.recentMatches)).add
      (avgOf Kda.assists (parsedKdas sampleFiveGames.recentMatches))).div
        (Math.max (avgOf Kda.deaths (parsedKdas sampleFiveGames.recentMatches))
          (toDouble (1 / 10)))) = _
    rw [hkills, hassists, hdeaths, htenth, hsum, hmax, hdiv, round2_23_40]
  have hdiff : toDouble (57 / 100) ≠ toDouble (58 / 100) := by
    rw [toDouble_57, toDouble_58]
    intro h
    injection h with h2
    norm_num at h2
  refine ⟨rfl, ⟨m, hm, hm2⟩, hratio, hrate, hdiff, ?_⟩
  rw [hratio, hrate]
  intro hround
  have h := hround.eq_of_half 57 (by norm_num)
  exact hdiff (by simpa using h)

/-! ## C3: the three averages -/

/-- C3, as binary64 arithmetic has it: for every player record without error that has
a match whose KDA string parses, fewer than `2^32` matches, and kills, deaths and
assists that each sum to at most `2^53`, each of `average_kills`, `average_deaths`
and `average_assists` is the binary64 value nearest to `N / 100` for an integer `N`
that rounds a number within the relative error `2^-51` of `100` times the exact mean
of that component over the parsed matches; it is the mean rounded to two decimals
whenever `100 * mean` is farther than that error from every half-integer.  A match
whose KDA string does not parse changes none of the three, wherever it stands in
the list. -/
theorem C3_averages_up_to_rounding (player : PlayerRecord) (herr : hasError player = false)
    (hparse : ∃ m ∈ player.recentMatches, (parseKda m).isSome = true)
    (hlen : player.recentMatches.length < 2 ^ 32)
    (hk : total ExactKda.kills (exactKdas player.recentMatches) ≤ 2 ^ 53)
    (hd : total ExactKda.deaths (exactKdas player.recentMatches) ≤ 2 ^ 53)
    (ha : total ExactKda.assists (exactKdas player.recentMatches) ≤ 2 ^ 53) :
    (∀ stats : Stats, (processPlayer stats player).memeStats =
        stats.memeStats.set player.summonerName (derivedStats player)) ∧
      (RoundsTo2UpTo (100 * mean ExactKda.kills (exactKdas player.recentMatches) / 2 ^ 51)
          (mean ExactKda.kills (exactKdas player.recentMatches))
          (derivedStats player).average_kills ∧
        (AwayFromTies (100 * mean ExactKda.kills (exactKdas player.recentMatches) / 2 ^ 51)
            (mean ExactKda.kills (exactKdas player.recentMatches)) →
          RoundsTo2 (mean ExactKda.kills (exactKdas player.recentMatches))
            (derivedStats player).average_kills)) ∧
      (RoundsTo2UpTo (100 * mean ExactKda.deaths (exactKdas player.recentMatches) / 2 ^ 51)
          (mean ExactKda.deaths (exactKdas player.recentMatches))
          (derivedStats player).average_deaths ∧
        (AwayFromTies (100 * mean ExactKda.deaths (exactKdas player.recentMatches) / 2 ^ 51)
            (mean ExactKda.deaths (exactKdas player.recentMatches)) →
          RoundsTo2 (mean ExactKda.deaths (exactKdas player.recentMatches))
            (derivedStats player).average_deaths)) ∧
      (RoundsTo2UpTo (100 * mean ExactKda.assists (exactKdas player.recentMatches) / 2 ^ 51)
          (mean ExactKda.assists (exactKdas player.recentMatches))
          (derivedStats player).average_assists ∧
        (AwayFromTies (100 * mean ExactKda.assists (exactKdas player.recentMatches) / 2 ^ 51)
            (mean ExactKda.assists (exactKdas player.recentMatches)) →
          RoundsTo2 (mean ExactKda.assists (exactKdas player.recentMatches))
            (derivedStats player).average_assists)) ∧
      (∀ (pre post : List MatchRecord) (bad : MatchRecord) (other : PlayerRecord),
        player.recentMatches = pre ++ post → parseKda bad = none →
        other.recentMatches = pre ++ bad :: post →
        (derivedStats other).average_kills = (derivedStats player).average_kills ∧
          (derivedStats other).average_deaths = (derivedStats player).average_deaths ∧
          (derivedStats other).average_assists = (derivedStats player).average_assists) := by
  obtain ⟨m, hm, hsome⟩ := hparse
  have hne := parsedKdas_ne_nil player.recentMatches m hm hsome
  have hstats := memeStatsOf_parsed (winrateNum player.winrate) player.recentMatches hne
  have hkills : (derivedStats player).average_kills =
      round2 (avgOf Kda.kills (parsedKdas player.recentMatches)) := by
    unfold derivedStats
    rw [hstats]
  have hdeaths : (derivedStats player).average_deaths =
      round2 (avgOf Kda.deaths (parsedKdas player.recentMatches)) := by
    unfold derivedStats
    rw [hstats]
  have hassists : (derivedStats player).average_assists =
      round2 (avgOf Kda.assists (parsedKdas player.recentMatches)) := by
    unfold derivedStats
    rw [hstats]
  have rk := average_rounds ExactKda.kills Kda.kills (fun _ => rfl) player.recentMatches hne
    hlen hk
  have rd := average_rounds ExactKda.deaths Kda.deaths (fun _ => rfl) player.recentMatches hne
    hlen hd
  have ra := average_rounds ExactKda.assists Kda.assists (fun _ => rfl) player.recentMatches
    hne hlen ha
  rw [← hkills] at rk
  rw [← hdeaths] at rd
  rw [← hassists] at ra
  refine ⟨fun stats => processPlayer_memeStats stats player herr,
    ⟨rk, fun h => rk.exact h⟩, ⟨rd, fun h => rd.exact h⟩, ⟨ra, fun h => ra.exact h⟩, ?_⟩
  intro pre post bad other hsplit hbad hother
  have heq : parsedKdas other.recentMatches = parsedKdas player.recentMatches := by
    rw [hother, hsplit]
    exact parsedKdas_insert_unparsed pre post bad hbad
  have hne2 : parsedKdas other.recentMatches ≠ [] := by
    rw [heq]
    exact hne
  unfold derivedStats
  rw [hstats, memeStatsOf_parsed (winrateNum other.winrate) other.recentMatches hne2, heq]
  exact ⟨rfl, rfl, rfl⟩

/-- C3 at a record with the matches `1/2/3`, an unparseable one, and `4/0/6`: the mean
of the kills is `5/2` and `average_kills` is `2.5`. -/
theorem C3_averages_up_to_rounding_witness :
    mean ExactKda.kills (exactKdas
        [sampleMatch "Ahri" "1/2/3" "Victory", sampleMatch "Zed" "n/a" "Defeat",
         sampleMatch "Ahri" "4/0/6" "Victory"]) = 5 / 2 ∧
      (derivedStats (sampleLoaded "A" "50%"
        [sampleMatch "Ahri" "1/2/3" "Victory", sampleMatch "Zed" "n/a" "Defeat",
         sampleMatch "Ahri" "4/0/6" "Victory"])).average_kills = toDouble (250 / 100) := by
  have hk : exactKdas
      [sampleMatch "Ahri" "1/2/3" "Victory", sampleMatch "Zed" "n/a" "Defeat",
       sampleMatch "Ahri" "4/0/6" "Victory"] = [⟨1, 2, 3⟩, ⟨4, 0, 6⟩] := by decide
  have hmean : mean ExactKda.kills (exactKdas
      [sampleMatch "Ahri" "1/2/3" "Victory", sampleMatch "Zed" "n/a" "Defeat",
       sampleMatch "Ahri" "4/0/6" "Victory"]) = 5 / 2 := by
    rw [hk]
    norm_num [mean, total]
  have h := C3_averages_up_to_rounding (sampleLoaded "A" "50%"
      [sampleMatch "Ahri" "1/2/3" "Victory", sampleMatch "Zed" "n/a" "Defeat",
       sampleMatch "Ahri" "4/0/6" "Victory"]) rfl
      ⟨sampleMatch "Ahri" "1/2/3" "Victory", by simp [sampleLoaded], by decide⟩
      (by simp [sampleLoaded])
      (by show total ExactKda.kills (exactKdas
            [sampleMatch "Ahri" "1/2/3" "Victory", sampleMatch "Zed" "n/a" "Defeat",
             sampleMatch "Ahri" "4/0/6" "Victory"]) ≤ 2 ^ 53
          rw [hk]
          norm_num [total])
      (by show total ExactKda.deaths (exactKdas
            [sampleMatch "Ahri" "1/2/3" "Victory", sampleMatch "Zed" "n/a" "Defeat",
             sampleMatch "Ahri" "4/0/6" "Victory"]) ≤ 2 ^ 53
          rw [hk]
          norm_num [total])
      (by show total ExactKda.assists (exactKdas
            [sampleMatch "Ahri" "1/2/3" "Victory", sampleMatch "Zed" "n/a" "Defeat",
             sampleMatch "Ahri" "4/0/6" "Victory"]) ≤ 2 ^ 53
          rw [hk]
          norm_num [total])
  refine ⟨hmean, ?_⟩
  have hround := h.2.1.1
  have hmean2 : mean ExactKda.kills (exactKdas (sampleLoaded "A" "50%"
      [sampleMatch "Ahri" "1/2/3" "Victory", sampleMatch "Zed" "n/a" "Defeat",
       sampleMatch "Ahri" "4/0/6" "Victory"]).recentMatches) = 5 / 2 := hmean
  rw [hmean2] at hround
  rw [hround.eq_of_close 250 (by norm_num) (by norm_num)]
  norm_num

/-- C3 fails as stated: `sampleFortyGames` has no error and forty matches, all parsed,
with 23 kills in all; the mean of the kills is `0.575`, which rounds to `0.58`, and
its `average_kills` is `0.57`: the binary64 value nearest to `0.575` is below it,
and so is its product with `100` below `57.5`. -/
theorem C3_counterexample :
    hasError sampleFortyGames = false ∧
      (∃ m ∈ sampleFortyGames.recentMatches, (parseKda m).isSome = true) ∧
      (exactKdas sampleFortyGames.recentMatches).length = 40 ∧
      mean ExactKda.kills (exactKdas sampleFortyGames.recentMatches) = 23 / 40 ∧
      (derivedStats sampleFortyGames).average_kills = toDouble (57 / 100) ∧
      toDouble (57 / 100) ≠ toDouble (58 / 100) ∧
      ¬ RoundsTo2 (mean ExactKda.kills (exactKdas sampleFortyGames.recentMatches))
        (derivedStats sampleFortyGames).average_kills := by
  have h1 : exactKda (sampleMatch "Ahri" "1/1/1" "Defeat") = some ⟨1, 1, 1⟩ := by decide
  have h0 : exactKda (sampleMatch "Ahri" "0/1/1" "Defeat") = some ⟨0, 1, 1⟩ := by decide
  have hk : exactKdas sampleFortyGames.recentMatches =
      List.replicate 23 ⟨1, 1, 1⟩ ++ List.replicate 17 ⟨0, 1, 1⟩ := by
    show exactKdas (List.replicate 23 (sampleMatch "Ahri" "1/1/1" "Defeat") ++
      List.replicate 17 (sampleMatch "Ahri" "0/1/1" "Defeat")) = _
    rw [exactKdas_append, exactKdas_replicate _ _ _ h1, exactKdas_replicate _ _ _ h0]
  have hsome : ∃ m ∈ sampleFortyGames.recentMatches, (parseKda m).isSome = true :=
    ⟨sampleMatch "Ahri" "1/1/1" "Defeat", by simp [sampleFortyGames, sampleLoaded], by decide⟩
  obtain ⟨m, hm, hm2⟩ := hsome
  have hne := parsedKdas_ne_nil sampleFortyGames.recentMatches m hm hm2
  have hlen : (exactKdas sampleFortyGames.recentMatches).length = 40 := by
    rw [hk]
    simp
  have htotal : total ExactKda.kills (exactKdas sampleFortyGames.recentMatches) = 23 := by
    rw [hk, total_append, total_replicate, total_replicate]
    rfl
  have hmean : mean ExactKda.kills (exactKdas sampleFortyGames.recentMatches) = 23 / 40 := by
    unfold mean
    rw [htotal, hlen]
    norm_num
  have hrate : (derivedStats sampleFortyGames).average_kills = toDouble (57 / 100) := by
    unfold derivedStats
    rw [memeStatsOf_parsed _ _ hne]
    show round2 (avgOf Kda.kills (parsedKdas sampleFortyGames.recentMatches)) = _
    rw [parsedKdas_eq_map, avgOf_exact ExactKda.kills Kda.kills (fun _ => rfl) _
      (exactKdas_ne_nil _ hne) (by rw [htotal]; norm_num), hmean, toDouble_23_40, round2_23_40]
  have hdiff : toDouble (57 / 100) ≠ toDouble (58 / 100) := by
    rw [toDouble_57, toDouble_58]
    intro h
    injection h with h2
    norm_num at h2
  refine ⟨rfl, ⟨m, hm, hm2⟩, hlen, hmean, hrate, hdiff, ?_⟩
  rw [hmean, hrate]
  intro hround
  have h := hround.eq_of_half 57 (by norm_num)
  exact hdiff (by simpa using h)

/-! ## C4, C5, C6: the derived winrate -/

theorem isSome_parseKda_of_mem_parsed (recentMatches : List MatchRecord)
    (h : ∃ m ∈ recentMatches, (parseKda m).isSome = true) : parsedKdas recentMatches ≠ [] := by
  obtain ⟨m, hm, hsome⟩ := h
  exact parsedKdas_ne_nil recentMatches m hm hsome

theorem parsedKdas_eq_nil (recentMatches : List MatchRecord)
    (h : ∀ m ∈ recentMatches, parseKda m = none) : parsedKdas recentMatches = [] := by
  unfold parsedKdas
  exact List.filterMap_eq_nil_iff.2 h

theorem winCount_eq_zero (recentMatches : List MatchRecord)
    (h : ∀ m ∈ recentMatches, isWin m = false) : winCount recentMatches = 0 := by
  unfold winCount
  rw [List.length_eq_zero, List.filter_eq_nil_iff]
  intro m hm
  simp [h m hm]

theorem winCount_le_length (recentMatches : List MatchRecord) :
    winCount recentMatches ≤ recentMatches.length :=
  List.length_filter_le _ _

/-- The winrate field when at least one KDA string parses. -/
theorem winrate_parsed (player : PlayerRecord) (hne : parsedKdas player.recentMatches ≠ []) :
    (derivedStats player).winrate =
      round2 (((JSNumber.ofLength (winCount player.recentMatches)).div
        (JSNumber.ofLength player.recentMatches.length)).mul (JSNumber.finite 100)) := by
  unfold derivedStats
  rw [memeStatsOf_parsed _ _ hne]

theorem length_pos_of_parsed (recentMatches : List MatchRecord)
    (hne : parsedKdas recentMatches ≠ []) : 0 < recentMatches.length := by
  apply List.length_pos.2
  intro h0
  rw [h0] at hne
  exact hne rfl

/-- The winrate of a record with parsed matches and no win is `0`, without rounding. -/
theorem winrate_zero (n : ℕ) (hn : 0 < n) :
    round2 (((JSNumber.ofLength 0).div (JSNumber.ofLength n)).mul (JSNumber.finite 100)) =
      JSNumber.finite 0 := by
  have hnq : (n : ℚ) ≠ 0 := by exact_mod_cast (ne_of_gt hn)
  have hdiv : (JSNumber.ofLength 0).div (JSNumber.ofLength n) = JSNumber.finite 0 := by
    simp only [JSNumber.ofLength, JSNumber.div]
    rw [if_neg hnq]
    simpa using toDouble_zero
  have hmul : (JSNumber.finite 0).mul (JSNumber.finite 100) = JSNumber.finite 0 := by
    show toDouble (0 * 100) = _
    simpa using toDouble_zero
  have hfloor : ⌊(0 : ℚ) + 1 / 2⌋ = 0 := by
    rw [Int.floor_eq_iff]
    norm_num
  have hround : Math.round (JSNumber.finite 0) = JSNumber.finite 0 := by
    show JSNumber.finite ((⌊(0 : ℚ) + 1 / 2⌋ : ℤ) : ℚ) = _
    rw [hfloor]
    norm_num
  have hdiv2 : (JSNumber.finite 0).div (JSNumber.finite 100) = JSNumber.finite 0 := by
    simp only [JSNumber.div]
    rw [if_neg (by norm_num)]
    simpa using toDouble_zero
  unfold round2
  rw [hdiv, hmul, hmul, hround, hdiv2]

/-- C4, as the code has it: for every player record without error with a
win-indicating match, a match whose KDA string parses, and fewer than `2^32`
matches, the derived winrate is the binary64 value nearest to `N / 100` for an
integer `N` that rounds a number within the relative error `2^-51` of `100` times
`wins / n * 100`, where `n` is the number of matches, parsed or not; it is
`wins / n * 100` rounded to two decimals whenever `100` times that number is
farther than the error from every half-integer. -/
theorem C4_winrate_over_all_matches (player : PlayerRecord) (herr : hasError player = false)
    (_hwin : ∃ m ∈ player.recentMatches, isWin m = true)
    (hparse : ∃ m ∈ player.recentMatches, (parseKda m).isSome = true)
    (hlen : player.recentMatches.length < 2 ^ 32) :
    (∀ stats : Stats, (processPlayer stats player).memeStats =
        stats.memeStats.set player.summonerName (derivedStats player)) ∧
      RoundsTo2UpTo
        (100 * ((winCount player.recentMatches : ℚ) / (player.recentMatches.length : ℚ) * 100)
          / 2 ^ 51)
        ((winCount player.recentMatches : ℚ) / (player.recentMatches.length : ℚ) * 100)
        (derivedStats player).winrate ∧
      (AwayFromTies
          (100 * ((winCount player.recentMatches : ℚ) / (player.recentMatches.length : ℚ) * 100)
            / 2 ^ 51)
          ((winCount player.recentMatches : ℚ) / (player.recentMatches.length : ℚ) * 100) →
        RoundsTo2
          ((winCount player.recentMatches : ℚ) / (player.recentMatches.length : ℚ) * 100)
          (derivedStats player).winrate) := by
  have hne := isSome_parseKda_of_mem_parsed player.recentMatches hparse
  have hround := winrate_rounds (winCount player.recentMatches) player.recentMatches.length
    (length_pos_of_parsed _ hne) (winCount_le_length _) hlen
  rw [← winrate_parsed player hne] at hround
  exact ⟨fun stats => processPlayer_memeStats stats player herr, hround,
    fun h => hround.exact h⟩

/-- C4 at `sampleMixed`: one win in two matches, one of which parses, and a winrate
of `50`. -/
theorem C4_winrate_over_all_matches_witness :
    winCount sampleMixed.recentMatches = 1 ∧ sampleMixed.recentMatches.length = 2 ∧
      (derivedStats sampleMixed).winrate = toDouble (5000 / 100) := by
  have w1 : isWin (sampleMatch "Ahri" "1/2/3" "Victory") = true := by decide
  have w2 : isWin (sampleMatch "Zed" "n/a" "Defeat") = false := by decide
  have hwins : winCount sampleMixed.recentMatches = 1 := by
    simp [winCount, sampleMixed, sampleLoaded, w1, w2]
  have h := (C4_winrate_over_all_matches sampleMixed rfl
    ⟨sampleMatch "Ahri" "1/2/3" "Victory", by simp [sampleMixed, sampleLoaded], by decide⟩
    ⟨sampleMatch "Ahri" "1/2/3" "Victory", by simp [sampleMixed, sampleLoaded], by decide⟩
    (by simp [sampleMixed, sampleLoaded])).2.1
  have hlen : sampleMixed.recentMatches.length = 2 := rfl
  rw [hwins, hlen] at h
  refine ⟨hwins, hlen, ?_⟩
  rw [h.eq_of_close 5000 (by norm_num) (by norm_num)]
  norm_num

/-- C4 fails as stated: `sampleMixed` has no error and one win-indicating match; one
of its two matches parses; its derived winrate is `50`, which is not
`wins / parsed-match-count × 100 = 100` rounded to two decimals. -/
theorem C4_counterexample :
    hasError sampleMixed = false ∧
      (∃ m ∈ sampleMixed.recentMatches, isWin m = true) ∧
      winCount sampleMixed.recentMatches = 1 ∧
      (parsedKdas sampleMixed.recentMatches).length = 1 ∧
      (derivedStats sampleMixed).winrate = JSNumber.finite 50 ∧
      ¬ RoundsTo2
        ((winCount sampleMixed.recentMatches : ℚ) /
          ((parsedKdas sampleMixed.recentMatches).length : ℚ) * 100)
        (derivedStats sampleMixed).winrate := by
  have h2 : parseKda (sampleMatch "Zed" "n/a" "Defeat") = none := by decide
  have w1 : isWin (sampleMatch "Ahri" "1/2/3" "Victory") = true := by decide
  have w2 : isWin (sampleMatch "Zed" "n/a" "Defeat") = false := by decide
  have hwins : winCount sampleMixed.recentMatches = 1 := by
    simp [winCount, sampleMixed, sampleLoaded, w1, w2]
  have hex : exactKdas sampleMixed.recentMatches = [⟨1, 2, 3⟩] := by decide
  have hparsed : (parsedKdas sampleMixed.recentMatches).length = 1 := by
    rw [parsedKdas_length, hex]
    rfl
  have hne : parsedKdas sampleMixed.recentMatches ≠ [] := by
    intro h
    rw [h] at hparsed
    exact absurd hparsed (by decide)
  have hlen : sampleMixed.recentMatches.length = 2 := rfl
  have hround := winrate_rounds (winCount sampleMixed.recentMatches)
    sampleMixed.recentMatches.length (length_pos_of_parsed _ hne) (winCount_le_length _)
    (by rw [hlen]; norm_num)
  rw [← winrate_parsed sampleMixed hne, hwins, hlen] at hround
  have hrate : (derivedStats sampleMixed).winrate = JSNumber.finite 50 := by
    rw [hround.eq_of_close 5000 (by norm_num) (by norm_num)]
    have hcast : (((5000 : ℤ) : ℚ)) / 100 = ((50 : ℕ) : ℚ) := by norm_num
    rw [hcast, toDouble_natCast 50 (by norm_num)]
    norm_num
  refine ⟨rfl, ⟨sampleMatch "Ahri" "1/2/3" "Victory", by simp [sampleMixed, sampleLoaded], w1⟩,
    hwins, hparsed, hrate, ?_⟩
  rw [hwins, hparsed, hrate]
  intro hbad
  have h := hbad.eq_of_eq 10000 (by norm_num)
  have hcast : (((10000 : ℤ) : ℚ)) / 100 = ((100 : ℕ) : ℚ) := by norm_num
  rw [hcast, toDouble_natCast 100 (by norm_num)] at h
  injection h with h3
  norm_num at h3

/-- C5, as the code has it: for every player record without error in which no match
is win-indicating, the derived winrate is the number extracted from the textual
winrate field when no KDA string parses (in particular when there is no match), and
`0` when some KDA string parses. -/
theorem C5_winrate_without_wins (player : PlayerRecord) (herr : hasError player = false)
    (hnowin : ∀ m ∈ player.recentMatches, isWin m = false) :
    (∀ stats : Stats, (processPlayer stats player).memeStats =
        stats.memeStats.set player.summonerName (derivedStats player)) ∧
      ((∀ m ∈ player.recentMatches, parseKda m = none) →
        (derivedStats player).winrate = winrateNum player.winrate) ∧
      ((∃ m ∈ player.recentMatches, (parseKda m).isSome = true) →
        (derivedStats player).winrate = JSNumber.finite 0) := by
  refine ⟨fun stats => processPlayer_memeStats stats player herr, ?_, ?_⟩
  · intro hnone
    unfold derivedStats
    rw [memeStatsOf_unparsed _ _ (parsedKdas_eq_nil _ hnone)]
  · intro hparse
    have hne := isSome_parseKda_of_mem_parsed player.recentMatches hparse
    rw [winrate_parsed player hne, winCount_eq_zero _ hnowin]
    exact winrate_zero _ (length_pos_of_parsed _ hne)

/-- C5 at `sampleDefeat`: its only match parses and is lost, the winrate is `0`. -/
theorem C5_winrate_without_wins_witness :
    (∀ m ∈ sampleDefeat.recentMatches, isWin m = false) ∧
      (derivedStats sampleDefeat).winrate = JSNumber.finite 0 :=
  have hnowin : ∀ m ∈ sampleDefeat.recentMatches, isWin m = false := by
    intro m hm
    simp only [sampleDefeat, sampleLoaded, List.mem_singleton] at hm
    rw [hm]
    decide
  ⟨hnowin, (C5_winrate_without_wins sampleDefeat rfl hnowin).2.2
    ⟨sampleMatch "Ahri" "1/2/3" "Defeat", by simp [sampleDefeat, sampleLoaded], by decide⟩⟩

theorem winrateNum_of_exec (winrate : String) (n : ℕ)
    (h : (exec winrateRegex winrate.toList).map (fun m => mathInt (m.group 1)) = some n) :
    winrateNum winrate = toDouble ((n : ℕ) : ℚ) := by
  unfold winrateNum
  cases hexec : exec winrateRegex winrate.toList with
  | none =>
    rw [hexec] at h
    exact absurd h (by simp)
  | some m =>
    rw [hexec] at h
    simp only [Option.map_some', Option.some.injEq] at h
    simp only [parseInt, h]

/-- C5 fails as stated: `sampleDefeat` has no error and no win-indicating match, the
number extracted from its textual winrate `55%` is `55`, and its derived winrate
is `0`. -/
theorem C5_counterexample :
    hasError sampleDefeat = false ∧
      (∀ m ∈ sampleDefeat.recentMatches, isWin m = false) ∧
      winrateNum sampleDefeat.winrate = JSNumber.finite 55 ∧
      (derivedStats sampleDefeat).winrate = JSNumber.finite 0 ∧
      (derivedStats sampleDefeat).winrate ≠ winrateNum sampleDefeat.winrate := by
  have hnowin : ∀ m ∈ sampleDefeat.recentMatches, isWin m = false := by
    intro m hm
    simp only [sampleDefeat, sampleLoaded, List.mem_singleton] at hm
    rw [hm]
    decide
  have hsome : (parseKda (sampleMatch "Ahri" "1/2/3" "Defeat")).isSome = true := by decide
  have hne : parsedKdas sampleDefeat.recentMatches ≠ [] :=
    parsedKdas_ne_nil _ (sampleMatch "Ahri" "1/2/3" "Defeat")
      (by simp [sampleDefeat, sampleLoaded]) hsome
  have hnum : winrateNum sampleDefeat.winrate = JSNumber.finite 55 := by
    rw [winrateNum_of_exec sampleDefeat.winrate 55 (by decide),
      toDouble_natCast 55 (by norm_num)]
    norm_num
  have hrate : (derivedStats sampleDefeat).winrate = JSNumber.finite 0 := by
    rw [winrate_parsed sampleDefeat hne, winCount_eq_zero _ hnowin]
    exact winrate_zero _ (length_pos_of_parsed _ hne)
  refine ⟨rfl, hnowin, hnum, hrate, ?_⟩
  rw [hrate, hnum]
  intro h
  injection h with h2
  norm_num at h2

theorem isWin_of_result (m : MatchRecord) (r : String) (h : m.result = r)
    (hr : (includes (toLowerCase r) "victory".toList ||
      includes (toLowerCase r) "win".toList) = true) : isWin m = true := by
  unfold isWin
  rw [h]
  exact hr

theorem not_isWin_of_result (m : MatchRecord) (r : String) (h : m.result = r)
    (hr : (includes (toLowerCase r) "victory".toList ||
      includes (toLowerCase r) "win".toList) = false) : isWin m = false := by
  unfold isWin
  rw [h]
  exact hr

theorem parsedKdas_length_of_all (recentMatches : List MatchRecord)
    (h : ∀ m ∈ recentMatches, (parseKda m).isSome = true) :
    (parsedKdas recentMatches).length = recentMatches.length := by
  induction recentMatches with
  | nil => rfl
  | cons m ms ih =>
    obtain ⟨k, hk⟩ := Option.isSome_iff_exists.1 (h m (List.mem_cons_self _ _))
    have ih2 := ih fun x hx => h x (List.mem_cons_of_mem _ hx)
    unfold parsedKdas at ih2 ⊢
    rw [List.filterMap_cons_some hk, List.length_cons, List.length_cons, ih2]

/-- C6, as binary64 arithmetic has it: for every player record without error whose
`n < 2^32` matches all have parseable KDA strings and of which `w ≥ 1` are
win-indicating, the derived winrate is the binary64 value nearest to `N / 100` for
an integer `N` that rounds a number within the relative error `2^-51` of `100` times
`100 * w / n`; it is `100 * w / n` rounded to two decimals whenever `100` times that
number is farther than the error from every half-integer; it is the same whatever
the textual winrate field holds; for the results Victory, Defeat, Victory it is the
binary64 value nearest to `66.67`. -/
theorem C6_winrate_from_results (player : PlayerRecord) (herr : hasError player = false)
    (hall : ∀ m ∈ player.recentMatches, (parseKda m).isSome = true)
    (hwin : 1 ≤ winCount player.recentMatches)
    (hlen : player.recentMatches.length < 2 ^ 32) :
    (∀ stats : Stats, (processPlayer stats player).memeStats =
        stats.memeStats.set player.summonerName (derivedStats player)) ∧
      (parsedKdas player.recentMatches).length = player.recentMatches.length ∧
      RoundsTo2UpTo
        (100 * (100 * (winCount player.recentMatches : ℚ) / (player.recentMatches.length : ℚ))
          / 2 ^ 51)
        (100 * (winCount player.recentMatches : ℚ) / (player.recentMatches.length : ℚ))
        (derivedStats player).winrate ∧
      (AwayFromTies
          (100 * (100 * (winCount player.recentMatches : ℚ) /
            (player.recentMatches.length : ℚ)) / 2 ^ 51)
          (100 * (winCount player.recentMatches : ℚ) / (player.recentMatches.length : ℚ)) →
        RoundsTo2
          (100 * (winCount player.recentMatches : ℚ) / (player.recentMatches.length : ℚ))
          (derivedStats player).winrate) ∧
      (∀ text : String,
        (derivedStats { player with winrate := text }).winrate = (derivedStats player).winrate) ∧
      (∀ m1 m2 m3 : MatchRecord, player.recentMatches = [m1, m2, m3] →
        m1.result = "Victory" → m2.result = "Defeat" → m3.result = "Victory" →
        (derivedStats player).winrate = toDouble (6667 / 100)) := by
  have hmatches : player.recentMatches ≠ [] := by
    intro h0
    rw [h0] at hwin
    exact absurd hwin (by decide)
  obtain ⟨m, hm⟩ := List.exists_mem_of_ne_nil _ hmatches
  have hne := parsedKdas_ne_nil player.recentMatches m hm (hall m hm)
  have hround0 := winrate_rounds (winCount player.recentMatches) player.recentMatches.length
    (length_pos_of_parsed _ hne) (winCount_le_length _) hlen
  rw [← winrate_parsed player hne] at hround0
  have hexpr : (winCount player.recentMatches : ℚ) / (player.recentMatches.length : ℚ) * 100 =
      100 * (winCount player.recentMatches : ℚ) / (player.recentMatches.length : ℚ) := by
    ring
  rw [hexpr] at hround0
  refine ⟨fun stats => processPlayer_memeStats stats player herr,
    parsedKdas_length_of_all _ hall, hround0, fun h => hround0.exact h, ?_, ?_⟩
  · intro text
    rw [winrate_parsed player hne]
    exact winrate_parsed { player with winrate := text } hne
  · intro m1 m2 m3 hlist h1 h2 h3
    have w1 : isWin m1 = true := isWin_of_result m1 "Victory" h1 (by decide)
    have w2 : isWin m2 = false := not_isWin_of_result m2 "Defeat" h2 (by decide)
    have w3 : isWin m3 = true := isWin_of_result m3 "Victory" h3 (by decide)
    have hcount : winCount player.recentMatches = 2 := by
      rw [hlist]
      simp [winCount, w1, w2, w3]
    have hlen3 : player.recentMatches.length = 3 := by
      rw [hlist]
      rfl
    rw [hcount, hlen3] at hround0
    rw [hround0.eq_of_close 6667 (by norm_num) (by norm_num)]
    norm_num

/-- C6 at `sampleTwoOfThree`: Victory, Defeat, Victory with a textual winrate of 12%. -/
theorem C6_winrate_from_results_witness :
    sampleTwoOfThree.winrate = "12%" ∧
      (derivedStats sampleTwoOfThree).winrate = toDouble (6667 / 100) :=
  ⟨rfl,
    (C6_winrate_from_results sampleTwoOfThree rfl
      (by
        intro m hm
        simp only [sampleTwoOfThree, sampleLoaded, List.mem_cons, List.mem_singleton,
          List.not_mem_nil, or_false] at hm
        rcases hm with rfl | rfl | rfl <;> decide)
      (by
        have w1 : isWin (sampleMatch "Ahri" "1/2/3" "Victory") = true := by decide
        have w2 : isWin (sampleMatch "Unknown" "0/5/1" "Defeat") = false := by decide
        have w3 : isWin (sampleMatch "Ahri" "4/0/6" "Victory") = true := by decide
        simp [winCount, sampleTwoOfThree, sampleLoaded, w1, w2, w3])
      (by simp [sampleTwoOfThree, sampleLoaded])).2.2.2.2.2
      (sampleMatch "Ahri" "1/2/3" "Victory") (sampleMatch "Unknown" "0/5/1" "Defeat")
      (sampleMatch "Ahri" "4/0/6" "Victory") rfl rfl rfl rfl⟩

/-- C6 fails as stated: `sampleManyGames` has no error and 160 matches, all parsed, of
which 23 are win-indicating; `100 * 23 / 160` is `14.375`, which rounds to `14.38`,
and its derived winrate is `14.37`: the binary64 value nearest to `23/160` is below
it, and the two products with `100` stay below `1437.5`. -/
theorem C6_counterexample :
    hasError sampleManyGames = false ∧
      (∀ m ∈ sampleManyGames.recentMatches, (parseKda m).isSome = true) ∧
      sampleManyGames.recentMatches.length = 160 ∧
      winCount sampleManyGames.recentMatches = 23 ∧
      (derivedStats sampleManyGames).winrate = toDouble (1437 / 100) ∧
      toDouble (1437 / 100) ≠ toDouble (1438 / 100) ∧
      ¬ RoundsTo2
        (100 * (winCount sampleManyGames.recentMatches : ℚ) /
          (sampleManyGames.recentMatches.length : ℚ))
        (derivedStats sampleManyGames).winrate := by
  have hall : ∀ m ∈ sampleManyGames.recentMatches, (parseKda m).isSome = true := by
    intro m hm
    simp only [sampleManyGames, sampleLoaded, List.mem_append, List.mem_replicate] at hm
    rcases hm with ⟨_, rfl⟩ | ⟨_, rfl⟩ <;> decide
  have hlen : sampleManyGames.recentMatches.length = 160 := by
    simp [sampleManyGames, sampleLoaded]
  have w1 : isWin (sampleMatch "Ahri" "1/1/1" "Victory") = true := by decide
  have w2 : isWin (sampleMatch "Ahri" "1/1/1" "Defeat") = false := by decide
  have hwins : winCount sampleManyGames.recentMatches = 23 := by
    show winCount (List.replicate 23 (sampleMatch "Ahri" "1/1/1" "Victory") ++
      List.replicate 137 (sampleMatch "Ahri" "1/1/1" "Defeat")) = 23
    rw [winCount_append, winCount_replicate, winCount_replicate, if_pos w1,
      if_neg (by rw [w2]; decide)]
  have hne : parsedKdas sampleManyGames.recentMatches ≠ [] :=
    parsedKdas_ne_nil _ (sampleMatch "Ahri" "1/1/1" "Victory")
      (by simp [sampleManyGames, sampleLoaded]) (by decide)
  have hdiv : (JSNumber.ofLength 23).div (JSNumber.ofLength 160) =
      JSNumber.finite (5179139571476070 / 2 ^ 55) := by
    simp only [JSNumber.ofLength, JSNumber.div]
    rw [if_neg (by norm_num)]
    rw [toDouble_at (((23 : ℕ) : ℚ) / ((160 : ℕ) : ℚ)) (1 / 2 ^ 55) (-3) 5179139571476070
      (by norm_num) (by norm_num) (by norm_num) (by norm_num) (by norm_num)
      (roundHalfEven_eq_of_abs_lt _ _ (by norm_num [abs_lt])) (by norm_num) (by norm_num)]
    norm_num
  have hmul : (JSNumber.finite (5179139571476070 / 2 ^ 55)).mul (JSNumber.finite 100) =
      JSNumber.finite (8092405580431359 / 2 ^ 49) := by
    show toDouble (5179139571476070 / 2 ^ 55 * 100) = _
    rw [toDouble_at (5179139571476070 / 2 ^ 55 * 100) (1 / 2 ^ 49) 3 8092405580431359
      (by norm_num) (by norm_num) (by norm_num) (by norm_num) (by norm_num)
      (roundHalfEven_eq_of_abs_lt _ _ (by norm_num [abs_lt])) (by norm_num) (by norm_num)]
    norm_num
  have hmul2 : (JSNumber.finite (8092405580431359 / 2 ^ 49)).mul (JSNumber.finite 100) =
      JSNumber.finite (6322191859711999 / 2 ^ 42) := by
    show toDouble (8092405580431359 / 2 ^ 49 * 100) = _
    rw [toDouble_at (8092405580431359 / 2 ^ 49 * 100) (1 / 2 ^ 42) 10 6322191859711999
      (by norm_num) (by norm_num) (by norm_num) (by norm_num) (by norm_num)
      (roundHalfEven_eq_of_abs_lt _ _ (by norm_num [abs_lt])) (by norm_num) (by norm_num)]
    norm_num
  have hrate : (derivedStats sampleManyGames).winrate = toDouble (1437 / 100) := by
    rw [winrate_parsed sampleManyGames hne, hwins, hlen, hdiv, hmul]
    unfold round2
    rw [hmul2]
    have hfloor : ⌊(6322191859711999 / 2 ^ 42 : ℚ) + 1 / 2⌋ = 1437 := by
      rw [Int.floor_eq_iff]
      norm_num
    simp only [Math.round, JSNumber.div, hfloor]
    rw [if_neg (by norm_num)]
    norm_num
  have hdiff : toDouble (1437 / 100) ≠ toDouble (1438 / 100) := by
    rw [toDouble_1437, toDouble_1438]
    intro h
    injection h with h2
    norm_num at h2
  refine ⟨rfl, hall, hlen, hwins, hrate, hdiff, ?_⟩
  rw [hwins, hlen, hrate]
  intro hround
  have h := hround.eq_of_half 1437 (by norm_num)
  exact hdiff (by simpa using h)

/-! ## C7: champion variety -/

theorem foldl_seen (xs seen : List String) (hseen : seen.Nodup) :
    (xs.foldl (fun seen x => if x ∈ seen then seen else seen ++ [x]) seen).Nodup ∧
      ∀ a, a ∈ xs.foldl (fun seen x => if x ∈ seen then seen else seen ++ [x]) seen ↔
        a ∈ seen ∨ a ∈ xs := by
  induction xs generalizing seen with
  | nil => simp [hseen]
  | cons x xs ih =>
    simp only [List.foldl_cons]
    by_cases hx : x ∈ seen
    · rw [if_pos hx]
      obtain ⟨h1, h2⟩ := ih seen hseen
      refine ⟨h1, fun a => ?_⟩
      rw [h2 a, List.mem_cons]
      constructor
      · rintro (h | h)
        · exact Or.inl h
        · exact Or.inr (Or.inr h)
      · rintro (h | h | h)
        · exact Or.inl h
        · exact Or.inl (h ▸ hx)
        · exact Or.inr h
    · rw [if_neg hx]
      have hnodup : (seen ++ [x]).Nodup := by
        rw [List.nodup_append]
        refine ⟨hseen, List.nodup_singleton x, ?_⟩
        intro a ha hb
        rw [List.mem_singleton] at hb
        exact hx (hb ▸ ha)
      obtain ⟨h1, h2⟩ := ih (seen ++ [x]) hnodup
      refine ⟨h1, fun a => ?_⟩
      rw [h2 a, List.mem_append, List.mem_singleton, List.mem_cons]
      tauto

theorem setSize_eq_card (xs : List String) : setSize xs = xs.toFinset.card := by
  obtain ⟨h1, h2⟩ := foldl_seen xs [] List.nodup_nil
  unfold setSize
  rw [← List.toFinset_card_of_nodup h1]
  congr 1
  ext a
  simp [h2 a]

theorem setSize_champions (recentMatches : List MatchRecord) :
    setSize ((recentMatches.map (·.champion)).filter (· ≠ "Unknown")) =
      distinctChampions recentMatches := by
  rw [setSize_eq_card]
  unfold distinctChampions
  congr 1
  ext a
  simp only [List.mem_toFinset, List.mem_filter, List.mem_map, Finset.mem_erase,
    decide_eq_true_eq]
  tauto

/-- C7, as the code has it: for every player record without error that has a match
whose KDA string parses, `champion_variety` is the number of distinct champion
names among its matches other than `Unknown`, so it is `1` for the champions Ahri,
Unknown, Ahri; when no KDA string parses it is `0`. -/
theorem C7_champion_variety (player : PlayerRecord) (herr : hasError player = false) :
    (∀ stats : Stats, (processPlayer stats player).memeStats =
        stats.memeStats.set player.summonerName (derivedStats player)) ∧
      ((∃ m ∈ player.recentMatches, (parseKda m).isSome = true) →
        (derivedStats player).champion_variety = distinctChampions player.recentMatches ∧
        (∀ m1 m2 m3 : MatchRecord, player.recentMatches = [m1, m2, m3] →
          m1.champion = "Ahri" → m2.champion = "Unknown" → m3.champion = "Ahri" →
          (derivedStats player).champion_variety = 1)) ∧
      ((∀ m ∈ player.recentMatches, parseKda m = none) →
        (derivedStats player).champion_variety = 0) := by
  refine ⟨fun stats => processPlayer_memeStats stats player herr, ?_, ?_⟩
  · intro hparse
    have hne := isSome_parseKda_of_mem_parsed player.recentMatches hparse
    have hvariety :
        (derivedStats player).champion_variety = distinctChampions player.recentMatches := by
      unfold derivedStats
      rw [memeStatsOf_parsed _ _ hne]
      exact setSize_champions _
    refine ⟨hvariety, ?_⟩
    intro m1 m2 m3 hlist h1 h2 h3
    rw [hvariety, hlist]
    simp only [distinctChampions, List.map_cons, List.map_nil, h1, h2, h3]
    decide
  · intro hnone
    unfold derivedStats
    rw [memeStatsOf_unparsed _ _ (parsedKdas_eq_nil _ hnone)]

/-- C7 at `sampleTwoOfThree`, whose champions are Ahri, Unknown, Ahri. -/
theorem C7_champion_variety_witness :
    (derivedStats sampleTwoOfThree).champion_variety = 1 :=
  ((C7_champion_variety sampleTwoOfThree rfl).2.1
      ⟨sampleMatch "Ahri" "1/2/3" "Victory", by simp [sampleTwoOfThree, sampleLoaded],
        by decide⟩).2
    (sampleMatch "Ahri" "1/2/3" "Victory") (sampleMatch "Unknown" "0/5/1" "Defeat")
    (sampleMatch "Ahri" "4/0/6" "Victory") rfl rfl rfl rfl

/-- C7 fails as stated: `sampleNoKda` has no error and three matches, with the
champions Ahri, Unknown, Ahri; one distinct champion is not `Unknown`, and its
`champion_variety` is `0`. -/
theorem C7_counterexample :
    hasError sampleNoKda = false ∧
      sampleNoKda.recentMatches.length = 3 ∧
      sampleNoKda.recentMatches.map (fun m => m.champion) = ["Ahri", "Unknown", "Ahri"] ∧
      distinctChampions sampleNoKda.recentMatches = 1 ∧
      (derivedStats sampleNoKda).champion_variety = 0 := by
  have hnone : ∀ m ∈ sampleNoKda.recentMatches, parseKda m = none := by
    intro m hm
    simp only [sampleNoKda, sampleLoaded, List.mem_cons, List.mem_singleton,
      List.not_mem_nil, or_false] at hm
    rcases hm with rfl | rfl | rfl <;> decide
  refine ⟨rfl, rfl, rfl, by decide, ?_⟩
  unfold derivedStats
  rw [memeStatsOf_unparsed _ _ (parsedKdas_eq_nil _ hnone)]

/-! ## Lookups after assignments -/

theorem JSObject.get_cons {α : Type} (k0 : String) (v0 : α) (tl : JSObject α) (x : String) :
    JSObject.get ((k0, v0) :: tl) x = if x = k0 then some v0 else JSObject.get tl x := by
  unfold JSObject.get
  by_cases h : x = k0
  · subst h
    simp [List.lookup]
  · have hx : (x == k0) = false := by
      rw [beq_eq_false_iff_ne]
      exact h
    simp [List.lookup, hx, h]

theorem JSObject.get_put {α : Type} (o : JSObject α) (k : String) (v : α) (x : String) :
    (JSObject.put o k v).get x = if x = k then some v else JSObject.get o x := by
  induction o with
  | nil =>
    unfold JSObject.put
    rw [JSObject.get_cons]
  | cons hd tl ih =>
    obtain ⟨k0, v0⟩ := hd
    unfold JSObject.put
    by_cases h0 : k0 = k
    · subst h0
      rw [if_pos rfl, JSObject.get_cons, JSObject.get_cons]
      by_cases h : x = k0
      · rw [if_pos h, if_pos h]
      · rw [if_neg h, if_neg h, if_neg h]
    · rw [if_neg h0, JSObject.get_cons, JSObject.get_cons, ih]
      by_cases h1 : x = k0
      · have h2 : x ≠ k := fun h3 => h0 (h1.symm.trans h3)
        rw [if_pos h1, if_pos h1, if_neg h2]
      · rw [if_neg h1, if_neg h1]

theorem JSObject.get_set {α : Type} (o : JSObject α) (k : String) (v : α) (x : String) :
    (JSObject.set o k v).get x =
      if x = k ∧ k ≠ "__proto__" then some v else JSObject.get o x := by
  unfold JSObject.set
  by_cases h : k = "__proto__"
  · simp [h]
  · simp [h, JSObject.get_put]

theorem JSObject.mem_keys_of_get {α : Type} (o : JSObject α) (x : String) (v : α)
    (h : JSObject.get o x = some v) : x ∈ JSObject.keys o := by
  induction o with
  | nil => simp [JSObject.get, List.lookup] at h
  | cons hd tl ih =>
    obtain ⟨k0, v0⟩ := hd
    rw [JSObject.get_cons] at h
    simp only [JSObject.keys, List.map_cons, List.mem_cons]
    by_cases h1 : x = k0
    · exact Or.inl h1
    · rw [if_neg h1] at h
      exact Or.inr (ih h)

/-! ## `calculateEnhancedMemeStats`: the two labels of a player -/

theorem categorize_labels (memeStats : JSObject MemeStats) (stats : EnhancedStats)
    (k x : String) (e : MemeStats) (hget : memeStats.get x = some e)
    (hkeep :
      (stats.death_rate_category.get x = some (deathRateCategory (orZero e.average_deaths)) ∧
        stats.kda_category.get x = some (kdaCategory (orZero e.kda_ratio))) ∨
      (k = x ∧ x ≠ "__proto__")) :
    (categorize memeStats stats k).death_rate_category.get x =
        some (deathRateCategory (orZero e.average_deaths)) ∧
      (categorize memeStats stats k).kda_category.get x =
        some (kdaCategory (orZero e.kda_ratio)) := by
  unfold categorize
  by_cases hk : k = x
  · subst hk
    rw [hget]
    simp only [JSObject.get_set, true_and]
    by_cases hp : k = "__proto__"
    · rcases hkeep with h | h
      · have hx : ¬ (k ≠ "__proto__") := fun h3 => h3 hp
        rw [if_neg hx, if_neg hx]
        exact h
      · exact absurd hp h.2
    · have hx : k ≠ "__proto__" := hp
      rw [if_pos hx, if_pos hx]
      exact ⟨rfl, rfl⟩
  · rcases hkeep with h | h
    · cases hk2 : memeStats.get k with
      | none => exact h
      | some e2 =>
        simp only [JSObject.get_set]
        have hx : ¬ (x = k ∧ k ≠ "__proto__") := fun h3 => hk h3.1.symm
        rw [if_neg hx, if_neg hx]
        exact h
    · exact absurd h.1 hk

theorem foldl_categorize_labels (memeStats : JSObject MemeStats) (keys : List String)
    (stats : EnhancedStats) (x : String) (e : MemeStats) (hget : memeStats.get x = some e)
    (hkeep :
      (stats.death_rate_category.get x = some (deathRateCategory (orZero e.average_deaths)) ∧
        stats.kda_category.get x = some (kdaCategory (orZero e.kda_ratio))) ∨
      (x ∈ keys ∧ x ≠ "__proto__")) :
    (keys.foldl (categorize memeStats) stats).death_rate_category.get x =
        some (deathRateCategory (orZero e.average_deaths)) ∧
      (keys.foldl (categorize memeStats) stats).kda_category.get x =
        some (kdaCategory (orZero e.kda_ratio)) := by
  induction keys generalizing stats with
  | nil =>
    rcases hkeep with h | h
    · exact h
    · exact absurd h.1 (List.not_mem_nil _)
  | cons k ks ih =>
    simp only [List.foldl_cons]
    rcases hkeep with h | ⟨h, hp⟩
    · exact ih _ (Or.inl (categorize_labels memeStats stats k x e hget (Or.inl h)))
    · rcases List.mem_cons.1 h with h1 | h1
      · exact ih _ (Or.inl (categorize_labels memeStats stats k x e hget (Or.inr ⟨h1.symm, hp⟩)))
      · exact ih _ (Or.inr ⟨h1, hp⟩)

/-- The labels that `calculateEnhancedMemeStats` stores for a player of `memeStats`. -/
theorem calculateEnhancedMemeStats_labels (processedStats : Stats) (player : String)
    (e : MemeStats) (hget : processedStats.memeStats.get player = some e)
    (hname : player ≠ "__proto__") :
    (calculateEnhancedMemeStats processedStats).death_rate_category.get player =
        some (deathRateCategory (orZero e.average_deaths)) ∧
      (calculateEnhancedMemeStats processedStats).kda_category.get player =
        some (kdaCategory (orZero e.kda_ratio)) := by
  unfold calculateEnhancedMemeStats
  exact foldl_categorize_labels _ _ _ player e hget
    (Or.inr ⟨JSObject.mem_keys_of_get _ _ _ hget, hname⟩)

/-! ## C8: a value exactly at a threshold -/

theorem orZero_finite (v : ℚ) : orZero (JSNumber.finite v) = JSNumber.finite v := by
  show (if v = 0 then JSNumber.finite 0 else JSNumber.finite v) = _
  split_ifs with h
  · rw [h]
  · rfl

theorem deathRateCategory_finite (v : ℚ) :
    deathRateCategory (orZero (JSNumber.finite v)) =
      if 8 < v then "Professional Feeder 💀"
      else if 6 < v then "Casual Inter 😵"
      else if 4 < v then "Risky Player ⚡"
      else if 2 < v then "Decent Human 😐"
      else "KDA Player 😎" := by
  rw [orZero_finite]
  simp only [deathRateCategory, JSNumber.gt, decide_eq_true_eq]

theorem kdaCategory_finite (v : ℚ) :
    kdaCategory (orZero (JSNumber.finite v)) =
      if 3 < v then "Smurf Alert 🚨"
      else if 2 < v then "Actually Good 👍"
      else if 3 / 2 < v then "Decent Player 👌"
      else if 1 < v then "Needs Improvement 📈"
      else "Questionable Choices 🤔" := by
  rw [orZero_finite]
  simp only [kdaCategory, JSNumber.gt, decide_eq_true_eq]

/-- C8, as the code has it: the comparisons are strict, so each tier is closed at its
upper threshold.  A player whose `average_deaths` is exactly 8, 6, 4 or 2 is given
the tier of the values just below that threshold (8 gets the tier of the values
above 6 and up to 8), and the tier above is given to strictly greater values only;
likewise for a `kda_ratio` of exactly 3, 2, 1.5 or 1.  `Infinity` is given the top
tier and `NaN`, which `|| 0` replaces by `0`, the bottom one. -/
theorem C8_threshold_belongs_to_lower_tier (processedStats : Stats) (player : String)
    (e : MemeStats) (hget : processedStats.memeStats.get player = some e)
    (hname : player ≠ "__proto__") :
    (∀ v : ℚ, e.average_deaths = JSNumber.finite v →
      (8 < v →
        (calculateEnhancedMemeStats processedStats).death_rate_category.get player =
          some "Professional Feeder 💀") ∧
      (6 < v ∧ v ≤ 8 →
        (calculateEnhancedMemeStats processedStats).death_rate_category.get player =
          some "Casual Inter 😵") ∧
      (4 < v ∧ v ≤ 6 →
        (calculateEnhancedMemeStats processedStats).death_rate_category.get player =
          some "Risky Player ⚡") ∧
      (2 < v ∧ v ≤ 4 →
        (calculateEnhancedMemeStats processedStats).death_rate_category.get player =
          some "Decent Human 😐") ∧
      (v ≤ 2 →
        (calculateEnhancedMemeStats processedStats).death_rate_category.get player =
          some "KDA Player 😎")) ∧
    (∀ v : ℚ, e.kda_ratio = JSNumber.finite v →
      (3 < v →
        (calculateEnhancedMemeStats processedStats).kda_category.get player =
          some "Smurf Alert 🚨") ∧
      (2 < v ∧ v ≤ 3 →
        (calculateEnhancedMemeStats processedStats).kda_category.get player =
          some "Actually Good 👍") ∧
      (3 / 2 < v ∧ v ≤ 2 →
        (calculateEnhancedMemeStats processedStats).kda_category.get player =
          some "Decent Player 👌") ∧
      (1 < v ∧ v ≤ 3 / 2 →
        (calculateEnhancedMemeStats processedStats).kda_category.get player =
          some "Needs Improvement 📈") ∧
      (v ≤ 1 →
        (calculateEnhancedMemeStats processedStats).kda_category.get player =
          some "Questionable Choices 🤔")) ∧
    (e.average_deaths = JSNumber.posInf →
      (calculateEnhancedMemeStats processedStats).death_rate_category.get player =
        some "Professional Feeder 💀") ∧
    (e.average_deaths = JSNumber.nan →
      (calculateEnhancedMemeStats processedStats).death_rate_category.get player =
        some "KDA Player 😎") ∧
    (e.kda_ratio = JSNumber.posInf →
      (calculateEnhancedMemeStats processedStats).kda_category.get player =
        some "Smurf Alert 🚨") ∧
    (e.kda_ratio = JSNumber.nan →
      (calculateEnhancedMemeStats processedStats).kda_category.get player =
        some "Questionable Choices 🤔") := by
  obtain ⟨hd, hk⟩ := calculateEnhancedMemeStats_labels processedStats player e hget hname
  rw [hd, hk]
  refine ⟨?_, ?_, ?_, ?_, ?_, ?_⟩
  · intro v hv
    rw [hv, deathRateCategory_finite]
    refine ⟨?_, ?_, ?_, ?_, ?_⟩
    · intro h
      rw [if_pos h]
    · rintro ⟨h1, h2⟩
      rw [if_neg (not_lt.2 h2), if_pos h1]
    · rintro ⟨h1, h2⟩
      have h3 : v ≤ 8 := by linarith
      rw [if_neg (not_lt.2 h3), if_neg (not_lt.2 h2), if_pos h1]
    · rintro ⟨h1, h2⟩
      have h3 : v ≤ 8 := by linarith
      have h4 : v ≤ 6 := by linarith
      rw [if_neg (not_lt.2 h3), if_neg (not_lt.2 h4), if_neg (not_lt.2 h2), if_pos h1]
    · intro h2
      have h3 : v ≤ 8 := by linarith
      have h4 : v ≤ 6 := by linarith
      have h5 : v ≤ 4 := by linarith
      rw [if_neg (not_lt.2 h3), if_neg (not_lt.2 h4), if_neg (not_lt.2 h5),
        if_neg (not_lt.2 h2)]
  · intro v hv
    rw [hv, kdaCategory_finite]
    refine ⟨?_, ?_, ?_, ?_, ?_⟩
    · intro h
      rw [if_pos h]
    · rintro ⟨h1, h2⟩
      rw [if_neg (not_lt.2 h2), if_pos h1]
    · rintro ⟨h1, h2⟩
      have h3 : v ≤ 3 := by linarith
      rw [if_neg (not_lt.2 h3), if_neg (not_lt.2 h2), if_pos h1]
    · rintro ⟨h1, h2⟩
      have h3 : v ≤ 3 := by linarith
      have h4 : v ≤ 2 := by linarith
      rw [if_neg (not_lt.2 h3), if_neg (not_lt.2 h4), if_neg (not_lt.2 h2), if_pos h1]
    · intro h2
      have h3 : v ≤ 3 := by linarith
      have h4 : v ≤ 2 := by linarith
      have h5 : v ≤ 3 / 2 := by linarith
      rw [if_neg (not_lt.2 h3), if_neg (not_lt.2 h4), if_neg (not_lt.2 h5),
        if_neg (not_lt.2 h2)]
  · intro h
    rw [h]
    rfl
  · intro h
    rw [h]
    have h0 : orZero JSNumber.nan = JSNumber.finite 0 := rfl
    rw [h0, ← orZero_finite 0, deathRateCategory_finite]
    norm_num
  · intro h
    rw [h]
    rfl
  · intro h
    rw [h]
    have h0 : orZero JSNumber.nan = JSNumber.finite 0 := rfl
    rw [h0, ← orZero_finite 0, kdaCategory_finite]
    norm_num

/-- C8 at player `A` of `sampleProcessed`, whose average deaths are exactly 8 and
whose KDA ratio is exactly 3. -/
theorem C8_threshold_belongs_to_lower_tier_witness :
    sampleProcessed.memeStats.get "A" = some (sampleStats 8 3) ∧
      (calculateEnhancedMemeStats sampleProcessed).death_rate_category.get "A" =
        some "Casual Inter 😵" ∧
      (calculateEnhancedMemeStats sampleProcessed).kda_category.get "A" =
        some "Actually Good 👍" :=
  have h := C8_threshold_belongs_to_lower_tier sampleProcessed "A" (sampleStats 8 3) rfl
    (by decide)
  ⟨rfl, (h.1 8 rfl).2.1 (by norm_num), (h.2.1 3 rfl).2.1 (by norm_num)⟩

/-- C8 fails as stated: in `sampleProcessed` player `A` has exactly 8 average deaths
and a KDA ratio of exactly 3, player `B` has 9 and 4, player `C` has 7 and 2.5.
`A` is given the labels of `C`, the tiers below the thresholds, and not the labels
of `B`, the tiers of the values strictly greater than 8 and than 3. -/
theorem C8_counterexample :
    (sampleProcessed.memeStats.get "A").map (fun e => (e.average_deaths, e.kda_ratio)) =
        some (JSNumber.finite 8, JSNumber.finite 3) ∧
      (sampleProcessed.memeStats.get "B").map (fun e => (e.average_deaths, e.kda_ratio)) =
        some (JSNumber.finite 9, JSNumber.finite 4) ∧
      (sampleProcessed.memeStats.get "C").map (fun e => (e.average_deaths, e.kda_ratio)) =
        some (JSNumber.finite 7, JSNumber.finite (5 / 2)) ∧
      (calculateEnhancedMemeStats sampleProcessed).death_rate_category.get "B" =
        some "Professional Feeder 💀" ∧
      (calculateEnhancedMemeStats sampleProcessed).death_rate_category.get "A" =
        some "Casual Inter 😵" ∧
      (calculateEnhancedMemeStats sampleProcessed).death_rate_category.get "C" =
        some "Casual Inter 😵" ∧
      (calculateEnhancedMemeStats sampleProcessed).kda_category.get "B" =
        some "Smurf Alert 🚨" ∧
      (calculateEnhancedMemeStats sampleProcessed).kda_category.get "A" =
        some "Actually Good 👍" ∧
      (calculateEnhancedMemeStats sampleProcessed).kda_category.get "C" =
        some "Actually Good 👍" ∧
      (calculateEnhancedMemeStats sampleProcessed).death_rate_category.get "A" ≠
        (calculateEnhancedMemeStats sampleProcessed).death_rate_category.get "B" ∧
      (calculateEnhancedMemeStats sampleProcessed).kda_category.get "A" ≠
        (calculateEnhancedMemeStats sampleProcessed).kda_category.get "B" := by
  have hA := calculateEnhancedMemeStats_labels sampleProcessed "A" (sampleStats 8 3) rfl
    (by decide)
  have hB := calculateEnhancedMemeStats_labels sampleProcessed "B" (sampleStats 9 4) rfl
    (by decide)
  have hC := calculateEnhancedMemeStats_labels sampleProcessed "C" (sampleStats 7 (5 / 2)) rfl
    (by decide)
  have dA : deathRateCategory (orZero (sampleStats 8 3).average_deaths) = "Casual Inter 😵" := by
    norm_num [deathRateCategory_finite, sampleStats]
  have dB : deathRateCategory (orZero (sampleStats 9 4).average_deaths) =
      "Professional Feeder 💀" := by
    norm_num [deathRateCategory_finite, sampleStats]
  have dC : deathRateCategory (orZero (sampleStats 7 (5 / 2)).average_deaths) =
      "Casual Inter 😵" := by
    norm_num [deathRateCategory_finite, sampleStats]
  have kA : kdaCategory (orZero (sampleStats 8 3).kda_ratio) = "Actually Good 👍" := by
    norm_num [kdaCategory_finite, sampleStats]
  have kB : kdaCategory (orZero (sampleStats 9 4).kda_ratio) = "Smurf Alert 🚨" := by
    norm_num [kdaCategory_finite, sampleStats]
  have kC : kdaCategory (orZero (sampleStats 7 (5 / 2)).kda_ratio) = "Actually Good 👍" := by
    norm_num [kdaCategory_finite, sampleStats]
  rw [hA.1, hA.2, hB.1, hB.2, hC.1, hC.2, dA, dB, dC, kA, kB, kC]
  refine ⟨rfl, rfl, rfl, rfl, rfl, rfl, rfl, rfl, rfl, by decide, by decide⟩

/-! ## C9: the batch keeps length and order -/

theorem scrapePlayerStats_summonerName (call : Call) (name : String) :
    (scrapePlayerStats call name).summonerName = name := by
  unfold scrapePlayerStats
  cases call.outcome <;> rfl

theorem scrapeFrom_eq (world : Nat → Call) (names : List String) (i : Nat)
    (results : List PlayerRecord) :
    scrapeFrom world names i results =
      results ++ (names.enumFrom i).map fun p => scrapePlayerStats (world p.1) p.2 := by
  induction names generalizing i results with
  | nil => simp [scrapeFrom]
  | cons name rest ih =>
    unfold scrapeFrom
    rw [ih]
    simp

theorem scrapeMultiplePlayers_getElem? (world : Nat → Call) (names : List String) (i : Nat) :
    (scrapeMultiplePlayers world names)[i]? =
      (names[i]?).map fun name => scrapePlayerStats (world i) name := by
  unfold scrapeMultiplePlayers
  rw [scrapeFrom_eq, List.nil_append, List.getElem?_map, List.getElem?_enumFrom]
  cases names[i]? <;> simp

/-- C9: for every list of names and every outcome of the individual fetches, the
result of `scrapeMultiplePlayers` has the length of the input, and its element at
index `i` is the record that `scrapePlayerStats` produces for the name at index `i`,
whose `summonerName` is that name; changing what the call for one name meets (a
failure in place of a page, say) changes neither the length nor the record at any
other index. -/
theorem C9_batch_keeps_order (world : Nat → Call) (names : List String) :
    (scrapeMultiplePlayers world names).length = names.length ∧
      (∀ (i : Nat) (name : String), names[i]? = some name →
        (scrapeMultiplePlayers world names)[i]? = some (scrapePlayerStats (world i) name) ∧
          (scrapePlayerStats (world i) name).summonerName = name) ∧
      (∀ (j : Nat) (other : Call),
        (scrapeMultiplePlayers (Function.update world j other) names).length =
            (scrapeMultiplePlayers world names).length ∧
          ∀ i : Nat, i ≠ j →
            (scrapeMultiplePlayers (Function.update world j other) names)[i]? =
              (scrapeMultiplePlayers world names)[i]?) := by
  have hlen : ∀ w : Nat → Call, (scrapeMultiplePlayers w names).length = names.length := by
    intro w
    unfold scrapeMultiplePlayers
    rw [scrapeFrom_eq]
    simp
  refine ⟨hlen world, ?_, ?_⟩
  · intro i name hname
    rw [scrapeMultiplePlayers_getElem?, hname]
    exact ⟨rfl, scrapePlayerStats_summonerName _ _⟩
  · intro j other
    refine ⟨by rw [hlen, hlen], ?_⟩
    intro i hij
    rw [scrapeMultiplePlayers_getElem?, scrapeMultiplePlayers_getElem?,
      Function.update_noteq hij]

/-- C9 at the names `A`, `B`, `C` when the fetch for `B` fails: the record at index 2
is the one of `C`, and the record at index 1 carries the error. -/
theorem C9_batch_keeps_order_witness :
    (scrapeMultiplePlayers sampleWorld ["A", "B", "C"]).length = 3 ∧
      (scrapeMultiplePlayers sampleWorld ["A", "B", "C"])[2]? =
        some (scrapePlayerStats (sampleWorld 2) "C") ∧
      (scrapePlayerStats (sampleWorld 2) "C").summonerName = "C" ∧
      (scrapePlayerStats (sampleWorld 1) "B").error =
        some "Request failed with status code 404" :=
  ⟨(C9_batch_keeps_order sampleWorld ["A", "B", "C"]).1,
    ((C9_batch_keeps_order sampleWorld ["A", "B", "C"]).2.1 2 "C" rfl).1,
    ((C9_batch_keeps_order sampleWorld ["A", "B", "C"]).2.1 2 "C" rfl).2, rfl⟩

/-! ## The matcher on the KDA pattern -/

theorem isDigit_slash : isDigit '/' = false := by decide

theorem firstFrom_none (f : Nat → Option MatchResult) (n : Nat)
    (h : ∀ k, k ≤ n → f k = none) : firstFrom f n = none := by
  induction n with
  | zero => rfl
  | succ n ih =>
    unfold firstFrom
    rw [h (n + 1) (Nat.le_refl _)]
    exact ih fun k hk => h k (Nat.le_succ_of_le hk)

theorem firstFrom_top (f : Nat → Option MatchResult) (n : Nat)
    (h : ∀ k, k < n → f k = none) : firstFrom f n = if n = 0 then none else f n := by
  cases n with
  | zero => rfl
  | succ n =>
    unfold firstFrom
    rw [if_neg (Nat.succ_ne_zero n)]
    cases hf : f (n + 1) with
    | some m => rfl
    | none => exact firstFrom_none f n fun k hk => h k (Nat.lt_succ_of_le hk)

theorem take_digitRun (s : List Char) : s.take (digitRun s).length = digitRun s := by
  have h := List.takeWhile_append_dropWhile isDigit s
  have h3 : (List.takeWhile isDigit s ++ List.dropWhile isDigit s).take
      (List.takeWhile isDigit s).length = List.takeWhile isDigit s := List.take_left' rfl
  rw [h] at h3
  exact h3

theorem drop_digitRun (s : List Char) :
    s.drop (digitRun s).length = s.dropWhile isDigit := by
  have h := List.takeWhile_append_dropWhile isDigit s
  have h3 : (List.takeWhile isDigit s ++ List.dropWhile isDigit s).drop
      (List.takeWhile isDigit s).length = List.dropWhile isDigit s := List.drop_left' rfl
  rw [h] at h3
  exact h3

theorem drop_lt_digitRun (s : List Char) (k : Nat) (hk : k < (digitRun s).length) :
    ∃ x t, s.drop k = x :: t ∧ isDigit x = true := by
  have h := List.takeWhile_append_dropWhile isDigit s
  have hx : isDigit ((digitRun s)[k]) = true :=
    List.mem_takeWhile_imp (List.getElem_mem hk)
  refine ⟨(digitRun s)[k], (digitRun s).drop (k + 1) ++ s.dropWhile isDigit, ?_, hx⟩
  have h3 : (digitRun s ++ List.dropWhile isDigit s).drop k =
      (digitRun s).drop k ++ List.dropWhile isDigit s :=
    List.drop_append_of_le_length (Nat.le_of_lt hk)
  have h4 : digitRun s ++ List.dropWhile isDigit s = s := h
  rw [h4] at h3
  rw [h3, List.drop_eq_getElem_cons hk]
  rfl

/-- On `(\d+)` followed by a literal that is no digit, the group takes the whole run
of digits: giving digits back cannot help. -/
theorem matchHere_digits_lit (c : Char) (r : List Atom) (s : List Char)
    (hc : isDigit c = false) :
    matchHere (Atom.digits :: Atom.lit c :: r) s =
      if digitRun s = [] then none
      else (matchHere (Atom.lit c :: r) (s.dropWhile isDigit)).map fun m =>
        ⟨digitRun s ++ m.whole, digitRun s :: m.groups, m.rest⟩ := by
  rw [matchHere, firstFrom_top]
  · by_cases h0 : digitRun s = []
    · simp [h0]
    · have hlen : (digitRun s).length ≠ 0 := fun h => h0 (List.length_eq_zero.1 h)
      rw [if_neg hlen, if_neg h0, take_digitRun, drop_digitRun]
  · intro k hk
    obtain ⟨x, t, hxt, hx⟩ := drop_lt_digitRun s k hk
    have hne : x ≠ c := by
      intro h
      rw [h, hc] at hx
      exact Bool.noConfusion hx
    simp only [hxt, matchHere, if_neg hne, Option.map_none']

/-- On a final `(\d+)` the group takes the whole run of digits. -/
theorem matchHere_digits_last (s : List Char) :
    matchHere [Atom.digits] s =
      if digitRun s = [] then none
      else some ⟨digitRun s, [digitRun s], s.dropWhile isDigit⟩ := by
  rw [matchHere]
  cases hn : (digitRun s).length with
  | zero =>
    rw [if_pos (List.length_eq_zero.1 hn)]
    rfl
  | succ n =>
    have h0 : digitRun s ≠ [] := by
      intro h
      rw [h] at hn
      exact Nat.succ_ne_zero n hn.symm
    rw [if_neg h0, firstFrom]
    simp only [matchHere, Option.map_some', List.append_nil]
    rw [← hn, take_digitRun, drop_digitRun]

theorem digitRun_append (a t : List Char) (ha : ∀ x ∈ a, isDigit x = true) :
    digitRun (a ++ t) = a ++ digitRun t := by
  unfold digitRun
  exact List.takeWhile_append_of_pos ha

theorem dropWhile_append (a t : List Char) (ha : ∀ x ∈ a, isDigit x = true) :
    (a ++ t).dropWhile isDigit = t.dropWhile isDigit :=
  List.dropWhile_append_of_pos ha

theorem digitRun_cons_of_not (x : Char) (t : List Char) (hx : isDigit x = false) :
    digitRun (x :: t) = [] ∧ (x :: t).dropWhile isDigit = x :: t := by
  unfold digitRun
  rw [List.takeWhile_cons, List.dropWhile_cons, hx]
  exact ⟨rfl, rfl⟩

theorem isDigits_digitRun (s : List Char) (h : digitRun s ≠ []) : IsDigits (digitRun s) :=
  ⟨h, fun _ hx => List.mem_takeWhile_imp hx⟩

/-- What `(\d+)/(\d+)/(\d+)` matches at the head of a text: the three runs of digits
around two slashes, the last run as long as the digits go. -/
theorem matchHere_kda_of_shape (a b c post : List Char) (ha : IsDigits a) (hb : IsDigits b)
    (hc : IsDigits c) :
    matchHere kdaRegex (a ++ '/' :: (b ++ '/' :: (c ++ post))) =
      some ⟨a ++ '/' :: (b ++ '/' :: (c ++ digitRun post)), [a, b, c ++ digitRun post],
        post.dropWhile isDigit⟩ := by
  have r1 := digitRun_cons_of_not '/' (b ++ '/' :: (c ++ post)) isDigit_slash
  have r2 := digitRun_cons_of_not '/' (c ++ post) isDigit_slash
  have ea : digitRun (a ++ '/' :: (b ++ '/' :: (c ++ post))) = a := by
    rw [digitRun_append _ _ ha.2, r1.1, List.append_nil]
  have da : (a ++ '/' :: (b ++ '/' :: (c ++ post))).dropWhile isDigit =
      '/' :: (b ++ '/' :: (c ++ post)) := by
    rw [dropWhile_append _ _ ha.2, r1.2]
  have eb : digitRun (b ++ '/' :: (c ++ post)) = b := by
    rw [digitRun_append _ _ hb.2, r2.1, List.append_nil]
  have db : (b ++ '/' :: (c ++ post)).dropWhile isDigit = '/' :: (c ++ post) := by
    rw [dropWhile_append _ _ hb.2, r2.2]
  have ec : digitRun (c ++ post) = c ++ digitRun post := digitRun_append _ _ hc.2
  have dc : (c ++ post).dropWhile isDigit = post.dropWhile isDigit :=
    dropWhile_append _ _ hc.2
  have hc0 : c ++ digitRun post ≠ [] := by
    intro h
    exact hc.1 (List.append_eq_nil.1 h).1
  unfold kdaRegex
  rw [matchHere_digits_lit _ _ _ isDigit_slash, ea, if_neg ha.1, da, matchHere, if_pos rfl,
    matchHere_digits_lit _ _ _ isDigit_slash, eb, if_neg hb.1, db, matchHere, if_pos rfl,
    matchHere_digits_last, ec, if_neg hc0, dc]
  simp

theorem matchHere_lit_some (c : Char) (r : List Atom) (s : List Char) (m : MatchResult)
    (h : matchHere (Atom.lit c :: r) s = some m) :
    ∃ t m1, s = c :: t ∧ matchHere r t = some m1 ∧ m = ⟨c :: m1.whole, m1.groups, m1.rest⟩ := by
  cases s with
  | nil => simp [matchHere] at h
  | cons x t =>
    rw [matchHere] at h
    by_cases hx : x = c
    · rw [if_pos hx] at h
      cases hm : matchHere r t with
      | none => simp [hm] at h
      | some m1 =>
        rw [hm] at h
        simp only [Option.map_some', Option.some.injEq] at h
        exact ⟨t, m1, by rw [hx], hm, by rw [← h, hx]⟩
    · rw [if_neg hx] at h
      exact Option.noConfusion h

/-- A match of `(\d+)/(\d+)/(\d+)` at the head of a text has the expected shape, and
the text after it does not start with a digit. -/
theorem matchHere_kda_some (s : List Char) (m : MatchResult)
    (h : matchHere kdaRegex s = some m) :
    ∃ a b c, IsDigits a ∧ IsDigits b ∧ IsDigits c ∧
      m.whole = a ++ '/' :: (b ++ '/' :: c) ∧ m.groups = [a, b, c] ∧
      s = m.whole ++ m.rest ∧ digitRun m.rest = [] := by
  unfold kdaRegex at h
  rw [matchHere_digits_lit _ _ _ isDigit_slash] at h
  by_cases ha : digitRun s = []
  · rw [if_pos ha] at h
    exact Option.noConfusion h
  rw [if_neg ha] at h
  cases h1 : matchHere [Atom.lit '/', Atom.digits, Atom.lit '/', Atom.digits]
      (s.dropWhile isDigit) with
  | none => simp [h1] at h
  | some m1 =>
    rw [h1] at h
    simp only [Option.map_some', Option.some.injEq] at h
    obtain ⟨s2, m2, hs2, h2, hm1⟩ := matchHere_lit_some _ _ _ _ h1
    rw [matchHere_digits_lit _ _ _ isDigit_slash] at h2
    by_cases hb : digitRun s2 = []
    · rw [if_pos hb] at h2
      exact Option.noConfusion h2
    rw [if_neg hb] at h2
    cases h3 : matchHere [Atom.lit '/', Atom.digits] (s2.dropWhile isDigit) with
    | none => simp [h3] at h2
    | some m3 =>
      rw [h3] at h2
      simp only [Option.map_some', Option.some.injEq] at h2
      obtain ⟨s4, m4, hs4, h4, hm3⟩ := matchHere_lit_some _ _ _ _ h3
      rw [matchHere_digits_last] at h4
      by_cases hc : digitRun s4 = []
      · rw [if_pos hc] at h4
        exact Option.noConfusion h4
      rw [if_neg hc] at h4
      simp only [Option.some.injEq] at h4
      have e1 : s = digitRun s ++ s.dropWhile isDigit :=
        (List.takeWhile_append_dropWhile isDigit s).symm
      have e2 : s2 = digitRun s2 ++ s2.dropWhile isDigit :=
        (List.takeWhile_append_dropWhile isDigit s2).symm
      have e4 : s4 = digitRun s4 ++ s4.dropWhile isDigit :=
        (List.takeWhile_append_dropWhile isDigit s4).symm
      refine ⟨digitRun s, digitRun s2, digitRun s4, isDigits_digitRun s ha,
        isDigits_digitRun s2 hb, isDigits_digitRun s4 hc, ?_, ?_, ?_, ?_⟩
      · rw [← h, hm1, ← h2, hm3, ← h4]
      · rw [← h, hm1, ← h2, hm3, ← h4]
      · rw [← h, hm1, ← h2, hm3, ← h4]
        simp only [List.append_assoc, List.cons_append]
        rw [← e4, ← hs4, ← e2, ← hs2, ← e1]
      · rw [← h, hm1, ← h2, hm3, ← h4]
        cases hd : s4.dropWhile isDigit with
        | nil => rfl
        | cons x t =>
          have hx : ¬ isDigit x = true := by
            have := List.head_dropWhile_not isDigit s4 (by rw [hd]; exact List.cons_ne_nil _ _)
            simpa [hd] using this
          have hx2 : isDigit x = false := by simpa using hx
          exact (digitRun_cons_of_not x t hx2).1

/-! ## The leftmost match -/

theorem exec_of_matchHere (r : List Atom) (t : List Char) (m : MatchResult)
    (h : matchHere r t = some m) : exec r t = some m := by
  cases t with
  | nil => exact h
  | cons c cs =>
    unfold exec
    rw [h]

theorem exec_cons_of_none (r : List Atom) (c : Char) (cs : List Char)
    (h : matchHere r (c :: cs) = none) : exec r (c :: cs) = exec r cs := by
  conv_lhs => unfold exec
  rw [h]

theorem occurrence_matches (w post : List Char) (hw : IsKdaText w) :
    ∃ m, matchHere kdaRegex (w ++ post) = some m ∧ m.whole = w ++ digitRun post ∧
      m.rest = post.dropWhile isDigit := by
  obtain ⟨a, b, c, ha, hb, hc, rfl⟩ := hw
  have h := matchHere_kda_of_shape a b c post ha hb hc
  refine ⟨⟨a ++ '/' :: (b ++ '/' :: (c ++ digitRun post)), [a, b, c ++ digitRun post],
    post.dropWhile isDigit⟩, ?_, ?_, rfl⟩
  · simp only [List.append_assoc, List.cons_append] at h ⊢
    exact h
  · simp

theorem isKdaText_of_match (s : List Char) (m : MatchResult)
    (h : matchHere kdaRegex s = some m) : IsKdaText m.whole ∧ s = m.whole ++ m.rest := by
  obtain ⟨a, b, c, ha, hb, hc, hw, _, hs, _⟩ := matchHere_kda_some s m h
  exact ⟨⟨a, b, c, ha, hb, hc, hw⟩, hs⟩

theorem isKdaText_ne_nil (w : List Char) (hw : IsKdaText w) : w ≠ [] := by
  obtain ⟨a, b, c, ha, _, _, rfl⟩ := hw
  intro h
  exact ha.1 (List.append_eq_nil.1 h).1

/-- Without any occurrence in the text, the search finds nothing. -/
theorem exec_kda_none (t : List Char)
    (h : ∀ pre w post, t = pre ++ w ++ post → ¬ IsKdaText w) : exec kdaRegex t = none := by
  induction t with
  | nil =>
    unfold exec
    cases hm : matchHere kdaRegex [] with
    | none => rfl
    | some m =>
      obtain ⟨hk, hs⟩ := isKdaText_of_match _ _ hm
      exact absurd hk (h [] m.whole m.rest (by simpa using hs))
  | cons c cs ih =>
    have hnone : matchHere kdaRegex (c :: cs) = none := by
      cases hm : matchHere kdaRegex (c :: cs) with
      | none => rfl
      | some m =>
        obtain ⟨hk, hs⟩ := isKdaText_of_match _ _ hm
        exact absurd hk (h [] m.whole m.rest (by simpa using hs))
    rw [exec_cons_of_none _ _ _ hnone]
    apply ih
    intro pre w post hsplit
    exact h (c :: pre) w post (by rw [hsplit]; rfl)

/-- The search returns the earliest occurrence, taken as long as its digits go. -/
theorem exec_kda_leftmost (pre w post : List Char) (hw : IsKdaText w)
    (hleft : ∀ pre1 w1 post1, pre ++ w ++ post = pre1 ++ w1 ++ post1 → IsKdaText w1 →
      pre.length ≤ pre1.length)
    (hlong : ∀ w1 post1, w ++ post = w1 ++ post1 → IsKdaText w1 → w1.length ≤ w.length) :
    ∃ m, exec kdaRegex (pre ++ w ++ post) = some m ∧ m.whole = w ∧ m.rest = post := by
  induction pre with
  | nil =>
    obtain ⟨m, hm, hwhole, hrest⟩ := occurrence_matches w post hw
    obtain ⟨hk, hs⟩ := isKdaText_of_match _ _ hm
    have hlen := hlong m.whole m.rest hs hk
    have hrun : digitRun post = [] := by
      rw [hwhole, List.length_append] at hlen
      exact List.length_eq_zero.1 (by omega)
    have hpost : post.dropWhile isDigit = post := by
      have h := List.takeWhile_append_dropWhile isDigit post
      have h2 : digitRun post ++ post.dropWhile isDigit = post := h
      rw [hrun, List.nil_append] at h2
      exact h2
    refine ⟨m, ?_, ?_, ?_⟩
    · rw [List.nil_append]
      exact exec_of_matchHere _ _ _ hm
    · rw [hwhole, hrun, List.append_nil]
    · rw [hrest, hpost]
  | cons x pre1 ih =>
    have hnone : matchHere kdaRegex (x :: (pre1 ++ w ++ post)) = none := by
      cases hm : matchHere kdaRegex (x :: (pre1 ++ w ++ post)) with
      | none => rfl
      | some m =>
        obtain ⟨hk, hs⟩ := isKdaText_of_match _ _ hm
        have := hleft [] m.whole m.rest (by simpa using hs) hk
        simp at this
    have hstep : exec kdaRegex (x :: pre1 ++ w ++ post) = exec kdaRegex (pre1 ++ w ++ post) :=
      exec_cons_of_none _ _ _ hnone
    rw [hstep]
    apply ih
    intro pre2 w1 post1 hsplit hk
    have := hleft (x :: pre2) w1 post1 (by simp only [List.cons_append, hsplit]) hk
    simpa using this

/-! ## Occurrences: there is exactly one list of them -/

theorem exec_kda_cases (t : List Char) :
    (exec kdaRegex t = none ∧ ∀ pre w post, t = pre ++ w ++ post → ¬ IsKdaText w) ∨
    (∃ m pre, exec kdaRegex t = some m ∧ t = pre ++ m.whole ++ m.rest ∧ IsKdaText m.whole ∧
      (∀ pre1 w1 post1, pre ++ m.whole ++ m.rest = pre1 ++ w1 ++ post1 → IsKdaText w1 →
        pre.length ≤ pre1.length) ∧
      (∀ w1 post1, m.whole ++ m.rest = w1 ++ post1 → IsKdaText w1 →
        w1.length ≤ m.whole.length)) := by
  induction t with
  | nil =>
    left
    have hno : ∀ pre w post, ([] : List Char) = pre ++ w ++ post → ¬ IsKdaText w := by
      intro pre w post hsplit hk
      have hw : w = [] := by
        have h := (List.append_eq_nil.1 hsplit.symm).1
        exact (List.append_eq_nil.1 h).2
      exact isKdaText_ne_nil w hk hw
    exact ⟨exec_kda_none [] hno, hno⟩
  | cons c cs ih =>
    cases hm : matchHere kdaRegex (c :: cs) with
    | some m =>
      right
      obtain ⟨hk, hs⟩ := isKdaText_of_match _ _ hm
      refine ⟨m, [], exec_of_matchHere _ _ _ hm, by simpa using hs, hk, ?_, ?_⟩
      · intro pre1 w1 post1 _ _
        exact Nat.zero_le _
      · intro w1 post1 hsplit hk1
        obtain ⟨m1, hm1, hwhole, _⟩ := occurrence_matches w1 post1 hk1
        rw [← hsplit, ← hs, hm] at hm1
        have : m = m1 := Option.some.inj hm1
        rw [this, hwhole, List.length_append]
        exact Nat.le_add_right _ _
    | none =>
      have hstep := exec_cons_of_none _ _ _ hm
      have hhead : ∀ w post, c :: cs = w ++ post → ¬ IsKdaText w := by
        intro w post hsplit hk
        obtain ⟨m1, hm1, _, _⟩ := occurrence_matches w post hk
        rw [← hsplit, hm] at hm1
        exact Option.noConfusion hm1
      rcases ih with ⟨hnone, hno⟩ | ⟨m, pre, hsome, hsplit, hk, hleft, hlong⟩
      · left
        refine ⟨by rw [hstep, hnone], ?_⟩
        intro pre w post hsplit
        cases pre with
        | nil => exact hhead w post (by simpa using hsplit)
        | cons x pre1 =>
          simp only [List.cons_append, List.cons.injEq] at hsplit
          exact hno pre1 w post hsplit.2
      · right
        refine ⟨m, c :: pre, by rw [hstep, hsome], by rw [hsplit]; rfl, hk, ?_, hlong⟩
        intro pre1 w1 post1 hsplit1 hk1
        cases pre1 with
        | nil =>
          exact absurd hk1 (hhead w1 post1 (by
            rw [hsplit]
            simpa using hsplit1))
        | cons x pre2 =>
          simp only [List.cons_append, List.cons.injEq] at hsplit1
          have := hleft pre2 w1 post1 hsplit1.2 hk1
          simp only [List.length_cons]
          omega

theorem occurrences_exist_of_length (n : Nat) :
    ∀ t : List Char, t.length ≤ n → ∃ ws, Occurrences t ws := by
  induction n with
  | zero =>
    intro t ht
    have h0 : t = [] := List.length_eq_zero.1 (Nat.le_zero.1 ht)
    rcases exec_kda_cases t with ⟨_, hno⟩ | ⟨m, pre, _, hsplit, hk, _, _⟩
    · exact ⟨[], Occurrences.done t hno⟩
    · exfalso
      rw [h0] at hsplit
      have h := (List.append_eq_nil.1 hsplit.symm).1
      exact isKdaText_ne_nil _ hk (List.append_eq_nil.1 h).2
  | succ n ih =>
    intro t ht
    rcases exec_kda_cases t with ⟨_, hno⟩ | ⟨m, pre, _, hsplit, hk, hleft, hlong⟩
    · exact ⟨[], Occurrences.done t hno⟩
    · have hpos : 0 < m.whole.length := List.length_pos.2 (isKdaText_ne_nil _ hk)
      have hlen : m.rest.length ≤ n := by
        have h := congrArg List.length hsplit
        simp only [List.length_append] at h
        omega
      obtain ⟨ws, hws⟩ := ih m.rest hlen
      refine ⟨m.whole :: ws, Occurrences.next t pre m.whole m.rest ws hsplit hk ?_ hlong hws⟩
      intro pre1 w1 post1 hsplit1 hk1
      exact hleft pre1 w1 post1 (by rw [← hsplit, hsplit1]) hk1

theorem occurrences_exist (t : List Char) : ∃ ws, Occurrences t ws :=
  occurrences_exist_of_length t.length t (Nat.le_refl _)

theorem occurrences_unique (t : List Char) (ws ws1 : List (List Char))
    (h : Occurrences t ws) (h1 : Occurrences t ws1) : ws1 = ws := by
  induction h generalizing ws1 with
  | done t hno =>
    cases h1 with
    | done _ _ => rfl
    | next _ pre1 w1 post1 ws2 hsplit1 hk1 _ _ _ => exact absurd hk1 (hno pre1 w1 post1 hsplit1)
  | next t pre w post ws hsplit hk hleft hlong _ ih =>
    cases h1 with
    | done _ hno => exact absurd hk (hno pre w post hsplit)
    | next _ pre1 w1 post1 ws2 hsplit1 hk1 hleft1 hlong1 hrest1 =>
      have hlen : pre.length = pre1.length :=
        Nat.le_antisymm (hleft pre1 w1 post1 hsplit1 hk1) (hleft1 pre w post hsplit hk)
      have heq : pre ++ (w ++ post) = pre1 ++ (w1 ++ post1) := by
        rw [← List.append_assoc, ← List.append_assoc, ← hsplit, ← hsplit1]
      obtain ⟨_, htail⟩ := List.append_inj heq hlen
      have hwlen : w.length = w1.length :=
        Nat.le_antisymm (hlong1 w post htail.symm hk) (hlong w1 post1 htail hk1)
      obtain ⟨hw, hpost⟩ := List.append_inj htail hwlen
      rw [← hpost] at hrest1
      rw [ih ws2 hrest1, hw]

/-! ## The fallback loop -/

theorem fallbackLoop_of_occurrences (now : Nat → Int) (t : List Char) (ws : List (List Char))
    (h : Occurrences t ws) :
    ∀ (fuel kdaCount : Nat) (recentMatches : List MatchRecord), t.length < fuel →
      recentMatches.length = kdaCount →
      fallbackLoop now fuel t kdaCount recentMatches =
        recentMatches ++ fallbackRecordsFrom now kdaCount (ws.take (10 - kdaCount)) := by
  induction h with
  | done t hno =>
    intro fuel kdaCount recentMatches hfuel _
    cases fuel with
    | zero => exact absurd hfuel (Nat.not_lt_zero _)
    | succ fuel =>
      unfold fallbackLoop
      rw [exec_kda_none t hno]
      simp [fallbackRecordsFrom]
  | next t pre w post ws hsplit hk hleft hlong _ ih =>
    intro fuel kdaCount recentMatches hfuel hcount
    cases fuel with
    | zero => exact absurd hfuel (Nat.not_lt_zero _)
    | succ fuel =>
      obtain ⟨m, hm, hwhole, hrest⟩ := exec_kda_leftmost pre w post hk
        (fun pre1 w1 post1 hs hk1 => hleft pre1 w1 post1 (by rw [hsplit, hs]) hk1) hlong
      unfold fallbackLoop
      rw [hsplit, hm]
      by_cases hten : kdaCount < 10
      · have hpos : 0 < w.length := List.length_pos.2 (isKdaText_ne_nil _ hk)
        have hlen : post.length < fuel := by
          have h := congrArg List.length hsplit
          simp only [List.length_append] at h
          omega
        have htake : 10 - kdaCount = (10 - (kdaCount + 1)) + 1 := by omega
        simp only [hten, if_true]
        rw [hrest, hwhole, ih fuel (kdaCount + 1) _ hlen (by simp [hcount]), htake,
          List.take_succ_cons, fallbackRecordsFrom, hcount]
        simp [fallbackRecord]
      · have hzero : 10 - kdaCount = 0 := by omega
        simp [hten, hzero, fallbackRecordsFrom]

theorem fallbackRecordsFrom_eq (now : Nat → Int) (k : Nat) (ws : List (List Char)) :
    fallbackRecordsFrom now k ws = (ws.enumFrom k).map fun p => fallbackRecord now p.1 p.2 := by
  induction ws generalizing k with
  | nil => rfl
  | cons w ws ih =>
    rw [fallbackRecordsFrom, ih]
    rfl

/-! ## The selectors when no element is accepted -/

theorem eachElement_of_none (now : Nat → Int) (elements : List MatchElement) (i : Nat)
    (st : Extraction)
    (h : ∀ e ∈ elements.take (20 - i), ¬ (truthy e.champion = true ∧ truthy e.kdaElement = true)) :
    eachElement now elements i st = st := by
  induction elements generalizing i with
  | nil => rfl
  | cons e es ih =>
    unfold eachElement
    by_cases hi : i ≥ 20
    · rw [if_pos hi]
    · rw [if_neg hi]
      have hstep : 20 - i = (20 - (i + 1)) + 1 := by omega
      rw [hstep, List.take_succ_cons] at h
      have he := h e (List.mem_cons_self _ _)
      have hcond : (truthy e.champion && truthy e.kdaElement) = false := by
        cases h1 : truthy e.champion <;> cases h2 : truthy e.kdaElement <;> simp_all
      rw [hcond]
      simp only [Bool.false_eq_true, if_false]
      exact ih (i + 1) fun x hx => h x (List.mem_cons_of_mem _ hx)

theorem trySelectors_of_none (now : Nat → Int) (selectors : List (List MatchElement))
    (st : Extraction) (hst : st.matchesFound = false)
    (h : ∀ elements ∈ selectors, NoAcceptedMatch elements) :
    trySelectors now selectors st = st := by
  induction selectors with
  | nil => rfl
  | cons elements others ih =>
    unfold trySelectors
    have h1 : eachElement now elements 0 st = st :=
      eachElement_of_none now elements 0 st (h elements (List.mem_cons_self _ _))
    simp only [h1, hst, Bool.false_eq_true, if_false]
    exact ih fun x hx => h x (List.mem_cons_of_mem _ hx)

/-! ## C10: the fallback scan -/

theorem extractMatches_fallback (now : Nat → Int) (doc : Document) (ws : List (List Char))
    (h1 : NoAcceptedMatch doc.gameItem) (h2 : NoAcceptedMatch doc.gameItemTestid)
    (h3 : NoAcceptedMatch doc.gameItemWrap) (h4 : NoAcceptedMatch doc.matchItem)
    (hws : Occurrences doc.text.toList ws) :
    extractMatches now doc =
      (ws.take 10).enum.map fun p => fallbackRecord now p.1 p.2 := by
  have hsel : trySelectors now
      [doc.gameItem, doc.gameItemTestid, doc.gameItemWrap, doc.matchItem]
      { recentMatches := [], matchesFound := false } =
      { recentMatches := [], matchesFound := false } := by
    apply trySelectors_of_none _ _ _ rfl
    intro elements hmem
    simp only [List.mem_cons, List.mem_singleton, List.not_mem_nil, or_false] at hmem
    rcases hmem with rfl | rfl | rfl | rfl
    · exact h1
    · exact h2
    · exact h3
    · exact h4
  unfold extractMatches
  simp only [hsel, List.length_nil, if_true]
  rw [fallbackLoop_of_occurrences now _ ws hws _ 0 [] (Nat.lt_succ_self _) rfl,
    List.nil_append, fallbackRecordsFrom_eq]
  rfl

/-- C10: for every loaded page in which no match-item selector has, among its first
20 elements, one with both a champion and a KDA text, `recentMatches` consists of
the first `min(10, m)` of the `m` leftmost non-overlapping occurrences of digits `/`
digits `/` digits in the text of the page, in text order, each as a record with
champion `Unknown`, result `Unknown` and the occurrence as `kda`; when the
occurrences are three times `7/2/5`, there are exactly 3 records. -/
theorem C10_fallback_scan (call : Call) (summonerName : String) (doc : Document)
    (hloaded : call.outcome = Outcome.loaded doc)
    (h1 : NoAcceptedMatch doc.gameItem) (h2 : NoAcceptedMatch doc.gameItemTestid)
    (h3 : NoAcceptedMatch doc.gameItemWrap) (h4 : NoAcceptedMatch doc.matchItem) :
    ∃ ws : List (List Char),
      Occurrences doc.text.toList ws ∧
      (∀ ws1, Occurrences doc.text.toList ws1 → ws1 = ws) ∧
      (scrapePlayerStats call summonerName).recentMatches =
        (ws.take 10).enum.map (fun p => fallbackRecord call.now p.1 p.2) ∧
      (scrapePlayerStats call summonerName).recentMatches.length = min 10 ws.length ∧
      (∀ r ∈ (scrapePlayerStats call summonerName).recentMatches,
        r.champion = "Unknown" ∧ r.result = "Unknown" ∧
          ∃ w ∈ ws.take 10, r.kda = String.mk w) ∧
      (ws = ["7/2/5".toList, "7/2/5".toList, "7/2/5".toList] →
        (scrapePlayerStats call summonerName).recentMatches.length = 3 ∧
          (scrapePlayerStats call summonerName).recentMatches.map (fun r => r.champion) =
            ["Unknown", "Unknown", "Unknown"]) := by
  obtain ⟨ws, hws⟩ := occurrences_exist doc.text.toList
  have hrec : (scrapePlayerStats call summonerName).recentMatches =
      (ws.take 10).enum.map (fun p => fallbackRecord call.now p.1 p.2) := by
    unfold scrapePlayerStats
    rw [hloaded]
    exact extractMatches_fallback call.now doc ws h1 h2 h3 h4 hws
  refine ⟨ws, hws, fun ws1 h => occurrences_unique _ ws ws1 hws h, hrec, ?_, ?_, ?_⟩
  · rw [hrec]
    simp [List.enum]
  · intro r hr
    rw [hrec, List.mem_map] at hr
    obtain ⟨p, hp, rfl⟩ := hr
    refine ⟨rfl, rfl, p.2, ?_, rfl⟩
    have hp2 : (p.1, p.2) ∈ (ws.take 10).enum := hp
    obtain ⟨hlt, helem⟩ := List.mem_enum hp2
    rw [helem]
    exact List.getElem_mem hlt
  · intro hthree
    rw [hrec, hthree]
    exact ⟨rfl, rfl⟩

/-- C10 at `samplePage`, which has no match item and whose text holds `7/2/5` three
times: the three records of the scan. -/
theorem C10_fallback_scan_witness :
    (∃ ws : List (List Char),
      Occurrences samplePage.text.toList ws ∧
      (scrapePlayerStats (sampleWorld 0) "A").recentMatches =
        (ws.take 10).enum.map (fun p => fallbackRecord (sampleWorld 0).now p.1 p.2)) ∧
      (scrapePlayerStats (sampleWorld 0) "A").recentMatches.map (fun r => r.kda) =
        ["7/2/5", "7/2/5", "7/2/5"] :=
  have hempty : NoAcceptedMatch [] := fun _ he => absurd he (List.not_mem_nil _)
  have h := C10_fallback_scan (sampleWorld 0) "A" samplePage rfl hempty hempty hempty hempty
  ⟨h.elim fun ws hws => ⟨ws, hws.1, hws.2.2.1⟩, by decide⟩

/-! ## C11: the first selector with an accepted candidate wins -/

theorem truthy_iff (s : String) : truthy s = (s != "") := rfl

theorem orElse_unknown (s : String) :
    orElse s "Unknown" = if s = "" then "Unknown" else s := by
  unfold orElse truthy
  by_cases h : s = ""
  · simp [h]
  · simp [h]

theorem eachElement_triples (now : Nat → Int) (elements : List MatchElement) (i : Nat)
    (st : Extraction) :
    (eachElement now elements i st).recentMatches.map MatchRecord.triple =
        st.recentMatches.map MatchRecord.triple ++
          ((elements.take (20 - i)).filter IsAccepted).map candidateTriple ∧
      (eachElement now elements i st).matchesFound =
        (st.matchesFound || (elements.take (20 - i)).any IsAccepted) := by
  induction elements generalizing i st with
  | nil => simp [eachElement]
  | cons e es ih =>
    unfold eachElement
    by_cases hi : i ≥ 20
    · have hz : 20 - i = 0 := by omega
      rw [if_pos hi, hz]
      simp
    · rw [if_neg hi]
      have hstep : 20 - i = (20 - (i + 1)) + 1 := by omega
      rw [hstep, List.take_succ_cons]
      by_cases hacc : IsAccepted e = true
      · have hcond : (truthy e.champion && truthy e.kdaElement) = true := hacc
        rw [hcond, if_pos rfl]
        obtain ⟨h1, h2⟩ := ih (i + 1)
          { recentMatches := st.recentMatches ++
              [{ champion := e.champion, kda := e.kdaElement
                 result := orElse e.resultText "Unknown"
                 timestamp := now st.recentMatches.length - (i : Int) * 1800000 }]
            matchesFound := true }
        refine ⟨?_, ?_⟩
        · rw [h1, List.filter_cons_of_pos hacc]
          simp [MatchRecord.triple, candidateTriple, orElse_unknown]
        · rw [h2]
          simp [hacc]
      · have hacc2 : IsAccepted e = false := by simpa using hacc
        have hcond : (truthy e.champion && truthy e.kdaElement) = false := hacc2
        rw [hcond]
        simp only [Bool.false_eq_true, if_false]
        obtain ⟨h1, h2⟩ := ih (i + 1) st
        refine ⟨?_, ?_⟩
        · rw [h1, List.filter_cons_of_neg hacc]
        · rw [h2]
          simp [hacc2]

theorem noAcceptedMatch_iff (elements : List MatchElement) :
    NoAcceptedMatch elements ↔ (elements.take 20).any IsAccepted = false := by
  unfold NoAcceptedMatch
  rw [List.any_eq_false]
  constructor
  · intro h e he hacc
    have h2 : (truthy e.champion && truthy e.kdaElement) = true := hacc
    rw [Bool.and_eq_true] at h2
    exact h e he h2
  · intro h e he hboth
    apply h e he
    show (truthy e.champion && truthy e.kdaElement) = true
    rw [Bool.and_eq_true]
    exact hboth

theorem trySelectors_first (now : Nat → Int) (earlier later : List (List MatchElement))
    (elements : List MatchElement) (hearlier : ∀ l ∈ earlier, NoAcceptedMatch l)
    (hsome : ¬ NoAcceptedMatch elements) :
    (trySelectors now (earlier ++ elements :: later)
        { recentMatches := [], matchesFound := false }).recentMatches.map MatchRecord.triple =
      ((elements.take 20).filter IsAccepted).map candidateTriple := by
  induction earlier with
  | nil =>
    rw [List.nil_append]
    unfold trySelectors
    obtain ⟨h1, h2⟩ := eachElement_triples now elements 0
      { recentMatches := [], matchesFound := false }
    have hany : (elements.take 20).any IsAccepted = true := by
      cases h : (elements.take 20).any IsAccepted with
      | true => rfl
      | false => exact absurd ((noAcceptedMatch_iff elements).2 h) hsome
    have hfound : (eachElement now elements 0
        { recentMatches := [], matchesFound := false }).matchesFound = true := by
      rw [h2]
      simp only [Nat.sub_zero, Bool.false_or]
      exact hany
    simp only [hfound, if_true]
    rw [h1]
    simp
  | cons l ls ih =>
    rw [List.cons_append]
    unfold trySelectors
    have hl : eachElement now l 0 { recentMatches := [], matchesFound := false } =
        { recentMatches := [], matchesFound := false } :=
      eachElement_of_none now l 0 _ (hearlier l (List.mem_cons_self _ _))
    simp only [hl, Bool.false_eq_true, if_false]
    exact ih fun x hx => hearlier x (List.mem_cons_of_mem _ hx)

/-- C11: for every loaded page, with the four match-item selectors in their order, if
a selector has an accepted candidate (champion and KDA text both non-empty) among
its first 20 elements and no selector before it has one, then `recentMatches` holds
exactly the accepted candidates among the first 20 elements of that selector, in
element order, an empty result being replaced by `Unknown`; no candidate of the
other selectors is included, and there are at most 20 records. -/
theorem C11_first_selector_wins (call : Call) (summonerName : String) (doc : Document)
    (earlier later : List (List MatchElement)) (elements : List MatchElement)
    (hloaded : call.outcome = Outcome.loaded doc)
    (hselectors : [doc.gameItem, doc.gameItemTestid, doc.gameItemWrap, doc.matchItem] =
      earlier ++ elements :: later)
    (hearlier : ∀ l ∈ earlier, ∀ e ∈ l.take 20, ¬ (e.champion ≠ "" ∧ e.kdaElement ≠ ""))
    (hsome : ∃ e ∈ elements.take 20, e.champion ≠ "" ∧ e.kdaElement ≠ "") :
    (scrapePlayerStats call summonerName).recentMatches.map MatchRecord.triple =
        ((elements.take 20).filter IsAccepted).map candidateTriple ∧
      (scrapePlayerStats call summonerName).recentMatches.length ≤ 20 ∧
      (scrapePlayerStats call summonerName).recentMatches ≠ [] := by
  have htruthy : ∀ s : String, truthy s = true ↔ s ≠ "" := by
    intro s
    simp [truthy]
  have hearlier2 : ∀ l ∈ earlier, NoAcceptedMatch l := by
    intro l hl e he hboth
    exact hearlier l hl e he ⟨(htruthy _).1 hboth.1, (htruthy _).1 hboth.2⟩
  have hsome2 : ¬ NoAcceptedMatch elements := by
    intro hno
    obtain ⟨e, he, h1, h2⟩ := hsome
    exact hno e he ⟨(htruthy _).2 h1, (htruthy _).2 h2⟩
  have htriples := trySelectors_first call.now earlier later elements hearlier2 hsome2
  rw [← hselectors] at htriples
  have hne : ((elements.take 20).filter IsAccepted) ≠ [] := by
    obtain ⟨e, he, h1, h2⟩ := hsome
    intro h
    have hmem : e ∈ (elements.take 20).filter IsAccepted := by
      rw [List.mem_filter]
      refine ⟨he, ?_⟩
      simp [IsAccepted, h1, h2]
    rw [h] at hmem
    exact List.not_mem_nil _ hmem
  have hlen : (trySelectors call.now
      [doc.gameItem, doc.gameItemTestid, doc.gameItemWrap, doc.matchItem]
      { recentMatches := [], matchesFound := false }).recentMatches.length =
      ((elements.take 20).filter IsAccepted).length := by
    have h := congrArg List.length htriples
    simpa using h
  have hpos : 0 < ((elements.take 20).filter IsAccepted).length := List.length_pos.2 hne
  have hrec : (scrapePlayerStats call summonerName).recentMatches =
      (trySelectors call.now
        [doc.gameItem, doc.gameItemTestid, doc.gameItemWrap, doc.matchItem]
        { recentMatches := [], matchesFound := false }).recentMatches := by
    unfold scrapePlayerStats
    rw [hloaded]
    simp only [extractMatches]
    rw [if_neg]
    rw [hlen]
    omega
  rw [hrec]
  refine ⟨htriples, ?_, ?_⟩
  · rw [hlen]
    calc ((elements.take 20).filter IsAccepted).length
        ≤ (elements.take 20).length := List.length_filter_le _ _
      _ ≤ 20 := by simp
  · intro h
    rw [h] at hlen
    simp only [List.length_nil] at hlen
    omega

/-- C11 at `sampleItemsPage`: the second selector wins, its element without KDA text is
left out, and the element of the fourth selector is not included. -/
theorem C11_first_selector_wins_witness :
    (scrapePlayerStats sampleItemsCall "A").recentMatches.map MatchRecord.triple =
        ((sampleItemsPage.gameItemTestid.take 20).filter IsAccepted).map candidateTriple ∧
      (scrapePlayerStats sampleItemsCall "A").recentMatches.map MatchRecord.triple =
        [("Ahri", "1/2/3", "Victory"), ("Lux", "4/0/6", "Unknown")] :=
  ⟨(C11_first_selector_wins sampleItemsCall "A" sampleItemsPage [sampleItemsPage.gameItem]
      [sampleItemsPage.gameItemWrap, sampleItemsPage.matchItem] sampleItemsPage.gameItemTestid
      rfl rfl
      (by
        intro l hl e he
        simp only [List.mem_singleton] at hl
        subst hl
        simp only [sampleItemsPage, List.take_succ_cons, List.take_nil, List.mem_singleton] at he
        subst he
        decide)
      ⟨sampleElement "Ahri" "1/2/3" "Victory", by simp [sampleItemsPage], by decide⟩).1,
    by decide⟩

/-! ## C12: a failure becomes a record -/

/-- C12: for every name, when the fetch or the parsing fails with a message,
`scrapePlayerStats` returns a record with that name as `summonerName`, `Error` as
level and as rank, no match, and the message in `error`; a loaded page gives a record
of the same name without `error`, so every call returns a record. -/
theorem C12_failure_record (call : Call) (summonerName : String) :
    (∀ message : String, call.outcome = Outcome.failed message →
      (scrapePlayerStats call summonerName).summonerName = summonerName ∧
        (scrapePlayerStats call summonerName).level = "Error" ∧
        (scrapePlayerStats call summonerName).rank = "Error" ∧
        (scrapePlayerStats call summonerName).recentMatches = [] ∧
        (scrapePlayerStats call summonerName).error = some message) ∧
      (∀ doc : Document, call.outcome = Outcome.loaded doc →
        (scrapePlayerStats call summonerName).summonerName = summonerName ∧
          (scrapePlayerStats call summonerName).error = none) := by
  constructor
  · intro message hfailed
    unfold scrapePlayerStats
    rw [hfailed]
    exact ⟨rfl, rfl, rfl, rfl, rfl⟩
  · intro doc hloaded
    unfold scrapePlayerStats
    rw [hloaded]
    exact ⟨rfl, rfl⟩

/-- C12 at the call of index 1 of `sampleWorld`, which fails with a 404. -/
theorem C12_failure_record_witness :
    (sampleWorld 1).outcome = Outcome.failed "Request failed with status code 404" ∧
      (scrapePlayerStats (sampleWorld 1) "B").summonerName = "B" ∧
      (scrapePlayerStats (sampleWorld 1) "B").level = "Error" ∧
      (scrapePlayerStats (sampleWorld 1) "B").rank = "Error" ∧
      (scrapePlayerStats (sampleWorld 1) "B").recentMatches = [] ∧
      (scrapePlayerStats (sampleWorld 1) "B").error =
        some "Request failed with status code 404" :=
  ⟨rfl, (C12_failure_record (sampleWorld 1) "B").1 "Request failed with status code 404" rfl⟩

/-! ## C13: a failure with an empty message -/

/-- C13, at the failing input: the fetch for `B` fails with an error whose message is
empty.  The record of `scrapePlayerStats` carries `error = ""`, the test
`if (player.error)` does not hold for it, and `calculateMemeStats` makes `B` a key of
`players` and of `memeStats`, with the level `Error`. -/
theorem C13_empty_message_is_aggregated :
    sampleSilentFailure.outcome = Outcome.failed "" ∧
      (scrapePlayerStats sampleSilentFailure "B").error = some "" ∧
      hasError (scrapePlayerStats sampleSilentFailure "B") = false ∧
      "B" ∈ (calculateMemeStats [scrapePlayerStats sampleSilentFailure "B"]).players.keys ∧
      "B" ∈ (calculateMemeStats [scrapePlayerStats sampleSilentFailure "B"]).memeStats.keys ∧
      ((calculateMemeStats [scrapePlayerStats sampleSilentFailure "B"]).players.get "B").map
        (fun info => info.level) = some "Error" := by
  refine ⟨rfl, rfl, rfl, ?_, ?_, rfl⟩
  · exact ((mem_keys_foldl_processPlayer _ _ "B").1).2
      (Or.inr ⟨by decide, _, List.mem_singleton_self _, rfl, rfl⟩)
  · exact ((mem_keys_foldl_processPlayer _ _ "B").2).2
      (Or.inr ⟨by decide, _, List.mem_singleton_self _, rfl, rfl⟩)

/-! ## C14: the key sets of the snapshot -/

theorem JSObject.get_isSome_of_mem_keys {α : Type} (o : JSObject α) (x : String)
    (h : x ∈ JSObject.keys o) : ∃ v, JSObject.get o x = some v := by
  induction o with
  | nil => simp [JSObject.keys] at h
  | cons hd tl ih =>
    obtain ⟨k0, v0⟩ := hd
    rw [JSObject.get_cons]
    by_cases h1 : x = k0
    · exact ⟨v0, by rw [if_pos h1]⟩
    · rw [if_neg h1]
      simp only [JSObject.keys, List.map_cons, List.mem_cons] at h
      rcases h with h | h
      · exact absurd h h1
      · exact ih h

theorem mem_keys_calculateMemeStats (playersData : List PlayerRecord) (x : String) :
    (x ∈ (calculateMemeStats playersData).players.keys ↔
      x ≠ "__proto__" ∧ ∃ p ∈ playersData, hasError p = false ∧ p.summonerName = x) ∧
    (x ∈ (calculateMemeStats playersData).memeStats.keys ↔
      x ≠ "__proto__" ∧ ∃ p ∈ playersData, hasError p = false ∧ p.summonerName = x) := by
  obtain ⟨h1, h2⟩ := mem_keys_foldl_processPlayer playersData
    { players := [], memeStats := [] } x
  unfold calculateMemeStats
  constructor
  · rw [h1]
    simp [JSObject.keys]
  · rw [h2]
    simp [JSObject.keys]

theorem mem_keys_foldl_set {α : Type} (f : String → α) (names : List String)
    (o : JSObject α) (x : String) :
    x ∈ (names.foldl (fun acc name => acc.set name (f name)) o).keys ↔
      x ∈ JSObject.keys o ∨ (x ∈ names ∧ x ≠ "__proto__") := by
  induction names generalizing o with
  | nil => simp
  | cons n ns ih =>
    simp only [List.foldl_cons]
    rw [ih, JSObject.mem_keys_set, List.mem_cons]
    constructor
    · rintro ((h | ⟨h1, h2⟩) | ⟨h1, h2⟩)
      · exact Or.inl h
      · exact Or.inr ⟨Or.inl h1, by rw [h1]; exact h2⟩
      · exact Or.inr ⟨Or.inr h1, h2⟩
    · rintro (h | ⟨h1 | h1, h2⟩)
      · exact Or.inl (Or.inl h)
      · exact Or.inl (Or.inr ⟨h1, by rw [← h1]; exact h2⟩)
      · exact Or.inr ⟨h1, h2⟩

theorem get_foldl_set {α : Type} (f : String → α) (names : List String) (o : JSObject α)
    (x : String) (h : JSObject.get o x = some (f x) ∨ (x ∈ names ∧ x ≠ "__proto__")) :
    (names.foldl (fun acc name => acc.set name (f name)) o).get x = some (f x) := by
  induction names generalizing o with
  | nil =>
    rcases h with h | h
    · exact h
    · exact absurd h.1 (List.not_mem_nil _)
  | cons n ns ih =>
    simp only [List.foldl_cons]
    apply ih
    by_cases hx : x = n ∧ n ≠ "__proto__"
    · left
      rw [JSObject.get_set, if_pos hx, hx.1]
    · rcases h with h | ⟨h1, h2⟩
      · left
        rw [JSObject.get_set, if_neg hx]
        exact h
      · rcases List.mem_cons.1 h1 with h3 | h3
        · exact absurd ⟨h3, by rw [← h3]; exact h2⟩ hx
        · exact Or.inr ⟨h3, h2⟩

theorem mem_keys_categorize (memeStats : JSObject MemeStats) (stats : EnhancedStats)
    (k x : String) :
    (x ∈ (categorize memeStats stats k).death_rate_category.keys ↔
      x ∈ stats.death_rate_category.keys ∨
        (x = k ∧ k ≠ "__proto__" ∧ ∃ e, memeStats.get k = some e)) ∧
    (x ∈ (categorize memeStats stats k).kda_category.keys ↔
      x ∈ stats.kda_category.keys ∨
        (x = k ∧ k ≠ "__proto__" ∧ ∃ e, memeStats.get k = some e)) := by
  unfold categorize
  cases hk : memeStats.get k with
  | none => simp
  | some e => simp [JSObject.mem_keys_set]

theorem mem_keys_foldl_categorize (memeStats : JSObject MemeStats) (names : List String)
    (stats : EnhancedStats) (x : String) :
    (x ∈ (names.foldl (categorize memeStats) stats).death_rate_category.keys ↔
      x ∈ stats.death_rate_category.keys ∨
        (x ∈ names ∧ x ≠ "__proto__" ∧ ∃ e, memeStats.get x = some e)) ∧
    (x ∈ (names.foldl (categorize memeStats) stats).kda_category.keys ↔
      x ∈ stats.kda_category.keys ∨
        (x ∈ names ∧ x ≠ "__proto__" ∧ ∃ e, memeStats.get x = some e)) := by
  induction names generalizing stats with
  | nil => simp
  | cons n ns ih =>
    simp only [List.foldl_cons]
    obtain ⟨i1, i2⟩ := ih (categorize memeStats stats n)
    obtain ⟨c1, c2⟩ := mem_keys_categorize memeStats stats n x
    constructor
    · rw [i1, c1, List.mem_cons]
      constructor
      · rintro ((h | ⟨h1, h2, h3⟩) | ⟨h1, h2, h3⟩)
        · exact Or.inl h
        · exact Or.inr ⟨Or.inl h1, by rw [h1]; exact h2, by rw [h1]; exact h3⟩
        · exact Or.inr ⟨Or.inr h1, h2, h3⟩
      · rintro (h | ⟨h1 | h1, h2, h3⟩)
        · exact Or.inl (Or.inl h)
        · exact Or.inl (Or.inr ⟨h1, by rw [← h1]; exact h2, by rw [← h1]; exact h3⟩)
        · exact Or.inr ⟨h1, h2, h3⟩
    · rw [i2, c2, List.mem_cons]
      constructor
      · rintro ((h | ⟨h1, h2, h3⟩) | ⟨h1, h2, h3⟩)
        · exact Or.inl h
        · exact Or.inr ⟨Or.inl h1, by rw [h1]; exact h2, by rw [h1]; exact h3⟩
        · exact Or.inr ⟨Or.inr h1, h2, h3⟩
      · rintro (h | ⟨h1 | h1, h2, h3⟩)
        · exact Or.inl (Or.inl h)
        · exact Or.inl (Or.inr ⟨h1, by rw [← h1]; exact h2, by rw [← h1]; exact h3⟩)
        · exact Or.inr ⟨h1, h2, h3⟩

theorem core_foldl_categorize (memeStats : JSObject MemeStats) (names : List String)
    (stats : EnhancedStats) : (names.foldl (categorize memeStats) stats).core = stats.core := by
  induction names generalizing stats with
  | nil => rfl
  | cons n ns ih =>
    simp only [List.foldl_cons]
    rw [ih]
    unfold categorize
    cases memeStats.get n <;> rfl

/-- The keys of every mapping built by `calculateEnhancedMemeStats`, for statistics
in which `__proto__` is no key. -/
theorem mem_keys_calculateEnhancedMemeStats (processedStats : Stats) (x : String)
    (hproto : "__proto__" ∉ processedStats.memeStats.keys) :
    (∀ statType ∈ statTypes, ∃ mapping : JSObject JSNumber,
      (calculateEnhancedMemeStats processedStats).core.get statType = some mapping ∧
        (x ∈ mapping.keys ↔ x ∈ processedStats.memeStats.keys)) ∧
    (x ∈ (calculateEnhancedMemeStats processedStats).death_rate_category.keys ↔
      x ∈ processedStats.memeStats.keys) ∧
    (x ∈ (calculateEnhancedMemeStats processedStats).kda_category.keys ↔
      x ∈ processedStats.memeStats.keys) := by
  have hne : x ∈ processedStats.memeStats.keys → x ≠ "__proto__" := by
    intro hx h
    rw [h] at hx
    exact hproto hx
  refine ⟨?_, ?_, ?_⟩
  · intro statType hst
    have hst2 : statType ≠ "__proto__" := by
      intro h
      rw [h] at hst
      exact absurd hst (by decide)
    refine ⟨List.foldl
      (fun (o : JSObject JSNumber) player =>
        JSObject.set o player (statValue processedStats.memeStats player statType))
      [] processedStats.memeStats.keys, ?_, ?_⟩
    · simp only [calculateEnhancedMemeStats]
      rw [core_foldl_categorize]
      exact get_foldl_set
        (fun statType => List.foldl
          (fun (o : JSObject JSNumber) player =>
            JSObject.set o player (statValue processedStats.memeStats player statType))
          [] processedStats.memeStats.keys)
        statTypes [] statType (Or.inr ⟨hst, hst2⟩)
    · rw [mem_keys_foldl_set (fun player => statValue processedStats.memeStats player statType)]
      constructor
      · rintro (h | ⟨h, _⟩)
        · simp [JSObject.keys] at h
        · exact h
      · intro h
        exact Or.inr ⟨h, hne h⟩
  · simp only [calculateEnhancedMemeStats]
    rw [(mem_keys_foldl_categorize _ _ _ x).1]
    constructor
    · rintro (h | ⟨h, _, _⟩)
      · simp [JSObject.keys] at h
      · exact h
    · intro h
      exact Or.inr ⟨h, hne h, JSObject.get_isSome_of_mem_keys _ _ h⟩
  · simp only [calculateEnhancedMemeStats]
    rw [(mem_keys_foldl_categorize _ _ _ x).2]
    constructor
    · rintro (h | ⟨h, _, _⟩)
      · simp [JSObject.keys] at h
      · exact h
    · intro h
      exact Or.inr ⟨h, hne h, JSObject.get_isSome_of_mem_keys _ _ h⟩

/-- C14: for every list of player records, a name is a key of `players` exactly when
it is a key of `memeStats` in the result of `calculateMemeStats`, and each of the
seven per-metric mappings and the two categorical mappings that
`calculateEnhancedMemeStats` builds from that result has exactly the keys of
`memeStats`. -/
theorem C14_key_sets (playersData : List PlayerRecord) (x : String) :
    (x ∈ (calculateMemeStats playersData).players.keys ↔
      x ∈ (calculateMemeStats playersData).memeStats.keys) ∧
    statTypes.length = 7 ∧ statTypes.Nodup ∧
    (∀ statType ∈ statTypes, ∃ mapping : JSObject JSNumber,
      (calculateEnhancedMemeStats (calculateMemeStats playersData)).core.get statType =
          some mapping ∧
        (x ∈ mapping.keys ↔ x ∈ (calculateMemeStats playersData).memeStats.keys)) ∧
    (x ∈ (calculateEnhancedMemeStats (calculateMemeStats playersData)).death_rate_category.keys ↔
      x ∈ (calculateMemeStats playersData).memeStats.keys) ∧
    (x ∈ (calculateEnhancedMemeStats (calculateMemeStats playersData)).kda_category.keys ↔
      x ∈ (calculateMemeStats playersData).memeStats.keys) := by
  obtain ⟨h1, h2⟩ := mem_keys_calculateMemeStats playersData x
  have hproto : "__proto__" ∉ (calculateMemeStats playersData).memeStats.keys := by
    intro h
    exact ((mem_keys_calculateMemeStats playersData "__proto__").2.1 h).1 rfl
  obtain ⟨e1, e2, e3⟩ := mem_keys_calculateEnhancedMemeStats (calculateMemeStats playersData) x
    hproto
  exact ⟨by rw [h1, h2], rfl, by decide, e1, e2, e3⟩

/-- C14 at three records, the second one failed: `A` is a key of the winrate mapping
and `B` is a key of no mapping. -/
theorem C14_key_sets_witness :
    ("A" ∈ (calculateMemeStats
        [sampleLoaded "A" "50%" [], sampleFailed "B" "timeout of 15000ms exceeded",
         sampleLoaded "C" "40%" []]).players.keys ↔
      "A" ∈ (calculateMemeStats
        [sampleLoaded "A" "50%" [], sampleFailed "B" "timeout of 15000ms exceeded",
         sampleLoaded "C" "40%" []]).memeStats.keys) ∧
    ("B" ∈ (calculateEnhancedMemeStats (calculateMemeStats
        [sampleLoaded "A" "50%" [], sampleFailed "B" "timeout of 15000ms exceeded",
         sampleLoaded "C" "40%" []])).kda_category.keys ↔
      "B" ∈ (calculateMemeStats
        [sampleLoaded "A" "50%" [], sampleFailed "B" "timeout of 15000ms exceeded",
         sampleLoaded "C" "40%" []]).memeStats.keys) :=
  ⟨(C14_key_sets _ "A").1, (C14_key_sets _ "B").2.2.2.2.2⟩

/-! ## The matcher on the winrate pattern -/

theorem isDigit_percent : isDigit '%' = false := by decide

/-- What `(\d+)%` matches at the head of a text. -/
theorem matchHere_winrate (s : List Char) (m : MatchResult)
    (h : matchHere winrateRegex s = some m) :
    digitRun s ≠ [] ∧ m.groups = [digitRun s] ∧
      s = digitRun s ++ '%' :: m.rest := by
  unfold winrateRegex at h
  rw [matchHere_digits_lit _ _ _ isDigit_percent] at h
  by_cases ha : digitRun s = []
  · rw [if_pos ha] at h
    exact Option.noConfusion h
  rw [if_neg ha] at h
  cases h1 : matchHere [Atom.lit '%'] (s.dropWhile isDigit) with
  | none => simp [h1] at h
  | some m1 =>
    rw [h1] at h
    simp only [Option.map_some', Option.some.injEq] at h
    obtain ⟨t, m2, hs, h2, hm1⟩ := matchHere_lit_some _ _ _ _ h1
    rw [matchHere] at h2
    simp only [Option.some.injEq] at h2
    have e1 : s = digitRun s ++ s.dropWhile isDigit :=
      (List.takeWhile_append_dropWhile isDigit s).symm
    refine ⟨ha, ?_, ?_⟩
    · rw [← h, hm1, ← h2]
    · rw [← h, hm1, ← h2]
      simp only
      rw [← hs]
      exact e1

theorem matchHere_winrate_of_shape (ds post : List Char) (hds : IsDigits ds) :
    matchHere winrateRegex (ds ++ '%' :: post) = some ⟨ds ++ ['%'], [ds], post⟩ := by
  have r1 := digitRun_cons_of_not '%' post isDigit_percent
  have ea : digitRun (ds ++ '%' :: post) = ds := by
    rw [digitRun_append _ _ hds.2, r1.1, List.append_nil]
  have da : (ds ++ '%' :: post).dropWhile isDigit = '%' :: post := by
    rw [dropWhile_append _ _ hds.2, r1.2]
  unfold winrateRegex
  rw [matchHere_digits_lit _ _ _ isDigit_percent, ea, if_neg hds.1, da, matchHere, if_pos rfl,
    matchHere]
  rfl

theorem hasDigitBeforePercent_of_match (s : List Char) (m : MatchResult)
    (h : matchHere winrateRegex s = some m) : HasDigitBeforePercent s := by
  obtain ⟨hne, _, hs⟩ := matchHere_winrate s m h
  rcases List.eq_nil_or_concat (digitRun s) with h0 | ⟨r0, d, hrun⟩
  · exact absurd h0 hne
  · rw [List.concat_eq_append] at hrun
    have hd : isDigit d = true := by
      have hmem : d ∈ digitRun s := by
        rw [hrun]
        simp
      exact List.mem_takeWhile_imp hmem
    refine ⟨r0, d, m.rest, ?_, hd⟩
    rw [hrun] at hs
    simpa using hs

theorem hasDigitBeforePercent_cons (c : Char) (cs : List Char)
    (h : HasDigitBeforePercent cs) : HasDigitBeforePercent (c :: cs) := by
  obtain ⟨u, d, v, hsplit, hd⟩ := h
  exact ⟨c :: u, d, v, by rw [hsplit]; rfl, hd⟩

/-- Without a digit followed by `%`, the search finds nothing. -/
theorem exec_winrate_none (t : List Char) (h : ¬ HasDigitBeforePercent t) :
    exec winrateRegex t = none := by
  induction t with
  | nil =>
    unfold exec
    cases hm : matchHere winrateRegex [] with
    | none => rfl
    | some m => exact absurd (hasDigitBeforePercent_of_match _ _ hm) h
  | cons c cs ih =>
    have hnone : matchHere winrateRegex (c :: cs) = none := by
      cases hm : matchHere winrateRegex (c :: cs) with
      | none => rfl
      | some m => exact absurd (hasDigitBeforePercent_of_match _ _ hm) h
    rw [exec_cons_of_none _ _ _ hnone]
    exact ih fun hcs => h (hasDigitBeforePercent_cons c cs hcs)

/-- The search returns the digits that precede the first `%` preceded by a digit. -/
theorem exec_winrate_first (pre ds post : List Char) (hds : IsDigits ds)
    (hpre : ∀ p x, pre = p ++ [x] → isDigit x = false)
    (hfirst : ¬ HasDigitBeforePercent pre) :
    exec winrateRegex (pre ++ ds ++ '%' :: post) = some ⟨ds ++ ['%'], [ds], post⟩ := by
  induction pre with
  | nil =>
    rw [List.nil_append]
    exact exec_of_matchHere _ _ _ (matchHere_winrate_of_shape ds post hds)
  | cons x pre1 ih =>
    have hnone : matchHere winrateRegex (x :: pre1 ++ ds ++ '%' :: post) = none := by
      cases hm : matchHere winrateRegex (x :: pre1 ++ ds ++ '%' :: post) with
      | none => rfl
      | some m =>
        exfalso
        obtain ⟨hne, _, hs⟩ := matchHere_winrate _ m hm
        have hall : ∀ y ∈ digitRun (x :: pre1 ++ ds ++ '%' :: post), isDigit y = true :=
          fun y hy => List.mem_takeWhile_imp hy
        generalize digitRun (x :: pre1 ++ ds ++ '%' :: post) = run at hne hs hall
        have hs2 : (x :: pre1) ++ (ds ++ '%' :: post) = run ++ '%' :: m.rest := by
          rw [← hs]
          simp
        rcases List.append_eq_append_iff.1 hs2 with ⟨a, hrun, htail⟩ | ⟨c, hpre1, htail⟩
        · -- the run of digits covers the whole of `pre`
          rcases List.eq_nil_or_concat (x :: pre1) with h0 | ⟨p, y, hp⟩
          · exact List.cons_ne_nil _ _ h0
          · rw [List.concat_eq_append] at hp
            have hy := hpre p y hp
            have hmem : y ∈ run := by
              rw [hrun, hp]
              simp
            rw [hall y hmem] at hy
            exact Bool.noConfusion hy
        · -- the `%` of the match lies in `pre`
          cases c with
          | nil =>
            rw [List.append_nil] at hpre1
            rcases List.eq_nil_or_concat (x :: pre1) with h0 | ⟨p, y, hp⟩
            · exact List.cons_ne_nil _ _ h0
            · rw [List.concat_eq_append] at hp
              have hy := hpre p y hp
              have hmem : y ∈ run := by
                rw [← hpre1, hp]
                simp
              rw [hall y hmem] at hy
              exact Bool.noConfusion hy
          | cons z c1 =>
            have hz : z = '%' := by
              have h1 := congrArg List.head? htail
              simpa using h1.symm
            rcases List.eq_nil_or_concat run with h0 | ⟨r0, d, hr⟩
            · exact hne h0
            · rw [List.concat_eq_append] at hr
              have hd : isDigit d = true := hall d (by rw [hr]; simp)
              apply hfirst
              refine ⟨r0, d, c1, ?_, hd⟩
              rw [hpre1, hr, hz]
              simp
    have hstep : exec winrateRegex (x :: pre1 ++ ds ++ '%' :: post) =
        exec winrateRegex (pre1 ++ ds ++ '%' :: post) := by
      have h2 : x :: pre1 ++ ds ++ '%' :: post = x :: (pre1 ++ ds ++ '%' :: post) := by simp
      rw [h2] at hnone ⊢
      exact exec_cons_of_none _ _ _ hnone
    rw [hstep]
    apply ih
    · intro p y hp
      exact hpre (x :: p) y (by rw [hp]; rfl)
    · intro h
      exact hfirst (hasDigitBeforePercent_cons x pre1 h)

/-! ## C15 and C16: records without parsed KDA, and the raw match count -/

theorem winrateNum_of_shape (winrate : String) (pre ds post : List Char)
    (hsplit : winrate.toList = pre ++ ds ++ '%' :: post) (hds : IsDigits ds)
    (hpre : ∀ p x, pre = p ++ [x] → isDigit x = false)
    (hfirst : ¬ HasDigitBeforePercent pre) :
    winrateNum winrate = toDouble ((decimalValue ds : ℕ) : ℚ) := by
  unfold winrateNum
  rw [hsplit, exec_winrate_first pre ds post hds hpre hfirst]
  exact parseInt_eq_toDouble ds

theorem winrateNum_of_none (winrate : String) (h : ¬ HasDigitBeforePercent winrate.toList) :
    winrateNum winrate = JSNumber.finite 0 := by
  unfold winrateNum
  rw [exec_winrate_none _ h]

/-- C15, as binary64 arithmetic has it: for every player record without error none of
whose matches has a parseable KDA string (a record without matches included), the
derived winrate is the binary64 value nearest to the integer written by the digits
immediately preceding the first `%` that is preceded by a digit in the textual
winrate field, which is that integer itself when it is at most `2^53`; it is `0`
when the field holds no digit followed by `%`. -/
theorem C15_textual_winrate (player : PlayerRecord) (herr : hasError player = false)
    (hnone : ∀ m ∈ player.recentMatches, parseKda m = none) :
    (∀ stats : Stats, (processPlayer stats player).memeStats =
        stats.memeStats.set player.summonerName (derivedStats player)) ∧
      (∀ pre ds post : List Char, player.winrate.toList = pre ++ ds ++ '%' :: post →
        IsDigits ds → (∀ p x, pre = p ++ [x] → isDigit x = false) →
        ¬ HasDigitBeforePercent pre →
        (derivedStats player).winrate = toDouble ((decimalValue ds : ℕ) : ℚ) ∧
          (decimalValue ds ≤ 2 ^ 53 →
            (derivedStats player).winrate = JSNumber.finite ((decimalValue ds : ℕ) : ℚ))) ∧
      (¬ HasDigitBeforePercent player.winrate.toList →
        (derivedStats player).winrate = JSNumber.finite 0) := by
  have hstats := memeStatsOf_unparsed (winrateNum player.winrate) player.recentMatches
    (parsedKdas_eq_nil _ hnone)
  refine ⟨fun stats => processPlayer_memeStats stats player herr, ?_, ?_⟩
  · intro pre ds post hsplit hds hpre hfirst
    have hrate : (derivedStats player).winrate = toDouble ((decimalValue ds : ℕ) : ℚ) := by
      unfold derivedStats
      rw [hstats, winrateNum_of_shape player.winrate pre ds post hsplit hds hpre hfirst]
    refine ⟨hrate, fun hsmall => ?_⟩
    rw [hrate, toDouble_natCast _ hsmall]
  · intro hno
    unfold derivedStats
    rw [hstats, winrateNum_of_none player.winrate hno]

/-- C15 at `sampleTextual`, whose winrate text is `Win Rate 55%`. -/
theorem C15_textual_winrate_witness :
    sampleTextual.winrate.toList = "Win Rate ".toList ++ "55".toList ++ '%' :: [] ∧
      decimalValue "55".toList = 55 ∧
      (derivedStats sampleTextual).winrate =
        JSNumber.finite ((decimalValue "55".toList : ℕ) : ℚ) :=
  ⟨rfl, by decide,
    ((C15_textual_winrate sampleTextual rfl
      (by
        intro m hm
        simp only [sampleTextual, sampleLoaded, List.mem_singleton] at hm
        rw [hm]
        decide)).2.1 "Win Rate ".toList "55".toList [] rfl
      ⟨by decide, by decide⟩
      (by
        intro p x hp
        have h := congrArg (fun l => l.reverse.head?) hp
        simp only [List.reverse_append, List.reverse_singleton, List.singleton_append,
          List.head?_cons] at h
        have hx : x = ' ' := by
          have h2 : "Win Rate ".toList.reverse.head? = some ' ' := by decide
          rw [h2] at h
          exact (Option.some.inj h).symm
        rw [hx]
        decide)
      (by
        rintro ⟨u, d, v, hsplit, _⟩
        have hmem : '%' ∈ "Win Rate ".toList := by
          rw [hsplit]
          simp
        exact absurd hmem (by decide))).2 (by decide)⟩

/-- C15 fails as stated: `sampleLongWinrate` has no error and no match, its textual
winrate is the twenty digits `99999999999999999999` followed by `%`, and its derived
winrate is `100000000000000000000`, the binary64 value nearest to the integer that
the digits write. -/
theorem C15_counterexample :
    hasError sampleLongWinrate = false ∧
      sampleLongWinrate.recentMatches = [] ∧
      sampleLongWinrate.winrate.toList = "99999999999999999999".toList ++ ['%'] ∧
      decimalValue "99999999999999999999".toList = 99999999999999999999 ∧
      (derivedStats sampleLongWinrate).winrate = JSNumber.finite 100000000000000000000 ∧
      (derivedStats sampleLongWinrate).winrate ≠
        JSNumber.finite ((decimalValue "99999999999999999999".toList : ℕ) : ℚ) := by
  have hdec : decimalValue "99999999999999999999".toList = 99999999999999999999 := by decide
  have hnum : winrateNum sampleLongWinrate.winrate =
      toDouble ((99999999999999999999 : ℕ) : ℚ) :=
    winrateNum_of_exec sampleLongWinrate.winrate 99999999999999999999 (by decide)
  have hval : toDouble ((99999999999999999999 : ℕ) : ℚ) =
      JSNumber.finite 100000000000000000000 := by
    rw [toDouble_at ((99999999999999999999 : ℕ) : ℚ) (2 ^ 14) 66 6103515625000000 (by norm_num)
      (by norm_num) (by norm_num) (by norm_num) (by norm_num)
      (roundHalfEven_eq_of_abs_lt _ _ (by norm_num [abs_lt])) (by norm_num) (by norm_num)]
    norm_num
  have hrate : (derivedStats sampleLongWinrate).winrate =
      JSNumber.finite 100000000000000000000 := by
    unfold derivedStats
    rw [memeStatsOf_unparsed (winrateNum sampleLongWinrate.winrate)
      sampleLongWinrate.recentMatches rfl, hnum, hval]
  refine ⟨rfl, rfl, rfl, hdec, hrate, ?_⟩
  rw [hrate, hdec]
  intro h
  injection h with h2
  norm_num at h2

/-- C16: for every player record without error, `recent_matches` is the number of
match records of the input, the matches whose KDA string does not parse included. -/
theorem C16_recent_matches (player : PlayerRecord) (herr : hasError player = false) :
    (∀ stats : Stats, (processPlayer stats player).memeStats =
        stats.memeStats.set player.summonerName (derivedStats player)) ∧
      (derivedStats player).recent_matches = player.recentMatches.length ∧
      (∀ (pre post : List MatchRecord) (bad : MatchRecord) (other : PlayerRecord),
        player.recentMatches = pre ++ post → parseKda bad = none →
        other.recentMatches = pre ++ bad :: post →
        (derivedStats other).recent_matches = (derivedStats player).recent_matches + 1) := by
  have hcount : ∀ p : PlayerRecord, (derivedStats p).recent_matches = p.recentMatches.length := by
    intro p
    unfold derivedStats
    by_cases h : parsedKdas p.recentMatches = []
    · rw [memeStatsOf_unparsed _ _ h]
    · rw [memeStatsOf_parsed _ _ h]
  refine ⟨fun stats => processPlayer_memeStats stats player herr, hcount player, ?_⟩
  intro pre post bad other hsplit _ hother
  rw [hcount other, hcount player, hother, hsplit]
  simp only [List.length_append, List.length_cons]
  omega

/-- C16 at `sampleMixed`, one of whose two matches has no parseable KDA text. -/
theorem C16_recent_matches_witness :
    (parsedKdas sampleMixed.recentMatches).length = 1 ∧
      (derivedStats sampleMixed).recent_matches = 2 :=
  ⟨by decide, (C16_recent_matches sampleMixed rfl).2.1⟩

/-! ## C17: the labels depend on the player's own values -/

theorem deathRateCategory_mem (x : JSNumber) : deathRateCategory x ∈ deathRateLabels := by
  unfold deathRateCategory deathRateLabels
  split_ifs <;> simp

theorem kdaCategory_mem (x : JSNumber) : kdaCategory x ∈ kdaLabels := by
  unfold kdaCategory kdaLabels
  split_ifs <;> simp

/-- C17: the `death_rate_category` and the `kda_category` of a player are each one of
five fixed labels, and they are determined by that player's own `average_deaths` and
`kda_ratio`: in any two inputs in which the player has the same `average_deaths` (the
same `kda_ratio`), the player gets the same label, whoever the other players are. -/
theorem C17_labels_depend_on_own_value (first second : Stats) (player : String)
    (e1 e2 : MemeStats) (h1 : first.memeStats.get player = some e1)
    (h2 : second.memeStats.get player = some e2) (hname : player ≠ "__proto__") :
    deathRateLabels.length = 5 ∧ kdaLabels.length = 5 ∧
      (∃ label ∈ deathRateLabels,
        (calculateEnhancedMemeStats first).death_rate_category.get player = some label) ∧
      (∃ label ∈ kdaLabels,
        (calculateEnhancedMemeStats first).kda_category.get player = some label) ∧
      (e1.average_deaths = e2.average_deaths →
        (calculateEnhancedMemeStats first).death_rate_category.get player =
          (calculateEnhancedMemeStats second).death_rate_category.get player) ∧
      (e1.kda_ratio = e2.kda_ratio →
        (calculateEnhancedMemeStats first).kda_category.get player =
          (calculateEnhancedMemeStats second).kda_category.get player) := by
  obtain ⟨d1, k1⟩ := calculateEnhancedMemeStats_labels first player e1 h1 hname
  obtain ⟨d2, k2⟩ := calculateEnhancedMemeStats_labels second player e2 h2 hname
  refine ⟨rfl, rfl, ⟨_, deathRateCategory_mem _, d1⟩, ⟨_, kdaCategory_mem _, k1⟩, ?_, ?_⟩
  · intro h
    rw [d1, d2, h]
  · intro h
    rw [k1, k2, h]

/-- C17 at player `A`, alone in `sampleAlone` and among three players in
`sampleProcessed`, with the same values in both. -/
theorem C17_labels_depend_on_own_value_witness :
    (calculateEnhancedMemeStats sampleAlone).death_rate_category.get "A" =
        (calculateEnhancedMemeStats sampleProcessed).death_rate_category.get "A" ∧
      (calculateEnhancedMemeStats sampleAlone).kda_category.get "A" =
        (calculateEnhancedMemeStats sampleProcessed).kda_category.get "A" :=
  have h := C17_labels_depend_on_own_value sampleAlone sampleProcessed "A" (sampleStats 8 3)
    (sampleStats 8 3) rfl rfl (by decide)
  ⟨h.2.2.2.2.1 rfl, h.2.2.2.2.2 rfl⟩

/-! ## C18: what a call of `checkRateLimit` stores -/

theorem storedTimes_withEntry (rateLimitMap : RateLimitMap) (ip x : String) :
    storedTimes
        (if (rateLimitMap ip).isSome then rateLimitMap
          else Function.update rateLimitMap ip (some [])) x =
      storedTimes rateLimitMap x := by
  unfold storedTimes
  cases h : rateLimitMap ip with
  | some l => simp
  | none =>
    by_cases hx : x = ip
    · subst hx
      simp [h]
    · simp [Function.update_noteq hx]

/-- The result of a call and the timestamps stored after it. -/
theorem checkRateLimit_spec (rateLimitMap : RateLimitMap) (now : Int) (ip : String) :
    ((checkRateLimit rateLimitMap now ip).1 = true ↔
      ((storedTimes rateLimitMap ip).filter fun time => time > now - RATE_LIMIT_WINDOW).length <
        RATE_LIMIT_MAX_REQUESTS) ∧
    (∀ x, storedTimes (checkRateLimit rateLimitMap now ip).2 x =
      if x = ip ∧ (checkRateLimit rateLimitMap now ip).1 = true then
        ((storedTimes rateLimitMap ip).filter fun time => time > now - RATE_LIMIT_WINDOW) ++ [now]
      else storedTimes rateLimitMap x) := by
  unfold checkRateLimit
  simp only [storedTimes_withEntry]
  by_cases hfull : ((storedTimes rateLimitMap ip).filter
      fun time => time > now - RATE_LIMIT_WINDOW).length ≥ RATE_LIMIT_MAX_REQUESTS
  · simp only [hfull, if_true]
    refine ⟨?_, ?_⟩
    · constructor
      · intro h
        exact Bool.noConfusion h
      · intro h
        exact absurd hfull (Nat.not_le.2 h)
    · intro x
      rw [storedTimes_withEntry]
      simp
  · simp only [hfull, if_false]
    refine ⟨?_, ?_⟩
    · constructor
      · intro _
        exact Nat.not_le.1 hfull
      · intro _
        trivial
    · intro x
      by_cases hx : x = ip
      · subst hx
        simp [storedTimes]
      · have h1 : ¬ (x = ip ∧ True) := fun h => hx h.1
        rw [if_neg h1]
        have h2 := storedTimes_withEntry rateLimitMap ip x
        unfold storedTimes at h2 ⊢
        rw [Function.update_noteq hx]
        exact h2

/-- C18, as the code has it: a call of `checkRateLimit` made at time `now` that returns
`true` stores `now` as the last timestamp of the caller, after the stored timestamps
that are still in the window; a call that returns `false` records nothing, the
timestamps stored for the caller are what they were; the timestamps of the other
callers are never changed. -/
theorem C18_only_allowed_calls_are_recorded (rateLimitMap : RateLimitMap) (now : Int)
    (ip : String) :
    ((checkRateLimit rateLimitMap now ip).1 = true →
      storedTimes (checkRateLimit rateLimitMap now ip).2 ip =
          ((storedTimes rateLimitMap ip).filter fun time => time > now - 60000) ++ [now] ∧
        now ∈ storedTimes (checkRateLimit rateLimitMap now ip).2 ip) ∧
    ((checkRateLimit rateLimitMap now ip).1 = false →
      storedTimes (checkRateLimit rateLimitMap now ip).2 ip = storedTimes rateLimitMap ip) ∧
    (∀ other : String, other ≠ ip →
      storedTimes (checkRateLimit rateLimitMap now ip).2 other =
        storedTimes rateLimitMap other) := by
  obtain ⟨_, hstored⟩ := checkRateLimit_spec rateLimitMap now ip
  refine ⟨?_, ?_, ?_⟩
  · intro htrue
    have h := hstored ip
    rw [if_pos ⟨rfl, htrue⟩] at h
    have hw : now - RATE_LIMIT_WINDOW = now - 60000 := rfl
    rw [hw] at h
    rw [h]
    exact ⟨rfl, by simp⟩
  · intro hfalse
    have h := hstored ip
    have hcond : ¬ (ip = ip ∧ (checkRateLimit rateLimitMap now ip).1 = true) := by
      intro hc
      rw [hfalse] at hc
      exact Bool.noConfusion hc.2
    rw [if_neg hcond] at h
    exact h
  · intro other hother
    have h := hstored other
    have hcond : ¬ (other = ip ∧ (checkRateLimit rateLimitMap now ip).1 = true) :=
      fun hc => hother hc.1
    rw [if_neg hcond] at h
    exact h

/-- C18 at the empty map: the first call of a caller is allowed and recorded. -/
theorem C18_only_allowed_calls_are_recorded_witness :
    (checkRateLimit emptyRateLimitMap 1000 "10.0.0.1").1 = true ∧
      storedTimes (checkRateLimit emptyRateLimitMap 1000 "10.0.0.1").2 "10.0.0.1" = [1000] :=
  ⟨by decide,
    ((C18_only_allowed_calls_are_recorded emptyRateLimitMap 1000 "10.0.0.1").1
      (by decide)).1⟩

/-- C18 fails as stated: after the ten calls of `sampleBurst` at the times 1000 to
1009, the call of the same caller at time 1010 returns `false`, and 1010 is not among
the timestamps stored for that caller after the call. -/
theorem C18_counterexample :
    storedTimes (runRequests (sampleBurst.take 10)).rateLimitMap "10.0.0.1" =
        [1000, 1001, 1002, 1003, 1004, 1005, 1006, 1007, 1008, 1009] ∧
      (checkRateLimit (runRequests (sampleBurst.take 10)).rateLimitMap 1010 "10.0.0.1").1 =
        false ∧
      (1010 : Int) ∉ storedTimes
        (checkRateLimit (runRequests (sampleBurst.take 10)).rateLimitMap 1010 "10.0.0.1").2
        "10.0.0.1" := by
  decide

/-! ## C19: the sliding window -/

theorem runRequests_snoc (requests : List Request) (c : Request) :
    runRequests (requests ++ [c]) = serve (runRequests requests) c := by
  unfold runRequests
  rw [List.foldl_append]
  rfl

theorem log_serve (state : Limiter) (c : Request) :
    (serve state c).log =
      state.log ++ [{ ip := c.ip, now := c.now
                      allowed := (checkRateLimit state.rateLimitMap c.now c.ip).1 }] := rfl

theorem rateLimitMap_serve (state : Limiter) (c : Request) :
    (serve state c).rateLimitMap = (checkRateLimit state.rateLimitMap c.now c.ip).2 := rfl

theorem allowedTimes_snoc (log : List Served) (e : Served) (ip : String) :
    allowedTimes (log ++ [e]) ip =
      allowedTimes log ip ++ (if e.ip = ip ∧ e.allowed = true then [e.now] else []) := by
  unfold allowedTimes
  rw [List.filter_append, List.map_append]
  congr 1
  by_cases h : e.ip = ip ∧ e.allowed = true
  · rw [if_pos h]
    simp [List.filter_cons, h.1, h.2]
  · rw [if_neg h]
    have hcond : (decide (e.ip = ip) && e.allowed) = false := by
      by_cases h1 : e.ip = ip
      · have h2 : e.allowed = false := by
          cases ha : e.allowed with
          | false => rfl
          | true => exact absurd ⟨h1, ha⟩ h
        simp [h2]
      · simp [h1]
    simp [List.filter_cons, hcond]

theorem filter_gt_filter_gt (l : List Int) (low high : Int) (h : low ≤ high) :
    (l.filter fun time => decide (time > low)).filter (fun time => decide (time > high)) =
      l.filter fun time => decide (time > high) := by
  rw [List.filter_filter]
  apply List.filter_congr
  intro x _
  by_cases hx : x > high
  · have hx2 : x > low := lt_of_le_of_lt h hx
    simp [hx, hx2]
  · simp [hx]

/-- As long as the clock does not go back, the stored timestamps of a caller and the
times of its allowed calls agree on every window that a later call can look at. -/
theorem storedTimes_runRequests (requests : List Request)
    (hclock : (requests.map fun r => r.now).Pairwise (· ≤ ·)) :
    ∀ (ip : String) (low : Int), (∀ r ∈ requests, r.now - RATE_LIMIT_WINDOW ≤ low) →
      (storedTimes (runRequests requests).rateLimitMap ip).filter
          (fun time => decide (time > low)) =
        (allowedTimes (runRequests requests).log ip).filter
          (fun time => decide (time > low)) := by
  induction requests using List.reverseRecOn with
  | nil =>
    intro ip low _
    rfl
  | append_singleton P c ih =>
    intro ip low hlow
    rw [List.map_append, List.pairwise_append] at hclock
    obtain ⟨hP, _, hle⟩ := hclock
    have ih2 := ih hP
    have hlowP : ∀ r ∈ P, r.now - RATE_LIMIT_WINDOW ≤ low :=
      fun r hr => hlow r (List.mem_append_left _ hr)
    have hlowc : c.now - RATE_LIMIT_WINDOW ≤ low :=
      hlow c (List.mem_append_right _ (List.mem_singleton_self c))
    obtain ⟨_, hstored⟩ := checkRateLimit_spec (runRequests P).rateLimitMap c.now c.ip
    rw [runRequests_snoc, rateLimitMap_serve, log_serve, allowedTimes_snoc, hstored ip]
    by_cases hcond : c.ip = ip ∧ (checkRateLimit (runRequests P).rateLimitMap c.now c.ip).1 = true
    · obtain ⟨hip, hok⟩ := hcond
      subst hip
      rw [if_pos ⟨rfl, hok⟩, if_pos ⟨rfl, hok⟩, List.filter_append, List.filter_append,
        filter_gt_filter_gt _ _ _ hlowc, ih2 c.ip low hlowP]
    · have hcond2 : ¬ (ip = c.ip ∧
          (checkRateLimit (runRequests P).rateLimitMap c.now c.ip).1 = true) :=
        fun h => hcond ⟨h.1.symm, h.2⟩
      rw [if_neg hcond2, if_neg hcond, List.append_nil]
      exact ih2 ip low hlowP

theorem length_filter_le_of_imp (l : List Int) (p q : Int → Bool)
    (h : ∀ x, p x = true → q x = true) : (l.filter p).length ≤ (l.filter q).length := by
  induction l with
  | nil => simp
  | cons x xs ih =>
    by_cases hp : p x = true
    · rw [List.filter_cons_of_pos hp, List.filter_cons_of_pos (h x hp)]
      simp only [List.length_cons]
      omega
    · rw [List.filter_cons_of_neg hp]
      by_cases hq : q x = true
      · rw [List.filter_cons_of_pos hq]
        simp only [List.length_cons]
        omega
      · rw [List.filter_cons_of_neg hq]
        exact ih

/-- At most ten allowed calls of a caller in any window of one minute. -/
theorem allowedTimes_window (requests : List Request)
    (hclock : (requests.map fun r => r.now).Pairwise (· ≤ ·)) (ip : String) (t : Int) :
    ((allowedTimes (runRequests requests).log ip).filter
      fun time => decide (t - RATE_LIMIT_WINDOW < time) && decide (time ≤ t)).length ≤
      RATE_LIMIT_MAX_REQUESTS := by
  induction requests using List.reverseRecOn with
  | nil => simp [runRequests, allowedTimes]
  | append_singleton P c ih =>
    have hclock0 := hclock
    rw [List.map_append, List.pairwise_append] at hclock
    obtain ⟨hP, _, hle⟩ := hclock
    have ih2 := ih hP
    rw [runRequests_snoc, log_serve, allowedTimes_snoc]
    by_cases hcond : c.ip = ip ∧ (checkRateLimit (runRequests P).rateLimitMap c.now c.ip).1 = true
    · obtain ⟨hip, hok⟩ := hcond
      subst hip
      rw [if_pos ⟨rfl, hok⟩, List.filter_append, List.length_append]
      show ((allowedTimes (runRequests P).log c.ip).filter
          fun time => decide (t - RATE_LIMIT_WINDOW < time) && decide (time ≤ t)).length +
        ([c.now].filter
          fun time => decide (t - RATE_LIMIT_WINDOW < time) && decide (time ≤ t)).length ≤
        RATE_LIMIT_MAX_REQUESTS
      have ih3 := ih2
      by_cases hin : t - RATE_LIMIT_WINDOW < c.now ∧ c.now ≤ t
      · obtain ⟨hallow, _⟩ := checkRateLimit_spec (runRequests P).rateLimitMap c.now c.ip
        have hfew := hallow.1 hok
        have hsame := storedTimes_runRequests P hP c.ip (c.now - RATE_LIMIT_WINDOW) (by
          intro r hr
          have h1 : r.now ≤ c.now :=
            hle r.now (List.mem_map.2 ⟨r, hr, rfl⟩) c.now (by simp)
          omega)
        rw [hsame] at hfew
        have hmono := length_filter_le_of_imp (allowedTimes (runRequests P).log c.ip)
          (fun time => decide (t - RATE_LIMIT_WINDOW < time) && decide (time ≤ t))
          (fun time => decide (time > c.now - RATE_LIMIT_WINDOW)) (by
            intro x hx
            simp only [Bool.and_eq_true, decide_eq_true_eq] at hx
            simp only [decide_eq_true_eq]
            omega)
        have hone : ([c.now].filter
            fun time => decide (t - RATE_LIMIT_WINDOW < time) && decide (time ≤ t)).length ≤ 1 :=
          le_trans (List.length_filter_le _ _) (by simp)
        omega
      · have hzero : ([c.now].filter
            fun time => decide (t - RATE_LIMIT_WINDOW < time) && decide (time ≤ t)) = [] := by
          rw [List.filter_cons_of_neg]
          · rfl
          · simp only [Bool.and_eq_true, decide_eq_true_eq]
            exact hin
        rw [hzero, List.length_nil, Nat.add_zero]
        exact ih3
    · rw [if_neg hcond, List.append_nil]
      exact ih2

theorem checkRateLimit_congr (first second : RateLimitMap) (now : Int) (ip : String)
    (h : storedTimes first ip = storedTimes second ip) :
    (checkRateLimit first now ip).1 = (checkRateLimit second now ip).1 ∧
      storedTimes (checkRateLimit first now ip).2 ip =
        storedTimes (checkRateLimit second now ip).2 ip := by
  obtain ⟨a1, s1⟩ := checkRateLimit_spec first now ip
  obtain ⟨a2, s2⟩ := checkRateLimit_spec second now ip
  have hres : (checkRateLimit first now ip).1 = (checkRateLimit second now ip).1 := by
    rw [h] at a1
    cases h1 : (checkRateLimit first now ip).1 <;> cases h2 : (checkRateLimit second now ip).1
    · rfl
    · exact absurd (a1.2 (a2.1 h2)) (by rw [h1]; exact Bool.noConfusion)
    · exact absurd (a2.2 (a1.1 h1)) (by rw [h2]; exact Bool.noConfusion)
    · rfl
  refine ⟨hres, ?_⟩
  rw [s1 ip, s2 ip, hres, h]

theorem resultsOf_snoc (log : List Served) (e : Served) (ip : String) :
    resultsOf (log ++ [e]) ip = resultsOf log ip ++ (if e.ip = ip then [e.allowed] else []) := by
  unfold resultsOf
  rw [List.filter_append, List.map_append]
  congr 1
  by_cases h : e.ip = ip
  · simp [List.filter_cons, h]
  · simp [List.filter_cons, h]

/-- The calls of the other callers change neither the results of a caller nor the
timestamps stored for it. -/
theorem runRequests_filter (requests : List Request) (ip : String) :
    storedTimes (runRequests requests).rateLimitMap ip =
        storedTimes (runRequests (requests.filter fun r => decide (r.ip = ip))).rateLimitMap ip ∧
      resultsOf (runRequests requests).log ip =
        (runRequests (requests.filter fun r => decide (r.ip = ip))).log.map
          (fun e => e.allowed) := by
  induction requests using List.reverseRecOn with
  | nil => exact ⟨rfl, rfl⟩
  | append_singleton P c ih =>
    obtain ⟨ih1, ih2⟩ := ih
    rw [List.filter_append, runRequests_snoc, rateLimitMap_serve, log_serve, resultsOf_snoc]
    by_cases hc : c.ip = ip
    · have hfilter : ([c].filter fun r => decide (r.ip = ip)) = [c] := by
        simp [List.filter_cons, hc]
      rw [hfilter, runRequests_snoc, rateLimitMap_serve, log_serve, List.map_append]
      subst hc
      obtain ⟨h1, h2⟩ := checkRateLimit_congr (runRequests P).rateLimitMap
        (runRequests (P.filter fun r => decide (r.ip = c.ip))).rateLimitMap c.now c.ip ih1
      refine ⟨h2, ?_⟩
      rw [if_pos rfl, ih2]
      simp only [List.map_cons, List.map_nil]
      rw [h1]
    · have hfilter : ([c].filter fun r => decide (r.ip = ip)) = [] := by
        simp [List.filter_cons, hc]
      rw [hfilter, List.append_nil, if_neg hc, List.append_nil]
      refine ⟨?_, ih2⟩
      obtain ⟨_, hstored⟩ := checkRateLimit_spec (runRequests P).rateLimitMap c.now c.ip
      rw [hstored ip, if_neg (fun h => hc h.1.symm)]
      exact ih1

theorem log_runRequests (requests : List Request) :
    (runRequests requests).log.map (fun e => ({ ip := e.ip, now := e.now } : Request)) =
      requests := by
  induction requests using List.reverseRecOn with
  | nil => rfl
  | append_singleton P c ih =>
    rw [runRequests_snoc, log_serve, List.map_append, ih]
    rfl

/-- C19: starting from the empty map, for every sequence of calls of `checkRateLimit`
made at clock readings that never decrease, every caller and every instant `t`, at
most 10 of the calls of that caller made at a time in `(t - 60000, t]` returned
`true`; and the results of a caller are those it would get if the other callers made
no call at all. -/
theorem C19_sliding_window (requests : List Request)
    (hclock : (requests.map fun r => r.now).Pairwise (· ≤ ·)) :
    (runRequests requests).log.map (fun e => ({ ip := e.ip, now := e.now } : Request)) =
        requests ∧
      (∀ (ip : String) (t : Int),
        ((runRequests requests).log.filter fun e =>
          decide (e.ip = ip) && e.allowed && decide (t - 60000 < e.now) &&
            decide (e.now ≤ t)).length ≤ 10) ∧
      (∀ ip : String,
        resultsOf (runRequests requests).log ip =
          (runRequests (requests.filter fun r => decide (r.ip = ip))).log.map
            (fun e => e.allowed)) := by
  refine ⟨log_runRequests requests, ?_, fun ip => (runRequests_filter requests ip).2⟩
  intro ip t
  have h := allowedTimes_window requests hclock ip t
  unfold allowedTimes at h
  rw [List.filter_map, List.length_map, List.filter_filter] at h
  have hw : RATE_LIMIT_WINDOW = 60000 := rfl
  have hm : RATE_LIMIT_MAX_REQUESTS = 10 := rfl
  rw [hw, hm] at h
  have heq : ((runRequests requests).log.filter fun e =>
      decide (e.ip = ip) && e.allowed && decide (t - 60000 < e.now) && decide (e.now ≤ t)) =
      (runRequests requests).log.filter fun a =>
        ((fun time => decide (t - 60000 < time) && decide (time ≤ t)) ∘ fun e => e.now) a &&
          (decide (a.ip = ip) && a.allowed) := by
    apply List.filter_congr
    intro e _
    simp only [Function.comp]
    cases decide (e.ip = ip) <;> cases e.allowed <;> cases decide (t - 60000 < e.now) <;>
      cases decide (e.now ≤ t) <;> rfl
  rw [heq]
  exact h

/-- C19 at `sampleTwoCallers`: each caller makes twelve calls within 12 milliseconds,
ten of which are allowed. -/
theorem C19_sliding_window_witness :
    ((sampleTwoCallers.map fun r => r.now).Pairwise (· ≤ ·)) ∧
      ((runRequests sampleTwoCallers).log.filter fun e =>
        decide (e.ip = "10.0.0.1") && e.allowed && decide ((1011 : Int) - 60000 < e.now) &&
          decide (e.now ≤ 1011)).length ≤ 10 ∧
      resultsOf (runRequests sampleTwoCallers).log "10.0.0.1" =
        [true, true, true, true, true, true, true, true, true, true, false, false] :=
  have hclock : (sampleTwoCallers.map fun r => r.now).Pairwise (· ≤ ·) := by decide
  ⟨hclock, (C19_sliding_window sampleTwoCallers hclock).2.1 "10.0.0.1" 1011, by decide⟩

end Lolboard
